import Mathlib

/-!
# sqrape: filling records from HTML through CSS field tags

A shallow embedding of `csstostruct.go` (package `sqrape`) and theorems about it.

Conventions of the embedding

* A Go `string` is a list of Unicode characters (`Str`).
* A Go function returning `(T, error)` returns `Except Str T`; a function that can also
  panic, or that takes part in the recursion of `extractByTags`, returns an `Outcome`.
* Mutable state (the destination record behind the `dest` pointer and the map
  `collectedFieldValues`) is passed explicitly: a method of `*cssStructer` returns the
  new `cssStructer` next to its outcome.
* The libraries the program calls (goquery, reflections, structs, mapstructure) are outside
  the repository.  The small, structural part of their behaviour (length and iteration of a
  selection, field lookup by reflection) is embedded directly; selector matching, the
  struct-to-map conversion of `structs.Map` and the coercion of `mapstructure.WeakDecode`
  are parameters, collected in `Env`.
-/

namespace Sqrape

/-! ## Strings -/

/-- A Go string, as the list of its characters. -/
abbrev Str := List Char

deriving instance DecidableEq for Except

/-- The words of the tag grammar and of the extraction modes. -/
def kwObj : Str := ['o', 'b', 'j']
def kwAttr : Str := ['a', 't', 't', 'r']
def kwText : Str := ['t', 'e', 'x', 't']
def kwHtml : Str := ['h', 't', 'm', 'l']

/-- Go `unicode.IsSpace`: the Latin-1 spaces `\t \n \v \f \r`, space, U+0085, U+00A0, and
the other code points with the White_Space property. -/
def isSpace (c : Char) : Bool :=
  let n := c.toNat
  (9 ≤ n && n ≤ 13) || n == 0x20 || n == 0x85 || n == 0xA0 || n == 0x1680 ||
  (0x2000 ≤ n && n ≤ 0x200A) || n == 0x2028 || n == 0x2029 || n == 0x202F ||
  n == 0x205F || n == 0x3000

/-- Go `strings.TrimSpace`: the string without its leading and trailing white space. -/
def TrimSpace (s : Str) : Str :=
  List.rdropWhile isSpace (List.dropWhile isSpace s)

/-- Go `strings.Split(s, sep)` for a separator of one character: the pieces of `s` between
the occurrences of `sep`, in order; one more piece than there are separators. -/
def Split (sep : Char) : Str → List Str
  | [] => [[]]
  | c :: cs =>
    if c = sep then [] :: Split sep cs
    else
      match Split sep cs with
      | [] => [[c]]
      | p :: ps => (c :: p) :: ps

/-- Go `strings.HasPrefix(s, pre)`. -/
def HasPrefix (s pre : Str) : Bool :=
  pre.isPrefixOf s

/-! ## The tag parser -/

/-- Embedding of `parseTag`: on success the triple `(selector, valueType, attrName)`.
In object mode the named result `valueType` is returned unset, that is empty. -/
def parseTag (tag : Str) : Except Str (Str × Str × Str) :=
  let bits := Split ';' (TrimSpace tag)
  if bits.length ≠ 2 then
    .error ("Failed to split tag: ".toList ++ tag)
  else
    let selector := bits.getD 0 []
    let bits1 := bits.getD 1 []
    if HasPrefix bits1 kwObj then
      .ok (selector, [], [])
    else if HasPrefix bits1 kwAttr then
      let bits2 := Split '=' (TrimSpace bits1)
      if bits2.length < 2 then
        .error ("Failed to split attribute in tag: ".toList ++ tag)
      else
        .ok (selector, kwAttr, bits2.getD 1 [])
    else if bits1 ≠ kwText ∧ bits1 ≠ kwHtml then
      .error ("Invalid valueType, must be one of attr/text/html/obj: ".toList ++ tag)
    else
      .ok (selector, bits1, [])

/-! ## Outcomes -/

/-- How a call ends: it returns normally (`ok`), returns a non-nil `error`, panics, or
recurses deeper than the fuel given to `extractByTags` allows. -/
inductive Outcome (α : Type) where
  | ok (a : α)
  | error (err : Str)
  | panic (msg : Str)
  | outOfFuel
  deriving DecidableEq, Repr

/-! ## Go types and values as seen through reflection -/

/-- Go `reflect.Kind`. -/
inductive Kind where
  | Invalid | Bool | Int | Int8 | Int16 | Int32 | Int64
  | Uint | Uint8 | Uint16 | Uint32 | Uint64 | Uintptr
  | Float32 | Float64 | Complex64 | Complex128
  | Array | Chan | Func | Interface | Map | Ptr | Slice | String | Struct | UnsafePointer
  deriving DecidableEq, Repr

/-- Go `Kind.String()`, the printed name of a kind. -/
def Kind.printed : Kind → Str
  | .Invalid => "invalid".toList | .Bool => "bool".toList | .Int => "int".toList
  | .Int8 => "int8".toList | .Int16 => "int16".toList | .Int32 => "int32".toList
  | .Int64 => "int64".toList | .Uint => "uint".toList | .Uint8 => "uint8".toList
  | .Uint16 => "uint16".toList | .Uint32 => "uint32".toList | .Uint64 => "uint64".toList
  | .Uintptr => "uintptr".toList | .Float32 => "float32".toList | .Float64 => "float64".toList
  | .Complex64 => "complex64".toList | .Complex128 => "complex128".toList
  | .Array => "array".toList | .Chan => "chan".toList | .Func => "func".toList
  | .Interface => "interface".toList | .Map => "map".toList | .Ptr => "ptr".toList
  | .Slice => "slice".toList | .String => "string".toList | .Struct => "struct".toList
  | .UnsafePointer => "unsafe.Pointer".toList

/-- The kinds of the types whose structure the program never looks into: every kind of a
Go type except struct, slice and array. -/
inductive PrimKind where
  | Bool | Int | Int8 | Int16 | Int32 | Int64
  | Uint | Uint8 | Uint16 | Uint32 | Uint64 | Uintptr
  | Float32 | Float64 | Complex64 | Complex128
  | Chan | Func | Interface | Map | Ptr | String | UnsafePointer
  deriving DecidableEq, Repr

/-- The `reflect.Kind` of a type of the given primitive kind. -/
def PrimKind.Kind : PrimKind → Sqrape.Kind
  | .Bool => .Bool | .Int => .Int | .Int8 => .Int8 | .Int16 => .Int16 | .Int32 => .Int32
  | .Int64 => .Int64 | .Uint => .Uint | .Uint8 => .Uint8 | .Uint16 => .Uint16
  | .Uint32 => .Uint32 | .Uint64 => .Uint64 | .Uintptr => .Uintptr
  | .Float32 => .Float32 | .Float64 => .Float64 | .Complex64 => .Complex64
  | .Complex128 => .Complex128 | .Chan => .Chan | .Func => .Func
  | .Interface => .Interface | .Map => .Map | .Ptr => .Ptr | .String => .String
  | .UnsafePointer => .UnsafePointer

/-- A Go type, as far as the program inspects it.  A struct type is referred to by its
name and declared in the environment, so that a struct type may mention itself (through a
slice), as Go allows. -/
inductive GoType where
  | prim (k : PrimKind)
  | struct (name : Str)
  | slice (elem : GoType)
  | array (len : Nat) (elem : GoType)
  deriving DecidableEq, Repr

/-- Go `Type.Kind()`. -/
def GoType.Kind : GoType → Sqrape.Kind
  | .prim k => k.Kind
  | .struct _ => .Struct
  | .slice _ => .Slice
  | .array _ _ => .Array

/-- Go `Type.Elem()` of a slice or array type; it panics on the types modelled otherwise. -/
def GoType.Elem : GoType → Option GoType
  | .slice e => some e
  | .array _ e => some e
  | _ => none

/-- One exported field of a struct type: its name, the value `Tag.Get("csss")` of its
struct tag (empty when the field has no such tag) and its type.  Unexported fields are
invisible to the reflection calls the program makes and are left out. -/
structure FieldDecl where
  Name : Str
  Tag : Str
  Typ : GoType
  deriving DecidableEq, Repr

/-- A Go value: of a destination record, or loosely typed (`interface{}`) in the collected
map.  `zero` is the zero value of whatever type is expected; a struct value lists the
fields that have been written, the others being `zero`; `reflectValue v` is a value of
type `reflect.Value` that refers to `v`. -/
inductive Value where
  | zero
  | str (s : Str)
  | other (k : Kind) (repr : Str)
  | seq (xs : List Value)
  | struct (fields : List (Str × Value))
  | map (entries : List (Str × Value))
  | reflectValue (v : Value)

instance : Inhabited Value := ⟨.zero⟩

/-- The order in which the keys of a map are listed: the lexicographic order of strings. -/
def keyLt : Str → Str → Bool
  | [], [] => false
  | [], _ :: _ => true
  | _ :: _, [] => false
  | a :: as, b :: bs => if a < b then true else if a = b then keyLt as bs else false

/-- The assignment `m[k] = x` on a Go map.  A Go map has no order of its own: it is held
as an association list whose entries are listed by increasing key, the new entry being put
in its place, so that the contents of a map do not depend on the order of the
assignments that built it. -/
def mapSet {β : Type} (m : List (Str × β)) (k : Str) (x : β) : List (Str × β) :=
  match m with
  | [] => [(k, x)]
  | (k', y) :: r =>
    if k' = k then (k, x) :: r
    else if keyLt k k' then (k, x) :: (k', y) :: r
    else (k', y) :: mapSet r k x

/-- The entries of the map are listed by increasing key. -/
def keysSorted {β : Type} (m : List (Str × β)) : Prop :=
  (m.map Prod.fst).Pairwise (fun a b => keyLt a b = true)

/-- The fields written in a struct value. -/
def Value.fields : Value → List (Str × Value)
  | .struct fs => fs
  | _ => []

/-- The value of a field of a struct value. -/
def Value.getField (v : Value) (name : Str) : Value :=
  (v.fields.lookup name).getD .zero

/-- The struct value with one field overwritten; the written fields are listed by name,
as the entries of a map are. -/
def Value.setField (v : Value) (name : Str) (x : Value) : Value :=
  .struct (mapSet v.fields name x)

/-- The string held by a value, if it is one. -/
def Value.asStr : Value → Option Str
  | .str s => some s
  | _ => none

/-! ## The document: goquery selections -/

/-- What the program can observe of one element node of the parsed document: its text
content, the rendering of its inner markup (which may fail) and its attributes. -/
structure Node where
  text : Str
  html : Except Str Str
  attrs : List (Str × Str)

/-- A goquery `Selection`: the matched nodes, in document order. -/
structure Selection where
  Nodes : List Node

/-- goquery `Length`. -/
def Selection.Length (s : Selection) : Nat :=
  s.Nodes.length

/-- goquery `Text`: the combined text contents of the matched nodes. -/
def Selection.Text (s : Selection) : Str :=
  (s.Nodes.map Node.text).flatten

/-- goquery `Html`: the inner markup of the first matched node, empty for no node. -/
def Selection.Html (s : Selection) : Except Str Str :=
  match s.Nodes with
  | [] => .ok []
  | n :: _ => n.html

/-- goquery `Attr`: the named attribute of the first matched node, with its presence. -/
def Selection.Attr (s : Selection) (attrName : Str) : Option Str :=
  match s.Nodes with
  | [] => none
  | n :: _ => n.attrs.lookup attrName

/-- The loop of goquery `Each`: the callback runs on the one-node selection of every
matched node, in order, with its index; `st` is the state the callback captures.  The
callback itself returns nothing: its outcome is `ok` with the new state unless it panics
or does not come back, which ends the loop. -/
def eachLoop {σ : Type} (f : Nat → Selection → σ → Outcome σ) :
    List Node → Nat → σ → Outcome σ
  | [], _, st => .ok st
  | n :: ns, idx, st =>
    match f idx ⟨[n]⟩ st with
    | .ok st' => eachLoop f ns (idx + 1) st'
    | .error e => .error e
    | .panic m => .panic m
    | .outOfFuel => .outOfFuel

/-- goquery `Each`. -/
def Selection.Each {σ : Type} (s : Selection) (f : Nat → Selection → σ → Outcome σ)
    (init : σ) : Outcome σ :=
  eachLoop f s.Nodes 0 init

/-! ## The environment: declared types and library behaviour taken as given -/

/-- What the program takes from outside.
* `types`: the exported fields, in declaration order, of each declared struct type;
* `Find`: goquery `Selection.Find`, the selector engine;
* `rangeOrder`: the order in which a `range` loop visits the entries of a Go map (the
  language leaves it unspecified);
* `structsMap`: `structs.Map` of fatih/structs;
* `WeakDecode`: `mapstructure.WeakDecode(input, output)`, as the new contents behind the
  `output` pointer (of the given type) and the error returned;
* `NewDocument`: goquery `NewDocumentFromReader`, on the text read. -/
structure Env where
  types : Str → List FieldDecl
  Find : Selection → Str → Selection
  rangeOrder : List (Str × Str) → List (Str × Str)
  structsMap : Value → Value
  WeakDecode : List (Str × Value) → GoType → Value → Value × Option Str
  NewDocument : Str → Except Str Selection

/-- The recursive call a function is given: `extractByTags` on a selection and a pointer
to a value of the given type with the given contents; it returns the new contents. -/
abbrev Extractor := Selection → GoType → Value → Value × Outcome Unit

/-- The fields of the struct type behind a pointer; none for another type. -/
def structFields (env : Env) : GoType → Option (List FieldDecl)
  | .struct name => some (env.types name)
  | _ => none

/-- Go `FieldByName` on a struct type. -/
def fieldByName (fields : List FieldDecl) (name : Str) : Option FieldDecl :=
  fields.find? (fun f => f.Name == name)

/-- Library call `reflections.Tags(obj, "csss")` on a pointer to a value of type `ty`: the
map from the name of every exported field to its `csss` tag, empty for a field without
one.  On a pointer to something that is not a struct the reflection call panics. -/
def Tags (env : Env) (ty : GoType) : Outcome (List (Str × Str)) :=
  match structFields env ty with
  | none => .panic "reflect: NumField of non-struct type".toList
  | some fs => .ok (fs.foldl (fun m f => mapSet m f.Name f.Tag) [])

/-- Library call `reflections.GetFieldKind(obj, name)`. -/
def GetFieldKind (env : Env) (ty : GoType) (name : Str) : Outcome Kind :=
  match structFields env ty with
  | none => .panic "reflect: call of reflect.Value.FieldByName on non-struct Value".toList
  | some fs =>
    match fieldByName fs name with
    | none => .error ("No such field: ".toList ++ name ++ " in obj".toList)
    | some f => .ok f.Typ.Kind

/-- Library call `reflections.GetField(obj, name)`: the field as an interface value, that
is its dynamic type and its contents. -/
def GetField (env : Env) (ty : GoType) (obj : Value) (name : Str) : Outcome (GoType × Value) :=
  match structFields env ty with
  | none => .panic "reflect: call of reflect.Value.FieldByName on non-struct Value".toList
  | some fs =>
    match fieldByName fs name with
    | none => .error ("No such field: ".toList ++ name ++ " in obj".toList)
    | some f => .ok (f.Typ, obj.getField name)

/-- Library call `reflections.Items(obj)` on a pointer to a value of type `ty`: the map
from the name of every exported field to its value. -/
def Items (env : Env) (ty : GoType) (obj : Value) : Outcome (List (Str × Value)) :=
  match structFields env ty with
  | none => .panic "reflect: NumField of non-struct type".toList
  | some fs => .ok (fs.foldl (fun m f => mapSet m f.Name (obj.getField f.Name)) [])

/-! ## The extraction engine -/

/-- Embedding of the type `cssStructer`.  `targetStruct` is a pointer in the source: here
the type it points to and the contents behind it. -/
structure cssStructer where
  targetType : GoType
  targetStruct : Value
  collectedFieldValues : List (Str × Value)

/-- The assignment `cs.collectedFieldValues[fieldName] = x`. -/
def cssStructer.store (cs : cssStructer) (fieldName : Str) (x : Value) : cssStructer :=
  { cs with collectedFieldValues := mapSet cs.collectedFieldValues fieldName x }

/-- Embedding of `getFieldValue`. -/
def getFieldValue (fieldValue attrName : Str) (sel : Selection) : Outcome Str :=
  if fieldValue = kwText then
    .ok sel.Text
  else if fieldValue = kwHtml then
    match sel.Html with
    | .ok val => .ok val
    | .error e => .error e
  else if fieldValue = kwAttr then
    match sel.Attr attrName with
    | none =>
      let outHTML := match sel.Html with
        | .ok h => h
        | .error _ => []
      .error ("Attribute '".toList ++ attrName ++ "' not found in selection: ".toList ++ outHTML)
    | some val => .ok val
  else
    .panic ("Bad fieldValue: ".toList ++ fieldValue)

/-- Embedding of `getFieldAndPointer`: `direct`, the `reflect.Value` of the field, and
`pointer`, the address of the field, given as the field's type with its contents.  It
panics if given a bad field name. -/
def getFieldAndPointer (env : Env) (thingType : GoType) (thing : Value) (fieldName : Str) :
    Outcome (Value × (GoType × Value)) :=
  match structFields env thingType with
  | none => .panic "reflect: call of reflect.Value.FieldByName on non-struct Value".toList
  | some fs =>
    match fieldByName fs fieldName with
    | none => .panic "reflect: call of reflect.Value.Addr on zero Value".toList
    | some f => .ok (.reflectValue (thing.getField fieldName), (f.Typ, thing.getField fieldName))

/-- Embedding of `GetValue`. -/
def cssStructer.GetValue (env : Env) (cs : cssStructer) : cssStructer × Outcome Unit :=
  match env.WeakDecode cs.collectedFieldValues cs.targetType cs.targetStruct with
  | (v, none) => ({ cs with targetStruct := v }, .ok ())
  | (v, some e) => ({ cs with targetStruct := v }, .error e)

/-- The closure `setFieldValueByType` passes to `sel.Each` for a slice of structs: it
fills a new value of the element type from the element `el` and appends its map of items
to `selarray`; on an error it returns without appending. -/
def structElement (env : Env) (extract : Extractor) (sliceOfType : GoType) (_ : Nat)
    (el : Selection) (selarray : List Value) : Outcome (List Value) :=
  match extract el sliceOfType .zero with
  | (val, .ok ()) =>
    match Items env sliceOfType val with
    | .ok mval => .ok (selarray ++ [.map mval])
    | .error _ => .ok selarray
    | .panic m => .panic m
    | .outOfFuel => .outOfFuel
  | (_, .error _) => .ok selarray
  | (_, .panic m) => .panic m
  | (_, .outOfFuel) => .outOfFuel

/-- The closure `setFieldValueByType` passes to `sel.Each` for a slice of a basic type: it
appends the value extracted from the element `el` to `selarray`; on an error it returns
without appending. -/
def basicElement (fieldValue attrName : Str) (_ : Nat) (el : Selection)
    (selarray : List Value) : Outcome (List Value) :=
  match getFieldValue fieldValue attrName el with
  | .ok val => .ok (selarray ++ [.str val])
  | .error _ => .ok selarray
  | .panic m => .panic m
  | .outOfFuel => .outOfFuel

/-- The `switch sliceKind` of `setFieldValueByType`: the slice `selarray` it leaves, or
the error it returns for an element kind that is not supported. -/
def fillSlice (env : Env) (extract : Extractor) (fieldValue attrName : Str) (sel : Selection)
    (sliceOfType : GoType) : Outcome (List Value) :=
  let sliceKind := sliceOfType.Kind
  match sliceKind with
  | .Struct =>
    sel.Each (structElement env extract sliceOfType) []
  | .Bool | .String | .Int | .Int8 | .Int16 | .Int32 | .Int64
  | .Uint | .Uint8 | .Uint16 | .Uint32 | .Uint64 | .Uintptr
  | .Float32 | .Float64 =>
    sel.Each (basicElement fieldValue attrName) []
  | _ =>
    .error ("Field is of an unsupported slice value kind: ".toList ++ sliceKind.printed)

/-- Embedding of `setFieldValueByType`; `extract` is the recursive call of
`extractByTags`.  The nested record of a struct field is extracted in place, through the
pointer to the field, so the destination changes whatever the outcome. -/
def cssStructer.setFieldValueByType (env : Env) (extract : Extractor) (cs : cssStructer)
    (fieldValue fieldName attrName : Str) (sel : Selection) : cssStructer × Outcome Unit :=
  match GetFieldKind env cs.targetType fieldName with
  | .error e => (cs, .error e)
  | .panic m => (cs, .panic m)
  | .outOfFuel => (cs, .outOfFuel)
  | .ok fieldKind =>
    match fieldKind with
    | .Struct =>
      match getFieldAndPointer env cs.targetType cs.targetStruct fieldName with
      | .error e => (cs, .error e)
      | .panic m => (cs, .panic m)
      | .outOfFuel => (cs, .outOfFuel)
      | .ok (_, (fieldType, pointee)) =>
        match extract sel fieldType pointee with
        | (pointee', .ok ()) =>
          (({ cs with targetStruct := cs.targetStruct.setField fieldName pointee' }).store
              fieldName (env.structsMap (.reflectValue pointee')),
            .ok ())
        | (pointee', err) =>
          ({ cs with targetStruct := cs.targetStruct.setField fieldName pointee' }, err)
    | .Array | .Slice =>
      match GetField env cs.targetType cs.targetStruct fieldName with
      | .error e => (cs, .error e)
      | .panic m => (cs, .panic m)
      | .outOfFuel => (cs, .outOfFuel)
      | .ok (sliceType, _) =>
        match sliceType.Elem with
        | none => (cs, .panic "reflect: Elem of invalid type".toList)
        | some sliceOfType =>
          let filled := fillSlice env extract fieldValue attrName sel sliceOfType
          match filled with
          | .ok selarray => (cs.store fieldName (.seq selarray), .ok ())
          | .error e => (cs, .error e)
          | .panic m => (cs, .panic m)
          | .outOfFuel => (cs, .outOfFuel)
    | _ =>
      match getFieldValue fieldValue attrName sel with
      | .ok val => (cs.store fieldName (.str val), .ok ())
      | .error e => (cs, .error e)
      | .panic m => (cs, .panic m)
      | .outOfFuel => (cs, .outOfFuel)

/-- Embedding of `parseField`. -/
def cssStructer.parseField (env : Env) (extract : Extractor) (cs : cssStructer)
    (fieldName tag : Str) (resp : Selection) : cssStructer × Outcome Unit :=
  match parseTag tag with
  | .error e => (cs, .error e)
  | .ok (selector, valueType, attrName) =>
    let sel := if selector = [] then resp else env.Find resp selector
    cs.setFieldValueByType env extract valueType fieldName attrName sel

/-- The `range` loop of `parseTargetFields` over the entries of the tag map, in the order
the loop visits them: it stops at the first field that does not return normally. -/
def parseTargetFieldsLoop (env : Env) (extract : Extractor) (resp : Selection) :
    List (Str × Str) → cssStructer → cssStructer × Outcome Unit
  | [], cs => (cs, .ok ())
  | (fieldName, fieldTag) :: rest, cs =>
    match cs.parseField env extract fieldName fieldTag resp with
    | (cs', .ok ()) => parseTargetFieldsLoop env extract resp rest cs'
    | (cs', err) => (cs', err)

/-- Embedding of `parseTargetFields`. -/
def cssStructer.parseTargetFields (env : Env) (extract : Extractor) (cs : cssStructer)
    (resp : Selection) : cssStructer × Outcome Unit :=
  match Tags env cs.targetType with
  | .error e => (cs, .error e)
  | .panic m => (cs, .panic m)
  | .outOfFuel => (cs, .outOfFuel)
  | .ok structTags => parseTargetFieldsLoop env extract resp (env.rangeOrder structTags) cs

/-- Embedding of `prepStructer`.  On failure the source returns a nil `*cssStructer`; the
state is returned all the same, to show the contents left behind the `dest` pointer. -/
def prepStructer (env : Env) (extract : Extractor) (src : Selection) (destType : GoType)
    (dest : Value) : cssStructer × Outcome Unit :=
  let cs : cssStructer :=
    { targetType := destType, targetStruct := dest, collectedFieldValues := [] }
  cs.parseTargetFields env extract src

/-- The body of `extractByTags`, given the function to call for the nested records. -/
def extractByTagsBody (env : Env) (extract : Extractor) : Extractor :=
  fun src destType dest =>
    match prepStructer env extract src destType dest with
    | (cs, .ok ()) =>
      match cs.GetValue env with
      | (cs', r) => (cs'.targetStruct, r)
    | (cs, err) => (cs.targetStruct, err)

/-- Embedding of `extractByTags`: `dest` points to a value of type `destType` with contents
`dest`; the result is the contents after the call and the outcome.  `fuel` bounds the depth
of the recursion through nested records. -/
def extractByTags (env : Env) : Nat → Extractor
  | 0 => fun _ _ dest => (dest, .outOfFuel)
  | fuel + 1 => extractByTagsBody env (extractByTags env fuel)

/-- Embedding of `mapFromTags`. -/
def mapFromTags (env : Env) (fuel : Nat) (src : Selection) (templateType : GoType)
    (template : Value) : Value × Outcome (List (Str × Value)) :=
  match prepStructer env (extractByTags env fuel) src templateType template with
  | (cs, .ok ()) => (cs.targetStruct, .ok cs.collectedFieldValues)
  | (cs, .error e) => (cs.targetStruct, .error e)
  | (cs, .panic m) => (cs.targetStruct, .panic m)
  | (cs, .outOfFuel) => (cs.targetStruct, .outOfFuel)

/-- Embedding of `ExtractHTMLReader`, on the text the reader delivers. -/
def ExtractHTMLReader (env : Env) (fuel : Nat) (reader : Str) (destType : GoType)
    (dest : Value) : Value × Outcome Unit :=
  match env.NewDocument reader with
  | .error e => (dest, .error e)
  | .ok doc => extractByTags env fuel doc destType dest

/-- Embedding of `ExtractHTMLString`. -/
def ExtractHTMLString (env : Env) (fuel : Nat) (document : Str) (destType : GoType)
    (dest : Value) : Value × Outcome Unit :=
  ExtractHTMLReader env fuel document destType dest

/-! ## A worked example

The document

    <div class="author"><span>Name</span></div>
    <h1>Title</h1>
    <a>link</a>
    <ul><li data-id="1">one</li><li>two</li><li data-id="3">three</li></ul>

and the destination types

    type Author   struct { Name string     [csss:"span;text"] }
    type Page     struct { Author Author   [csss:".author;obj"]
                           Href string     [csss:"a;attr=href"] }
    type Listing  struct { Ids []string    [csss:"li;attr=data-id"] }
    type Entry    struct { Id string       [csss:";attr=data-id"] }
    type Entries  struct { Rows []Entry    [csss:"li;obj"] }
    type Heading  struct { Title string    [csss:"h1;obj"] }
    type Callback struct { F func()        [csss:"h1;text"] }
    type Hooks    struct { Fs []func()     [csss:"li;text"] }
-/

def spanNode : Node := ⟨"Name".toList, .ok "Name".toList, []⟩
def authorNode : Node :=
  ⟨"Name".toList, .ok "<span>Name</span>".toList, [("class".toList, "author".toList)]⟩
def h1Node : Node := ⟨"Title".toList, .ok "Title".toList, []⟩
def linkNode : Node := ⟨"link".toList, .ok "link".toList, []⟩
def li1Node : Node := ⟨"one".toList, .ok "one".toList, [("data-id".toList, "1".toList)]⟩
def li2Node : Node := ⟨"two".toList, .ok "two".toList, []⟩
def li3Node : Node := ⟨"three".toList, .ok "three".toList, [("data-id".toList, "3".toList)]⟩

/-- The document node of the example. -/
def rootNode : Node :=
  ⟨"NameTitlelinkonetwothree".toList,
   .ok ("<html><head></head><body><div class=\"author\"><span>Name</span></div>".toList ++
     "<h1>Title</h1><a>link</a><ul><li data-id=\"1\">one</li><li>two</li>".toList ++
     "<li data-id=\"3\">three</li></ul></body></html>".toList),
   []⟩

/-- The selection of the whole example document. -/
def exampleDoc : Selection := ⟨[rootNode]⟩

/-- The matches, in the example document, of the selectors the example types use: each of
them is looked up from an element that contains all its matches. -/
def exampleFind (sel : Selection) (selector : Str) : Selection :=
  if sel.Nodes.isEmpty then ⟨[]⟩
  else if selector = ".author".toList then ⟨[authorNode]⟩
  else if selector = "span".toList then ⟨[spanNode]⟩
  else if selector = "h1".toList then ⟨[h1Node]⟩
  else if selector = "a".toList then ⟨[linkNode]⟩
  else if selector = "li".toList then ⟨[li1Node, li2Node, li3Node]⟩
  else ⟨[]⟩

/-- The struct types of the example. -/
def exampleTypes (name : Str) : List FieldDecl :=
  if name = "Author".toList then
    [⟨"Name".toList, "span;text".toList, .prim .String⟩]
  else if name = "Page".toList then
    [⟨"Author".toList, ".author;obj".toList, .struct "Author".toList⟩,
     ⟨"Href".toList, "a;attr=href".toList, .prim .String⟩]
  else if name = "Listing".toList then
    [⟨"Ids".toList, "li;attr=data-id".toList, .slice (.prim .String)⟩]
  else if name = "Entry".toList then
    [⟨"Id".toList, ";attr=data-id".toList, .prim .String⟩]
  else if name = "Entries".toList then
    [⟨"Rows".toList, "li;obj".toList, .slice (.struct "Entry".toList)⟩]
  else if name = "Heading".toList then
    [⟨"Title".toList, "h1;obj".toList, .prim .String⟩]
  else if name = "Callback".toList then
    [⟨"F".toList, "h1;text".toList, .prim .Func⟩]
  else if name = "Hooks".toList then
    [⟨"Fs".toList, "li;text".toList, .slice (.prim .Func)⟩]
  else []

/-- The type of a field of an example struct type. -/
def exampleFieldType (ty : GoType) (name : Str) : Option GoType :=
  match ty with
  | .struct n => (fieldByName (exampleTypes n) name).map (fun f => f.Typ)
  | _ => none

/-- A coercion step for the example, after `mapstructure.WeakDecode`: a collected string is
assigned to a string field and a collected sequence to a slice field, without conversion;
the empty map leaves a struct field as it is; any other entry is reported as an error,
the remaining entries being decoded all the same. -/
def exampleWeakDecode (input : List (Str × Value)) (ty : GoType) (output : Value) :
    Value × Option Str :=
  input.foldl (fun (acc : Value × Option Str) (entry : Str × Value) =>
      match exampleFieldType ty entry.1, entry.2 with
      | some (.prim .String), .str s => (acc.1.setField entry.1 (.str s), acc.2)
      | some (.slice _), .seq xs => (acc.1.setField entry.1 (.seq xs), acc.2)
      | some (.struct _), .map [] => acc
      | _, _ => (acc.1, some ("unsupported type for field ".toList ++ entry.1)))
    (output, none)

/-- The environment of the example: the tag map is visited by increasing field name, which
for the example types is the order of declaration, and `structs.Map` of a `reflect.Value`,
a struct without exported fields, is the empty map. -/
def exampleEnv : Env where
  types := exampleTypes
  Find := exampleFind
  rangeOrder := fun m => m
  structsMap := fun _ => .map []
  WeakDecode := exampleWeakDecode
  NewDocument := fun _ => .ok exampleDoc

/-- A `cssStructer` on a fresh record of the named example type. -/
def exampleStructer (name : Str) : cssStructer :=
  { targetType := .struct name, targetStruct := .zero, collectedFieldValues := [] }

/-! ## Words of the specification used to state the claims about tags -/

/-- The basic scalar kinds: booleans, strings, and the integer and floating-point
numbers. -/
def isBasicScalar : Kind → Bool
  | .Bool | .String | .Int | .Int8 | .Int16 | .Int32 | .Int64
  | .Uint | .Uint8 | .Uint16 | .Uint32 | .Uint64 | .Uintptr
  | .Float32 | .Float64 => true
  | _ => false

/-- The type is a slice or an array of elements of type `elem`. -/
def isSequenceOf (ty elem : GoType) : Prop :=
  ty = .slice elem ∨ ∃ len, ty = .array len elem

/-- The strings extracted from the elements of a selection, in order, leaving out the
elements on which `getFieldValue` does not succeed. -/
def extractedStrings (fieldValue attrName : Str) (sel : Selection) : List Value :=
  sel.Nodes.filterMap (fun n =>
    match getFieldValue fieldValue attrName ⟨[n]⟩ with
    | .ok val => some (.str val)
    | _ => none)

/-- The mappings extracted from the elements of a selection, in order: one for each element
on which the recursive extraction into a new value of type `elem`, and the conversion of
that value to a mapping, succeed. -/
def extractedRecords (env : Env) (extract : Extractor) (elem : GoType) (sel : Selection) :
    List Value :=
  sel.Nodes.filterMap (fun n =>
    match extract ⟨[n]⟩ elem .zero with
    | (val, .ok ()) =>
      match Items env elem val with
      | .ok mval => some (.map mval)
      | _ => none
    | _ => none)

/-- The field `fieldName` of the struct type `name` is not a nested record: no field of
that name is declared with a type of struct kind. -/
def notNestedRecord (env : Env) (name fieldName : Str) : Prop :=
  ∀ f, fieldByName (env.types name) fieldName = some f → f.Typ.Kind ≠ .Struct

/-- All that separates the contents `after` of a record of struct type `name` from its
contents `before` lies in nested-record fields: every other field has kept its value, and a
record type without nested-record fields has kept all its contents. -/
def onlyNestedWritten (env : Env) (name : Str) (before after : Value) : Prop :=
  (∀ fieldName, notNestedRecord env name fieldName →
    after.getField fieldName = before.getField fieldName) ∧
  ((∀ f ∈ env.types name, f.Typ.Kind ≠ .Struct) → after = before)

/-- The call returned, with or without an error: it neither panicked nor ran on. -/
def Outcome.returned {α : Type} : Outcome α → Bool
  | .ok _ => true
  | .error _ => true
  | _ => false

/-- The part of `t` before its first `sep` (all of `t` when there is none). -/
def beforeSep (sep : Char) (t : Str) : Str :=
  t.takeWhile (fun c => c != sep)

/-- The part of `t` after its first `sep` (empty when there is none). -/
def afterSep (sep : Char) (t : Str) : Str :=
  (t.dropWhile (fun c => c != sep)).drop 1

/-- The string has no leading and no trailing white space. -/
def noOuterSpace (t : Str) : Bool :=
  t.head?.all (fun c => !isSpace c) && t.getLast?.all (fun c => !isSpace c)

/-! ## Further example types

    type Broken struct { A string      [csss:"a;attr=href"]
                         B string      [csss:"h1;attr=id"] }
    type Plain  struct { Title string }
    type Tree   struct { Kids []Tree   [csss:";obj"] }

`Plain` has an exported field without annotation; `Tree` has a sequence field of its own
type.
-/

/-- The struct types of the example, and three more. -/
def furtherTypes (name : Str) : List FieldDecl :=
  if name = "Broken".toList then
    [⟨"A".toList, "a;attr=href".toList, .prim .String⟩,
     ⟨"B".toList, "h1;attr=id".toList, .prim .String⟩]
  else if name = "Plain".toList then
    [⟨"Title".toList, [], .prim .String⟩]
  else if name = "Tree".toList then
    [⟨"Kids".toList, ";obj".toList, .slice (.struct "Tree".toList)⟩]
  else exampleTypes name

/-- The environment of the example with the further types; the tag map is visited by
increasing field name, which for these types is the order of declaration. -/
def forwardEnv : Env where
  types := furtherTypes
  Find := exampleFind
  rangeOrder := fun m => m
  structsMap := fun _ => .map []
  WeakDecode := exampleWeakDecode
  NewDocument := fun _ => .ok exampleDoc

/-- The same environment, except that the tag map is visited by decreasing field name, for
these types the reverse of the order of declaration. -/
def reverseEnv : Env where
  types := furtherTypes
  Find := exampleFind
  rangeOrder := List.reverse
  structsMap := fun _ => .map []
  WeakDecode := exampleWeakDecode
  NewDocument := fun _ => .ok exampleDoc

/-! ## Example types for the order of iteration

    type Inner struct { A string       [csss:"span;text"]
                        B string       [csss:";text"] }
    type Outer struct { In Inner       [csss:".author;obj"]
                        Title string   [csss:"h1;text"] }
    type Risky struct { A string       [csss:";attr=zzz"]
                        B string       [csss:";obj"] }
    type Batch struct { Items []Risky  [csss:"li;obj"] }
-/

/-- The struct types of the example on the order of iteration. -/
def orderTypes (name : Str) : List FieldDecl :=
  if name = "Inner".toList then
    [⟨"A".toList, "span;text".toList, .prim .String⟩,
     ⟨"B".toList, ";text".toList, .prim .String⟩]
  else if name = "Outer".toList then
    [⟨"In".toList, ".author;obj".toList, .struct "Inner".toList⟩,
     ⟨"Title".toList, "h1;text".toList, .prim .String⟩]
  else if name = "Risky".toList then
    [⟨"A".toList, ";attr=zzz".toList, .prim .String⟩,
     ⟨"B".toList, ";obj".toList, .prim .String⟩]
  else if name = "Batch".toList then
    [⟨"Items".toList, "li;obj".toList, .slice (.struct "Risky".toList)⟩]
  else []

/-- The type of a field of one of these struct types. -/
def orderFieldType (ty : GoType) (name : Str) : Option GoType :=
  match ty with
  | .struct n => (fieldByName (orderTypes n) name).map (fun f => f.Typ)
  | _ => none

/-- The coercion step of the example, on these types. -/
def orderWeakDecode (input : List (Str × Value)) (ty : GoType) (output : Value) :
    Value × Option Str :=
  input.foldl (fun (acc : Value × Option Str) (entry : Str × Value) =>
      match orderFieldType ty entry.1, entry.2 with
      | some (.prim .String), .str s => (acc.1.setField entry.1 (.str s), acc.2)
      | some (.slice _), .seq xs => (acc.1.setField entry.1 (.seq xs), acc.2)
      | some (.struct _), .map [] => acc
      | _, _ => (acc.1, some ("unsupported type for field ".toList ++ entry.1)))
    (output, none)

/-- The environment of these types, on the example document; the tag map is visited by
increasing field name. -/
def orderEnv : Env where
  types := orderTypes
  Find := exampleFind
  rangeOrder := fun m => m
  structsMap := fun _ => .map []
  WeakDecode := orderWeakDecode
  NewDocument := fun _ => .ok exampleDoc

/-! ## Words used to state the claims about the engine -/

/-- The state after one field has been dispatched: `written`, if any, is the new contents
of the field in the destination, and `stored`, if any, the entry assigned to the field's
name in the collected map. -/
def applyEffect (cs : cssStructer) (fieldName : Str) (written stored : Option Value) :
    cssStructer :=
  { targetType := cs.targetType
    targetStruct :=
      match written with
      | none => cs.targetStruct
      | some v => cs.targetStruct.setField fieldName v
    collectedFieldValues :=
      match stored with
      | none => cs.collectedFieldValues
      | some x => mapSet cs.collectedFieldValues fieldName x }

/-- The struct type the engine recurses into for a field of the given type: the type of a
nested record, or the element type of a sequence of records. -/
def nestedIn : GoType → Option Str
  | .struct name => some name
  | .slice (.struct name) => some name
  | .array _ (.struct name) => some name
  | _ => none

/-- The nesting depth of the struct type `name` is at most the given number: the engine
recurses from the fields of `name` into struct types of a nesting depth that is smaller by
one at least, and from a type of depth zero into none. -/
def nestsWithin (env : Env) : Nat → Str → Bool
  | 0, name => (env.types name).all (fun f => (nestedIn f.Typ).isNone)
  | n + 1, name => (env.types name).all (fun f =>
      match nestedIn f.Typ with
      | none => true
      | some inner => nestsWithin env n inner)

/-- The environment in which the entries of a Go map are visited in another order. -/
def Env.withOrder (env : Env) (order : List (Str × Str) → List (Str × Str)) : Env :=
  ⟨env.types, env.Find, order, env.structsMap, env.WeakDecode, env.NewDocument⟩

/-- Two results agree on success: one is a success exactly when the other is, and then
they are the same result. -/
def equalOnSuccess {α : Type} (r r' : α × Outcome Unit) : Prop :=
  (r.2 = .ok () ↔ r'.2 = .ok ()) ∧ (r.2 = .ok () → r = r')

/-- Two functions for the recursive call agree on success wherever both return. -/
def agreeWhenReturned (e1 e2 : Extractor) : Prop :=
  ∀ sel ty v, (e1 sel ty v).2.returned = true → (e2 sel ty v).2.returned = true →
    equalOnSuccess (e1 sel ty v) (e2 sel ty v)

/-- Two functions for the recursive call agree, and come back, wherever the engine calls
them from the fields of the struct type `name`. -/
def agreeOn (env : Env) (name : Str) (e1 e2 : Extractor) : Prop :=
  ∀ f ∈ env.types name, ∀ inner, nestedIn f.Typ = some inner → ∀ sel v,
    e1 sel (.struct inner) v = e2 sel (.struct inner) v ∧
    (e1 sel (.struct inner) v).2 ≠ .outOfFuel

/-- The initial state of `prepStructer`. -/
def initialStructer (destType : GoType) (dest : Value) : cssStructer :=
  { targetType := destType, targetStruct := dest, collectedFieldValues := [] }

/-! ## Lemmas on strings -/

theorem Split_ne_nil (sep : Char) (s : Str) : Split sep s ≠ [] := by
  induction s with
  | nil => simp [Split]
  | cons c cs ih =>
    unfold Split
    split
    · simp
    · split <;> simp

theorem Split_cons_sep (sep : Char) (s : Str) : Split sep (sep :: s) = [] :: Split sep s := by
  simp [Split]

theorem Split_cons_ne (sep c : Char) (s : Str) (h : c ≠ sep) :
    Split sep (c :: s) = (c :: (Split sep s).headD []) :: (Split sep s).tail := by
  rw [Split, if_neg h]
  cases hs : Split sep s with
  | nil => exact absurd hs (Split_ne_nil sep s)
  | cons p ps => simp

theorem Split_of_not_mem (sep : Char) (s : Str) (h : sep ∉ s) : Split sep s = [s] := by
  induction s with
  | nil => simp [Split]
  | cons c cs ih =>
    have hc : c ≠ sep := fun e => h (by simp [e])
    have hcs : sep ∉ cs := fun e => h (by simp [e])
    rw [Split_cons_ne sep c cs hc, ih hcs]
    simp

theorem Split_append_sep (sep : Char) (s t : Str) (h : sep ∉ s) :
    Split sep (s ++ sep :: t) = s :: Split sep t := by
  induction s with
  | nil => simp [Split]
  | cons c cs ih =>
    have hc : c ≠ sep := fun e => h (by simp [e])
    have hcs : sep ∉ cs := fun e => h (by simp [e])
    rw [List.cons_append, Split_cons_ne sep c _ hc, ih hcs]
    simp

theorem length_Split (sep : Char) (s : Str) : (Split sep s).length = s.count sep + 1 := by
  induction s with
  | nil => simp [Split]
  | cons c cs ih =>
    by_cases hc : c = sep
    · subst hc
      simp [Split_cons_sep, ih]
    · rw [Split_cons_ne sep c cs hc]
      have hne := Split_ne_nil sep cs
      have : (Split sep cs).tail.length + 1 = (Split sep cs).length := by
        cases hs : Split sep cs with
        | nil => exact absurd hs hne
        | cons p ps => simp
      rw [List.length_cons, this, ih, List.count_cons_of_ne (Ne.symm hc)]

theorem Split_eq_before_after (sep : Char) (s : Str) (h : sep ∈ s) :
    Split sep s = beforeSep sep s :: Split sep (afterSep sep s) := by
  induction s with
  | nil => simp at h
  | cons c cs ih =>
    by_cases hc : c = sep
    · subst hc
      simp [Split_cons_sep, beforeSep, afterSep, List.takeWhile, List.dropWhile]
    · have hcs : sep ∈ cs := by
        rcases List.mem_cons.mp h with e | e
        · exact absurd e.symm hc
        · exact e
      have hb : (c != sep) = true := by simpa using hc
      rw [Split_cons_ne sep c cs hc, ih hcs]
      simp [beforeSep, afterSep, List.takeWhile, List.dropWhile, hb]

theorem not_mem_beforeSep (sep : Char) (s : Str) : sep ∉ beforeSep sep s := by
  intro h
  have := List.mem_takeWhile_imp h
  simp at this

theorem count_afterSep (sep : Char) (s : Str) (h : sep ∈ s) :
    s.count sep = (afterSep sep s).count sep + 1 := by
  have h1 := length_Split sep s
  rw [Split_eq_before_after sep s h, List.length_cons, length_Split] at h1
  omega

theorem Split_of_count_one (sep : Char) (s : Str) (h : s.count sep = 1) :
    Split sep s = [beforeSep sep s, afterSep sep s] := by
  have hm : sep ∈ s := List.count_pos_iff.mp (by omega)
  rw [Split_eq_before_after sep s hm]
  have h0 : (afterSep sep s).count sep = 0 := by
    have := count_afterSep sep s hm
    omega
  rw [Split_of_not_mem sep _ (List.count_eq_zero.mp h0)]

theorem not_mem_of_mem_Split (sep : Char) (s p : Str) (h : p ∈ Split sep s) : sep ∉ p := by
  induction s generalizing p with
  | nil =>
    simp [Split] at h
    simp [h]
  | cons c cs ih =>
    by_cases hc : c = sep
    · subst hc
      rw [Split_cons_sep] at h
      rcases List.mem_cons.mp h with e | e
      · simp [e]
      · exact ih p e
    · rw [Split_cons_ne sep c cs hc] at h
      have hne := Split_ne_nil sep cs
      cases hs : Split sep cs with
      | nil => exact absurd hs hne
      | cons q qs =>
        rw [hs] at h ih
        simp only [List.headD_cons, List.tail_cons] at h
        rcases List.mem_cons.mp h with e | e
        · subst e
          have := ih q (by simp)
          intro hm
          rcases List.mem_cons.mp hm with e2 | e2
          · exact hc e2.symm
          · exact this e2
        · exact ih p (by simp [e])

theorem subset_of_mem_Split (sep : Char) (s p : Str) (h : p ∈ Split sep s) : p ⊆ s := by
  induction s generalizing p with
  | nil =>
    simp [Split] at h
    simp [h]
  | cons c cs ih =>
    by_cases hc : c = sep
    · subst hc
      rw [Split_cons_sep] at h
      rcases List.mem_cons.mp h with e | e
      · simp [e]
      · exact fun x hx => List.mem_cons_of_mem _ (ih p e hx)
    · rw [Split_cons_ne sep c cs hc] at h
      have hne := Split_ne_nil sep cs
      cases hs : Split sep cs with
      | nil => exact absurd hs hne
      | cons q qs =>
        rw [hs] at h ih
        simp only [List.headD_cons, List.tail_cons] at h
        rcases List.mem_cons.mp h with e | e
        · subst e
          intro x hx
          rcases List.mem_cons.mp hx with e2 | e2
          · simp [e2]
          · exact List.mem_cons_of_mem _ (ih q (by simp) e2)
        · exact fun x hx => List.mem_cons_of_mem _ (ih p (by simp [e]) hx)

theorem TrimSpace_subset (s : Str) : TrimSpace s ⊆ s := by
  intro x hx
  have h1 : x ∈ List.dropWhile isSpace s :=
    (List.rdropWhile_prefix isSpace (List.dropWhile isSpace s)).subset hx
  exact (List.dropWhile_suffix isSpace).subset h1

theorem mem_TrimSpace_iff (s : Str) (c : Char) (hc : isSpace c = false) :
    c ∈ TrimSpace s ↔ c ∈ s := by
  constructor
  · exact fun h => TrimSpace_subset s h
  · intro h
    unfold TrimSpace
    have h1 : c ∈ List.dropWhile isSpace s := by
      induction s with
      | nil => simp at h
      | cons d ds ih =>
        rw [List.dropWhile_cons]
        split
        · rename_i hd
          rcases List.mem_cons.mp h with e | e
          · subst e
            simp [hc] at hd
          · exact ih e
        · exact h
    generalize List.dropWhile isSpace s = u at h1
    rw [List.rdropWhile]
    rw [List.mem_reverse]
    have h2 : c ∈ u.reverse := List.mem_reverse.mpr h1
    generalize u.reverse = w at h2
    induction w with
    | nil => simp at h2
    | cons d ds ih =>
      rw [List.dropWhile_cons]
      split
      · rename_i hd
        rcases List.mem_cons.mp h2 with e | e
        · subst e
          simp [hc] at hd
        · exact ih e
      · exact h2

theorem TrimSpace_eq_self (t : Str) (h : noOuterSpace t = true) : TrimSpace t = t := by
  simp only [noOuterSpace, Bool.and_eq_true] at h
  have h1 : List.dropWhile isSpace t = t := by
    cases t with
    | nil => rfl
    | cons c cs =>
      have := h.1
      simp only [List.head?_cons, Option.all_some, Bool.not_eq_true'] at this
      simp [List.dropWhile, this]
  unfold TrimSpace
  rw [h1, List.rdropWhile_eq_self_iff]
  intro hl hp
  have := h.2
  rw [List.getLast?_eq_getLast t hl] at this
  simp [hp] at this

theorem noOuterSpace_TrimSpace (s : Str) : noOuterSpace (TrimSpace s) = true := by
  simp only [noOuterSpace, Bool.and_eq_true]
  constructor
  · unfold TrimSpace
    obtain ⟨w, hw⟩ := List.rdropWhile_prefix isSpace (List.dropWhile isSpace s)
    cases hr : List.rdropWhile isSpace (List.dropWhile isSpace s) with
    | nil => rfl
    | cons c cs =>
      rw [hr] at hw
      have hh := List.head?_dropWhile_not isSpace s
      rw [← hw] at hh
      simp only [List.cons_append, List.head?_cons] at hh
      simp [hh]
  · unfold TrimSpace
    cases hr : List.rdropWhile isSpace (List.dropWhile isSpace s) with
    | nil => rfl
    | cons c cs =>
      have hne : List.rdropWhile isSpace (List.dropWhile isSpace s) ≠ [] := by simp [hr]
      have := List.rdropWhile_last_not isSpace (List.dropWhile isSpace s) hne
      rw [← hr, List.getLast?_eq_getLast _ hne]
      simpa using this

theorem count_dropWhile_of_neg (q : Char → Bool) (c : Char) (hc : q c = false) (s : Str) :
    (s.dropWhile q).count c = s.count c := by
  induction s with
  | nil => rfl
  | cons d ds ih =>
    rw [List.dropWhile_cons]
    split
    · rename_i hd
      have : c ≠ d := fun e => by simp [← e, hc] at hd
      rw [ih, List.count_cons_of_ne this]
    · rfl

theorem count_TrimSpace (s : Str) (c : Char) (hc : isSpace c = false) :
    (TrimSpace s).count c = s.count c := by
  unfold TrimSpace
  rw [List.rdropWhile, List.count_reverse, count_dropWhile_of_neg isSpace c hc,
    List.count_reverse, count_dropWhile_of_neg isSpace c hc]

theorem afterSep_suffix (sep : Char) (t : Str) : afterSep sep t <:+ t :=
  (List.drop_suffix 1 _).trans (List.dropWhile_suffix _)

theorem getLast?_of_suffix {p t : Str} (h : p <:+ t) (hne : p ≠ []) :
    p.getLast? = t.getLast? := by
  obtain ⟨w, rfl⟩ := h
  rw [List.getLast?_append_of_ne_nil _ hne]

/-! ## Lemmas on `parseTag` -/

theorem parseTag_of_length_ne (tag : Str) (h : (Split ';' (TrimSpace tag)).length ≠ 2) :
    parseTag tag = .error ("Failed to split tag: ".toList ++ tag) := by
  simp [parseTag, h]

theorem parseTag_of_split (tag sel p : Str) (h : Split ';' (TrimSpace tag) = [sel, p]) :
    parseTag tag =
      if HasPrefix p kwObj then .ok (sel, [], [])
      else if HasPrefix p kwAttr then
        if (Split '=' (TrimSpace p)).length < 2 then
          .error ("Failed to split attribute in tag: ".toList ++ tag)
        else .ok (sel, kwAttr, (Split '=' (TrimSpace p)).getD 1 [])
      else if p ≠ kwText ∧ p ≠ kwHtml then
        .error ("Invalid valueType, must be one of attr/text/html/obj: ".toList ++ tag)
      else .ok (sel, p, []) := by
  simp only [parseTag, h]
  simp

theorem TrimSpace_text (s : Str) :
    TrimSpace (s ++ ';' :: kwText) = s.dropWhile isSpace ++ ';' :: kwText := by
  have h1 : List.dropWhile isSpace (s ++ ';' :: kwText)
      = s.dropWhile isSpace ++ ';' :: kwText := by
    induction s with
    | nil => rfl
    | cons c cs ih =>
      rw [List.cons_append, List.dropWhile_cons, List.dropWhile_cons]
      split
      · exact ih
      · rfl
  unfold TrimSpace
  rw [h1]
  have : s.dropWhile isSpace ++ ';' :: kwText
      = (s.dropWhile isSpace ++ [';', 't', 'e', 'x']) ++ ['t'] := by simp [kwText]
  rw [this, List.rdropWhile_concat_neg]
  decide

theorem HasPrefix_iff (s pre : Str) : HasPrefix s pre = true ↔ pre <+: s := by
  simp [HasPrefix]

theorem length_Split_eq_lt_two (p : Str) : (Split '=' (TrimSpace p)).length < 2 ↔ '=' ∉ p := by
  rw [length_Split, count_TrimSpace p '=' (by decide)]
  constructor
  · intro h
    exact List.count_eq_zero.mp (by omega)
  · intro h
    rw [List.count_eq_zero.mpr h]
    omega

theorem beforeSep_of_not_mem (sep : Char) (t : Str) (h : sep ∉ t) : beforeSep sep t = t := by
  unfold beforeSep
  rw [List.takeWhile_eq_self_iff]
  intro x hx
  have : x ≠ sep := fun e => h (e ▸ hx)
  simpa using this

theorem Split_getD_zero (sep : Char) (t : Str) : (Split sep t).getD 0 [] = beforeSep sep t := by
  by_cases h : sep ∈ t
  · rw [Split_eq_before_after sep t h]
    rfl
  · rw [Split_of_not_mem sep t h, beforeSep_of_not_mem sep t h]
    rfl

theorem Split_getD_one (sep : Char) (t : Str) (h : sep ∈ t) :
    (Split sep t).getD 1 [] = beforeSep sep (afterSep sep t) := by
  rw [Split_eq_before_after sep t h]
  exact Split_getD_zero sep (afterSep sep t)

theorem not_obj_of_attr (p : Str) (h : kwAttr <+: p) : HasPrefix p kwObj = false := by
  obtain ⟨w, rfl⟩ := h
  rfl

theorem TrimSpace_spec_part (t p : Str) (ht : noOuterSpace t = true) (hsuf : p <:+ t)
    (hpre : kwAttr <+: p) : TrimSpace p = p := by
  apply TrimSpace_eq_self
  have hne : p ≠ [] := by
    obtain ⟨w, rfl⟩ := hpre
    simp [kwAttr]
  simp only [noOuterSpace, Bool.and_eq_true] at ht ⊢
  constructor
  · obtain ⟨w, rfl⟩ := hpre
    simp [kwAttr]
    decide
  · rw [getLast?_of_suffix hsuf hne]
    exact ht.2

/-! ## Lemmas on maps and on the engine -/

theorem keyLt_irrefl (a : Str) : keyLt a a = false := by
  induction a with
  | nil => rfl
  | cons c cs ih => simp [keyLt, ih]

theorem keyLt_trans (a b c : Str) (h1 : keyLt a b = true) (h2 : keyLt b c = true) :
    keyLt a c = true := by
  induction a generalizing b c with
  | nil =>
    cases b with
    | nil => simp [keyLt] at h1
    | cons y ys =>
      cases c with
      | nil => simp [keyLt] at h2
      | cons z zs => rfl
  | cons x xs ih =>
    cases b with
    | nil => simp [keyLt] at h1
    | cons y ys =>
      cases c with
      | nil => simp [keyLt] at h2
      | cons z zs =>
        simp only [keyLt] at h1 h2 ⊢
        by_cases hxy : x < y
        · by_cases hyz : y < z
          · simp [lt_trans hxy hyz]
          · simp only [hyz, if_false] at h2
            by_cases e : y = z
            · subst e
              simp [hxy]
            · simp [e] at h2
        · simp only [hxy, if_false] at h1
          by_cases e : x = y
          · subst e
            simp only [if_true] at h1
            by_cases hyz : x < z
            · simp [hyz]
            · simp only [hyz, if_false] at h2 ⊢
              by_cases e2 : x = z
              · subst e2
                simp only [if_true] at h2 ⊢
                exact ih _ _ h1 h2
              · simp [e2] at h2
          · simp [e] at h1

theorem keyLt_asymm (a b : Str) (h : keyLt a b = true) : keyLt b a = false := by
  cases hb : keyLt b a with
  | false => rfl
  | true =>
    have := keyLt_trans a b a h hb
    rw [keyLt_irrefl] at this
    cases this

theorem keyLt_total (a b : Str) (h : a ≠ b) : keyLt a b = true ∨ keyLt b a = true := by
  induction a generalizing b with
  | nil =>
    cases b with
    | nil => exact absurd rfl h
    | cons y ys => exact Or.inl rfl
  | cons x xs ih =>
    cases b with
    | nil => exact Or.inr rfl
    | cons y ys =>
      simp only [keyLt]
      rcases lt_trichotomy x y with hlt | heq | hgt
      · simp [hlt]
      · subst heq
        have hne : xs ≠ ys := fun e => h (by rw [e])
        simp only [lt_irrefl, if_false, if_true]
        exact ih ys hne
      · simp [hgt]

theorem keyLt_of_not (a b : Str) (h : a ≠ b) (h2 : keyLt a b = false) : keyLt b a = true := by
  rcases keyLt_total a b h with e | e
  · rw [e] at h2; cases h2
  · exact e

theorem mapSet_nil {β : Type} (k : Str) (x : β) : mapSet ([] : List (Str × β)) k x = [(k, x)] := rfl

theorem mapSet_cons_eq {β : Type} (r : List (Str × β)) (k : Str) (x y : β) :
    mapSet ((k, y) :: r) k x = (k, x) :: r := by
  simp [mapSet]

theorem mapSet_cons_lt {β : Type} (r : List (Str × β)) (k k' : Str) (x y : β)
    (hne : k' ≠ k) (hlt : keyLt k k' = true) :
    mapSet ((k', y) :: r) k x = (k, x) :: (k', y) :: r := by
  simp [mapSet, hne, hlt]

theorem mapSet_cons_gt {β : Type} (r : List (Str × β)) (k k' : Str) (x y : β)
    (hne : k' ≠ k) (hlt : keyLt k k' = false) :
    mapSet ((k', y) :: r) k x = (k', y) :: mapSet r k x := by
  simp [mapSet, hne, hlt]

theorem mapSet_comm {β : Type} (m : List (Str × β)) (a b : Str) (x y : β) (hne : a ≠ b) :
    mapSet (mapSet m a x) b y = mapSet (mapSet m b y) a x := by
  induction m with
  | nil =>
    rw [mapSet_nil, mapSet_nil]
    by_cases hab : keyLt a b = true
    · have hba := keyLt_asymm a b hab
      rw [mapSet_cons_gt _ _ _ _ _ hne hba, mapSet_cons_lt _ _ _ _ _ (Ne.symm hne) hab]
      rfl
    · simp only [Bool.not_eq_true] at hab
      have hba := keyLt_of_not a b hne hab
      rw [mapSet_cons_lt _ _ _ _ _ hne hba, mapSet_cons_gt _ _ _ _ _ (Ne.symm hne) hab]
      rfl
  | cons e r ih =>
    obtain ⟨k, z⟩ := e
    by_cases hka : k = a
    · subst hka
      rw [mapSet_cons_eq]
      by_cases hbk : keyLt b k = true
      · rw [mapSet_cons_lt _ _ _ _ _ hne hbk, mapSet_cons_lt _ _ _ _ _ hne hbk,
          mapSet_cons_gt _ _ _ _ _ (Ne.symm hne) (keyLt_asymm _ _ hbk), mapSet_cons_eq]
      · simp only [Bool.not_eq_true] at hbk
        rw [mapSet_cons_gt _ _ _ _ _ hne hbk, mapSet_cons_gt _ _ _ _ _ hne hbk, mapSet_cons_eq]
    · by_cases hkb : k = b
      · subst hkb
        rw [mapSet_cons_eq]
        by_cases hak : keyLt a k = true
        · rw [mapSet_cons_lt _ _ _ _ _ hka hak, mapSet_cons_lt _ _ _ _ _ hka hak,
            mapSet_cons_gt _ _ _ _ _ hne (keyLt_asymm _ _ hak), mapSet_cons_eq]
        · simp only [Bool.not_eq_true] at hak
          rw [mapSet_cons_gt _ _ _ _ _ hka hak, mapSet_cons_gt _ _ _ _ _ hka hak, mapSet_cons_eq]
      · by_cases hak : keyLt a k = true
        · rw [mapSet_cons_lt _ _ _ _ _ hka hak]
          by_cases hbk : keyLt b k = true
          · rw [mapSet_cons_lt _ _ _ _ _ hkb hbk]
            by_cases hab : keyLt a b = true
            · have hba := keyLt_asymm a b hab
              rw [mapSet_cons_gt _ _ _ _ _ hne hba, mapSet_cons_lt _ _ _ _ _ hkb hbk,
                mapSet_cons_lt _ _ _ _ _ (Ne.symm hne) hab]
            · simp only [Bool.not_eq_true] at hab
              have hba := keyLt_of_not a b hne hab
              rw [mapSet_cons_lt _ _ _ _ _ hne hba, mapSet_cons_gt _ _ _ _ _ (Ne.symm hne) hab,
                mapSet_cons_lt _ _ _ _ _ hka hak]
          · simp only [Bool.not_eq_true] at hbk
            have hkb' := keyLt_of_not b k (Ne.symm hkb) hbk
            have hab := keyLt_trans a k b hak hkb'
            rw [mapSet_cons_gt _ _ _ _ _ hkb hbk,
              mapSet_cons_gt _ _ _ _ _ hne (keyLt_asymm _ _ hab),
              mapSet_cons_gt _ _ _ _ _ hkb hbk, mapSet_cons_lt _ _ _ _ _ hka hak]
        · simp only [Bool.not_eq_true] at hak
          rw [mapSet_cons_gt _ _ _ _ _ hka hak]
          by_cases hbk : keyLt b k = true
          · have hka' := keyLt_of_not a k (Ne.symm hka) hak
            have hba := keyLt_trans b k a hbk hka'
            rw [mapSet_cons_lt _ _ _ _ _ hkb hbk, mapSet_cons_lt _ _ _ _ _ hkb hbk,
              mapSet_cons_gt _ _ _ _ _ (Ne.symm hne) (keyLt_asymm _ _ hba),
              mapSet_cons_gt _ _ _ _ _ hka hak]
          · simp only [Bool.not_eq_true] at hbk
            rw [mapSet_cons_gt _ _ _ _ _ hkb hbk, mapSet_cons_gt _ _ _ _ _ hkb hbk,
              mapSet_cons_gt _ _ _ _ _ hka hak, ih]


theorem lookup_mapSet_self {β : Type} (m : List (Str × β)) (k : Str) (x : β) :
    (mapSet m k x).lookup k = some x := by
  induction m with
  | nil => simp [mapSet, List.lookup]
  | cons e r ih =>
    obtain ⟨k', y⟩ := e
    by_cases hk : k' = k
    · subst hk
      rw [mapSet_cons_eq]
      simp [List.lookup]
    · by_cases hlt : keyLt k k' = true
      · rw [mapSet_cons_lt _ _ _ _ _ hk hlt]
        simp [List.lookup]
      · simp only [Bool.not_eq_true] at hlt
        rw [mapSet_cons_gt _ _ _ _ _ hk hlt]
        have : (k == k') = false := by simpa using fun e => hk e.symm
        simp [List.lookup, this, ih]

theorem lookup_mapSet_ne {β : Type} (m : List (Str × β)) (k k' : Str) (x : β) (h : k' ≠ k) :
    (mapSet m k x).lookup k' = m.lookup k' := by
  have hb : (k' == k) = false := by simpa using h
  induction m with
  | nil => simp [mapSet, List.lookup, hb]
  | cons e r ih =>
    obtain ⟨k₀, y⟩ := e
    by_cases hk : k₀ = k
    · subst hk
      rw [mapSet_cons_eq]
      simp [List.lookup, hb]
    · by_cases hlt : keyLt k k₀ = true
      · rw [mapSet_cons_lt _ _ _ _ _ hk hlt]
        simp [List.lookup, hb]
      · simp only [Bool.not_eq_true] at hlt
        rw [mapSet_cons_gt _ _ _ _ _ hk hlt]
        by_cases hk0 : (k' == k₀) = true
        · simp [List.lookup, hk0]
        · simp only [Bool.not_eq_true] at hk0
          simp [List.lookup, hk0, ih]

theorem getField_setField_ne (v x : Value) (k k' : Str) (h : k' ≠ k) :
    (v.setField k x).getField k' = v.getField k' := by
  simp [Value.setField, Value.getField, Value.fields, lookup_mapSet_ne _ _ _ _ h]

theorem GetFieldKind_of_field (env : Env) (name fieldName : Str) (f : FieldDecl)
    (hf : fieldByName (env.types name) fieldName = some f) :
    GetFieldKind env (.struct name) fieldName = .ok f.Typ.Kind := by
  simp [GetFieldKind, structFields, hf]

theorem GetField_of_field (env : Env) (name fieldName : Str) (f : FieldDecl) (obj : Value)
    (hf : fieldByName (env.types name) fieldName = some f) :
    GetField env (.struct name) obj fieldName = .ok (f.Typ, obj.getField fieldName) := by
  simp [GetField, structFields, hf]

theorem getFieldValue_returned (fieldValue attrName : Str) (sel : Selection)
    (hmode : fieldValue = kwText ∨ fieldValue = kwHtml ∨ fieldValue = kwAttr) :
    (getFieldValue fieldValue attrName sel).returned = true := by
  rcases hmode with h | h | h
  · subst h
    simp [getFieldValue, Outcome.returned]
  · subst h
    have : kwHtml ≠ kwText := by decide
    simp only [getFieldValue, if_neg this, if_true]
    cases sel.Html <;> rfl
  · subst h
    have h1 : kwAttr ≠ kwText := by decide
    have h2 : kwAttr ≠ kwHtml := by decide
    simp only [getFieldValue, if_neg h1, if_neg h2, if_true]
    cases sel.Attr attrName <;> rfl

theorem eachLoop_basicElement (fieldValue attrName : Str)
    (hmode : fieldValue = kwText ∨ fieldValue = kwHtml ∨ fieldValue = kwAttr)
    (ns : List Node) (idx : Nat) (acc : List Value) :
    eachLoop (basicElement fieldValue attrName) ns idx acc
      = .ok (acc ++ extractedStrings fieldValue attrName ⟨ns⟩) := by
  induction ns generalizing idx acc with
  | nil => simp [eachLoop, extractedStrings]
  | cons n ns ih =>
    have hr := getFieldValue_returned fieldValue attrName ⟨[n]⟩ hmode
    cases hg : getFieldValue fieldValue attrName ⟨[n]⟩ with
    | ok val =>
      have hb : basicElement fieldValue attrName idx ⟨[n]⟩ acc = .ok (acc ++ [.str val]) := by
        simp [basicElement, hg]
      rw [eachLoop, hb]
      simp only []
      rw [ih]
      simp [extractedStrings, List.filterMap_cons, hg]
    | error e =>
      have hb : basicElement fieldValue attrName idx ⟨[n]⟩ acc = .ok acc := by
        simp [basicElement, hg]
      rw [eachLoop, hb]
      simp only []
      rw [ih]
      simp [extractedStrings, List.filterMap_cons, hg]
    | panic m => simp [hg, Outcome.returned] at hr
    | outOfFuel => simp [hg, Outcome.returned] at hr

theorem extractedStrings_length_le (fieldValue attrName : Str) (sel : Selection) :
    (extractedStrings fieldValue attrName sel).length ≤ sel.Length :=
  List.length_filterMap_le _ _

theorem extractedStrings_text_length (attrName : Str) (sel : Selection) :
    (extractedStrings kwText attrName sel).length = sel.Length := by
  obtain ⟨ns⟩ := sel
  simp only [extractedStrings, Selection.Length]
  induction ns with
  | nil => rfl
  | cons n ns ih => simp [List.filterMap_cons, getFieldValue, ih]

theorem Items_struct (env : Env) (name : Str) (obj : Value) :
    ∃ mval, Items env (.struct name) obj = .ok mval := by
  simp [Items, structFields]

theorem eachLoop_structElement (env : Env) (extract : Extractor) (name : Str)
    (ns : List Node) (idx : Nat) (acc : List Value) :
    (eachLoop (structElement env extract (.struct name)) ns idx acc
        = .ok (acc ++ extractedRecords env extract (.struct name) ⟨ns⟩) ∧
      ∀ n ∈ ns, (extract ⟨[n]⟩ (.struct name) .zero).2.returned = true) ∨
    ((∃ m, eachLoop (structElement env extract (.struct name)) ns idx acc = .panic m) ∧
      ∃ n ∈ ns, (extract ⟨[n]⟩ (.struct name) .zero).2.returned = false) ∨
    (eachLoop (structElement env extract (.struct name)) ns idx acc = .outOfFuel ∧
      ∃ n ∈ ns, (extract ⟨[n]⟩ (.struct name) .zero).2.returned = false) := by
  induction ns generalizing idx acc with
  | nil => simp [eachLoop, extractedRecords]
  | cons n ns ih =>
    obtain ⟨mval, hm⟩ := Items_struct env name (extract ⟨[n]⟩ (.struct name) .zero).1
    cases hx : extract ⟨[n]⟩ (.struct name) .zero with
    | mk val st =>
      rw [hx] at hm
      simp only [] at hm
      cases st with
      | ok u =>
        have hb : structElement env extract (.struct name) idx ⟨[n]⟩ acc
            = .ok (acc ++ [.map mval]) := by
          simp [structElement, hx, hm]
        rw [eachLoop, hb]
        simp only []
        rcases ih (idx + 1) (acc ++ [.map mval]) with h | h | h
        · left
          refine ⟨?_, ?_⟩
          · rw [h.1]
            simp [extractedRecords, List.filterMap_cons, hx, hm]
          · intro n' hn'
            rcases List.mem_cons.mp hn' with e | e
            · subst e
              simp [hx, Outcome.returned]
            · exact h.2 n' e
        · right; left
          obtain ⟨h1, n', hn', h2⟩ := h
          exact ⟨h1, n', List.mem_cons_of_mem _ hn', h2⟩
        · right; right
          obtain ⟨h1, n', hn', h2⟩ := h
          exact ⟨h1, n', List.mem_cons_of_mem _ hn', h2⟩
      | error e =>
        have hb : structElement env extract (.struct name) idx ⟨[n]⟩ acc = .ok acc := by
          simp [structElement, hx]
        rw [eachLoop, hb]
        simp only []
        rcases ih (idx + 1) acc with h | h | h
        · left
          refine ⟨?_, ?_⟩
          · rw [h.1]
            simp [extractedRecords, List.filterMap_cons, hx]
          · intro n' hn'
            rcases List.mem_cons.mp hn' with e | e
            · subst e
              simp [hx, Outcome.returned]
            · exact h.2 n' e
        · right; left
          obtain ⟨h1, n', hn', h2⟩ := h
          exact ⟨h1, n', List.mem_cons_of_mem _ hn', h2⟩
        · right; right
          obtain ⟨h1, n', hn', h2⟩ := h
          exact ⟨h1, n', List.mem_cons_of_mem _ hn', h2⟩
      | panic m =>
        have hb : structElement env extract (.struct name) idx ⟨[n]⟩ acc = .panic m := by
          simp [structElement, hx]
        rw [eachLoop, hb]
        right; left
        exact ⟨⟨m, rfl⟩, n, List.mem_cons_self _ _, by simp [hx, Outcome.returned]⟩
      | outOfFuel =>
        have hb : structElement env extract (.struct name) idx ⟨[n]⟩ acc = .outOfFuel := by
          simp [structElement, hx]
        rw [eachLoop, hb]
        right; right
        exact ⟨rfl, n, List.mem_cons_self _ _, by simp [hx, Outcome.returned]⟩

theorem onlyNestedWritten_refl (env : Env) (name : Str) (v : Value) :
    onlyNestedWritten env name v v :=
  ⟨fun _ _ => rfl, fun _ => rfl⟩

theorem onlyNestedWritten_trans (env : Env) (name : Str) (a b c : Value)
    (h1 : onlyNestedWritten env name a b) (h2 : onlyNestedWritten env name b c) :
    onlyNestedWritten env name a c :=
  ⟨fun fn hn => (h2.1 fn hn).trans (h1.1 fn hn), fun hn => (h2.2 hn).trans (h1.2 hn)⟩

theorem fieldByName_mem (fields : List FieldDecl) (fieldName : Str) (f : FieldDecl)
    (h : fieldByName fields fieldName = some f) : f ∈ fields :=
  List.mem_of_find?_eq_some h

theorem onlyNestedWritten_setField (env : Env) (name fieldName : Str) (v x : Value)
    (hk : GetFieldKind env (.struct name) fieldName = .ok .Struct) :
    onlyNestedWritten env name v (v.setField fieldName x) := by
  have hf : ∃ f, fieldByName (env.types name) fieldName = some f ∧ f.Typ.Kind = .Struct := by
    simp only [GetFieldKind, structFields] at hk
    cases hfb : fieldByName (env.types name) fieldName with
    | none => simp [hfb] at hk
    | some f =>
      rw [hfb] at hk
      simp only [Outcome.ok.injEq] at hk
      exact ⟨f, rfl, hk⟩
  obtain ⟨f, hf1, hf2⟩ := hf
  constructor
  · intro fn hn
    have : fn ≠ fieldName := by
      intro e
      subst e
      exact hn f hf1 hf2
    exact getField_setField_ne v x fieldName fn this
  · intro hall
    exact absurd hf2 (hall f (fieldByName_mem _ _ _ hf1))

theorem store_target (cs : cssStructer) (fieldName : Str) (x : Value) :
    (cs.store fieldName x).targetType = cs.targetType ∧
    (cs.store fieldName x).targetStruct = cs.targetStruct :=
  ⟨rfl, rfl⟩

/-- `setFieldValueByType` writes behind the destination pointer in nested-record fields
only. -/
theorem setFieldValueByType_target (env : Env) (extract : Extractor) (cs : cssStructer)
    (fieldValue fieldName attrName : Str) (sel : Selection) (name : Str)
    (hty : cs.targetType = .struct name) :
    (cs.setFieldValueByType env extract fieldValue fieldName attrName sel).1.targetType
      = .struct name ∧
    onlyNestedWritten env name cs.targetStruct
      (cs.setFieldValueByType env extract fieldValue fieldName attrName sel).1.targetStruct := by
  have hrefl := onlyNestedWritten_refl env name cs.targetStruct
  unfold cssStructer.setFieldValueByType
  rw [hty]
  cases hk : GetFieldKind env (.struct name) fieldName with
  | error e => exact ⟨hty, hrefl⟩
  | panic m => exact ⟨hty, hrefl⟩
  | outOfFuel => exact ⟨hty, hrefl⟩
  | ok kind =>
    by_cases hS : kind = .Struct
    · subst hS
      simp only []
      cases getFieldAndPointer env (.struct name) cs.targetStruct fieldName with
      | error e => exact ⟨hty, hrefl⟩
      | panic m => exact ⟨hty, hrefl⟩
      | outOfFuel => exact ⟨hty, hrefl⟩
      | ok r =>
        obtain ⟨direct, fieldType, pointee⟩ := r
        simp only []
        cases hx : extract sel fieldType pointee with
        | mk pointee' st =>
          rcases st with ⟨⟨⟩⟩ | e | m | _ <;>
            exact ⟨rfl, onlyNestedWritten_setField env name fieldName _ _ hk⟩
    · by_cases hA : kind = .Array ∨ kind = .Slice
      · have hgoal : ∀ r : Outcome (GoType × Value),
            ((match r with
              | .error e => (cs, Outcome.error e)
              | .panic m => (cs, .panic m)
              | .outOfFuel => (cs, .outOfFuel)
              | .ok (sliceType, _) =>
                match sliceType.Elem with
                | none => (cs, .panic "reflect: Elem of invalid type".toList)
                | some sliceOfType =>
                  match fillSlice env extract fieldValue attrName sel sliceOfType with
                  | .ok selarray => (cs.store fieldName (.seq selarray), .ok ())
                  | .error e => (cs, .error e)
                  | .panic m => (cs, .panic m)
                  | .outOfFuel => (cs, .outOfFuel)) : cssStructer × Outcome Unit).1.targetType
              = .struct name ∧
            onlyNestedWritten env name cs.targetStruct
              ((match r with
              | .error e => (cs, Outcome.error e)
              | .panic m => (cs, .panic m)
              | .outOfFuel => (cs, .outOfFuel)
              | .ok (sliceType, _) =>
                match sliceType.Elem with
                | none => (cs, .panic "reflect: Elem of invalid type".toList)
                | some sliceOfType =>
                  match fillSlice env extract fieldValue attrName sel sliceOfType with
                  | .ok selarray => (cs.store fieldName (.seq selarray), .ok ())
                  | .error e => (cs, .error e)
                  | .panic m => (cs, .panic m)
                  | .outOfFuel => (cs, .outOfFuel)) : cssStructer × Outcome Unit).1.targetStruct := by
          intro r
          cases r with
          | error e => exact ⟨hty, hrefl⟩
          | panic m => exact ⟨hty, hrefl⟩
          | outOfFuel => exact ⟨hty, hrefl⟩
          | ok p =>
            obtain ⟨sliceType, v⟩ := p
            simp only []
            cases sliceType.Elem with
            | none => exact ⟨hty, hrefl⟩
            | some sliceOfType =>
              simp only []
              cases fillSlice env extract fieldValue attrName sel sliceOfType <;>
                exact ⟨hty, hrefl⟩
        rcases hA with rfl | rfl <;> exact hgoal _
      · have hgoal : ∀ r : Outcome Str,
            ((match r with
              | .ok val => (cs.store fieldName (.str val), Outcome.ok ())
              | .error e => (cs, .error e)
              | .panic m => (cs, .panic m)
              | .outOfFuel => (cs, .outOfFuel)) : cssStructer × Outcome Unit).1.targetType
              = .struct name ∧
            onlyNestedWritten env name cs.targetStruct
              ((match r with
              | .ok val => (cs.store fieldName (.str val), Outcome.ok ())
              | .error e => (cs, .error e)
              | .panic m => (cs, .panic m)
              | .outOfFuel => (cs, .outOfFuel)) : cssStructer × Outcome Unit).1.targetStruct := by
          intro r
          cases r <;> exact ⟨hty, hrefl⟩
        cases kind <;> simp at hS hA <;> exact hgoal _

theorem parseField_target (env : Env) (extract : Extractor) (cs : cssStructer)
    (fieldName tag : Str) (resp : Selection) (name : Str)
    (hty : cs.targetType = .struct name) :
    (cs.parseField env extract fieldName tag resp).1.targetType = .struct name ∧
    onlyNestedWritten env name cs.targetStruct
      (cs.parseField env extract fieldName tag resp).1.targetStruct := by
  unfold cssStructer.parseField
  cases parseTag tag with
  | error e => exact ⟨hty, onlyNestedWritten_refl env name _⟩
  | ok r =>
    obtain ⟨selector, valueType, attrName⟩ := r
    exact setFieldValueByType_target env extract cs valueType fieldName attrName _ name hty

theorem parseTargetFieldsLoop_target (env : Env) (extract : Extractor) (resp : Selection)
    (name : Str) (entries : List (Str × Str)) (cs : cssStructer)
    (hty : cs.targetType = .struct name) :
    (parseTargetFieldsLoop env extract resp entries cs).1.targetType = .struct name ∧
    onlyNestedWritten env name cs.targetStruct
      (parseTargetFieldsLoop env extract resp entries cs).1.targetStruct := by
  induction entries generalizing cs with
  | nil => exact ⟨hty, onlyNestedWritten_refl env name _⟩
  | cons entry rest ih =>
    obtain ⟨fieldName, fieldTag⟩ := entry
    have hstep := parseField_target env extract cs fieldName fieldTag resp name hty
    unfold parseTargetFieldsLoop
    cases hx : cs.parseField env extract fieldName fieldTag resp with
    | mk cs' st =>
      rw [hx] at hstep
      cases st with
      | ok u =>
        have hrest := ih cs' hstep.1
        exact ⟨hrest.1, onlyNestedWritten_trans env name _ _ _ hstep.2 hrest.2⟩
      | error e => exact hstep
      | panic m => exact hstep
      | outOfFuel => exact hstep

theorem prepStructer_target (env : Env) (extract : Extractor) (src : Selection) (name : Str)
    (dest : Value) :
    onlyNestedWritten env name dest
      (prepStructer env extract src (.struct name) dest).1.targetStruct := by
  unfold prepStructer cssStructer.parseTargetFields
  dsimp only
  cases Tags env (.struct name) with
  | error e => exact onlyNestedWritten_refl env name _
  | panic m => exact onlyNestedWritten_refl env name _
  | outOfFuel => exact onlyNestedWritten_refl env name _
  | ok structTags =>
    exact (parseTargetFieldsLoop_target env extract src name _
      { targetType := .struct name, targetStruct := dest, collectedFieldValues := [] } rfl).2

/-! ## Claims on the tag parser -/

/-- C3 (counterexample): the selector `" a"` contains no `;`, yet `parseTag " a;text"`
returns the selector `"a"`, not `" a"`: the leading white space is trimmed away. -/
theorem parseTag_text_selector_counterexample :
    ';' ∉ " a".toList ∧
    parseTag (" a".toList ++ ';' :: kwText) = .ok ("a".toList, kwText, []) ∧
    parseTag (" a".toList ++ ';' :: kwText) ≠ .ok (" a".toList, kwText, []) := by
  decide

/-- C3 (amended): for every selector string `s` without `;`, `parseTag (s ++ ";text")`
succeeds with valueType `"text"`, an empty attrName, and as selector `s` without its
leading white space; that is `s` itself when `s` does not begin with white space. -/
theorem parseTag_text (s : Str) (h : ';' ∉ s) :
    parseTag (s ++ ';' :: kwText) = .ok (s.dropWhile isSpace, kwText, []) ∧
    ((∀ c, s.head? = some c → isSpace c = false) → s.dropWhile isSpace = s) := by
  constructor
  · have hd : ';' ∉ s.dropWhile isSpace := fun hm => h ((List.dropWhile_suffix _).subset hm)
    have hsplit : Split ';' (TrimSpace (s ++ ';' :: kwText)) = [s.dropWhile isSpace, kwText] := by
      rw [TrimSpace_text s, Split_append_sep _ _ _ hd, Split_of_not_mem]
      decide
    have h1 : HasPrefix kwText kwObj = false := by decide
    have h2 : HasPrefix kwText kwAttr = false := by decide
    rw [parseTag_of_split _ _ _ hsplit]
    simp [h1, h2]
  · intro hh
    cases s with
    | nil => rfl
    | cons c cs => simp [List.dropWhile, hh c rfl]

/-- Witness of `parseTag_text`, at the selector `"div.title"`. -/
theorem parseTag_text_witness :
    parseTag ("div.title".toList ++ ';' :: kwText)
        = .ok (("div.title".toList).dropWhile isSpace, kwText, []) ∧
    ((∀ c, ("div.title".toList).head? = some c → isSpace c = false) →
      ("div.title".toList).dropWhile isSpace = "div.title".toList) :=
  parseTag_text "div.title".toList (by decide)

/-- C4: `parseTag` returns an error exactly when the trimmed tag does not contain exactly
one `;`, or the part after the `;` neither begins with "obj", nor begins with "attr", nor
is "text" or "html", or that part begins with "attr" (and not with "obj") and contains no
`=`.  In particular "x;bogus", "no-semicolon", "x;attr" and every tag with two or more
`;` are rejected. -/
theorem parseTag_error_iff :
    (∀ tag : Str, (∃ e, parseTag tag = .error e) ↔
      ((TrimSpace tag).count ';' ≠ 1 ∨
        (¬ kwObj <+: afterSep ';' (TrimSpace tag) ∧ ¬ kwAttr <+: afterSep ';' (TrimSpace tag) ∧
          afterSep ';' (TrimSpace tag) ≠ kwText ∧ afterSep ';' (TrimSpace tag) ≠ kwHtml) ∨
        (kwAttr <+: afterSep ';' (TrimSpace tag) ∧ ¬ kwObj <+: afterSep ';' (TrimSpace tag) ∧
          '=' ∉ afterSep ';' (TrimSpace tag)))) ∧
    (∃ e, parseTag "x;bogus".toList = .error e) ∧
    (∃ e, parseTag "no-semicolon".toList = .error e) ∧
    (∃ e, parseTag "x;attr".toList = .error e) ∧
    (∀ tag : Str, 2 ≤ tag.count ';' → ∃ e, parseTag tag = .error e) := by
  refine ⟨?_, ⟨_, rfl⟩, ⟨_, rfl⟩, ⟨_, rfl⟩, ?_⟩
  · intro tag
    by_cases hc : (TrimSpace tag).count ';' = 1
    · rw [parseTag_of_split _ _ _ (Split_of_count_one ';' _ hc)]
      generalize afterSep ';' (TrimSpace tag) = p
      simp only [hc, ne_eq, not_true_eq_false, false_or]
      by_cases ho : HasPrefix p kwObj = true
      · have ho' := (HasPrefix_iff _ _).mp ho
        simp [ho, ho']
      · have ho' : ¬ kwObj <+: p := fun h => ho ((HasPrefix_iff _ _).mpr h)
        by_cases ha : HasPrefix p kwAttr = true
        · have ha' := (HasPrefix_iff _ _).mp ha
          by_cases he : (Split '=' (TrimSpace p)).length < 2
          · have he' := (length_Split_eq_lt_two p).mp he
            simp [ho, ha, he, ho', ha', he']
          · have he' : ¬ '=' ∉ p := fun h => he ((length_Split_eq_lt_two p).mpr h)
            simp only [not_not] at he'
            simp [ho, ha, he, ho', ha', he']
        · have ha' : ¬ kwAttr <+: p := fun h => ha ((HasPrefix_iff _ _).mpr h)
          by_cases ht : p = kwText
          · subst ht
            simp [if_neg ho, if_neg ha, ha']
          · by_cases hh : p = kwHtml
            · subst hh
              simp [if_neg ho, if_neg ha, ha']
            · simp [ho, ha, ho', ha', ht, hh]
    · have hl : (Split ';' (TrimSpace tag)).length ≠ 2 := by
        rw [length_Split]
        omega
      rw [parseTag_of_length_ne tag hl]
      simp [hc]
  · intro tag h2
    have hl : (Split ';' (TrimSpace tag)).length ≠ 2 := by
      rw [length_Split, count_TrimSpace tag ';' (by decide)]
      omega
    exact ⟨_, parseTag_of_length_ne tag hl⟩

/-- Witness of `parseTag_error_iff`: the tag "a;b;text" has two `;` and is rejected. -/
theorem parseTag_error_iff_witness :
    2 ≤ ("a;b;text".toList).count ';' ∧ ∃ e, parseTag "a;b;text".toList = .error e :=
  ⟨by decide, parseTag_error_iff.2.2.2.2 "a;b;text".toList (by decide)⟩

/-- C5 (counterexample): the tag "x;attr=a=b" satisfies the conditions of the claim, the
text of its spec part after the first `=` is "a=b", yet the attrName returned is "a". -/
theorem parseTag_attr_counterexample :
    noOuterSpace ("x".toList ++ ';' :: "attr=a=b".toList) = true ∧
    ';' ∉ "x".toList ∧ ';' ∉ "attr=a=b".toList ∧
    HasPrefix "attr=a=b".toList kwAttr = true ∧ '=' ∈ "attr=a=b".toList ∧
    afterSep '=' "attr=a=b".toList = "a=b".toList ∧
    parseTag ("x".toList ++ ';' :: "attr=a=b".toList) = .ok ("x".toList, kwAttr, "a".toList) ∧
    parseTag ("x".toList ++ ';' :: "attr=a=b".toList)
      ≠ .ok ("x".toList, kwAttr, afterSep '=' "attr=a=b".toList) := by
  decide

/-- C5 (amended): for every tag `s ++ ";" ++ p` without leading or trailing white space,
where `s` and `p` contain no `;`, `p` begins with "attr" and contains `=`, `parseTag`
succeeds with selector `s`, valueType "attr" and as attrName the text of `p` between its
first `=` and its next `=` (or its end); that is the entire text after the first `=`
when `p` contains exactly one `=`. -/
theorem parseTag_attr (s p : Str) (hs : ';' ∉ s) (hp : ';' ∉ p) (hpre : kwAttr <+: p)
    (heq : '=' ∈ p) (hsp : noOuterSpace (s ++ ';' :: p) = true) :
    parseTag (s ++ ';' :: p) = .ok (s, kwAttr, beforeSep '=' (afterSep '=' p)) ∧
    (p.count '=' = 1 → beforeSep '=' (afterSep '=' p) = afterSep '=' p) := by
  constructor
  · have hsplit : Split ';' (TrimSpace (s ++ ';' :: p)) = [s, p] := by
      rw [TrimSpace_eq_self _ hsp, Split_append_sep _ _ _ hs, Split_of_not_mem _ _ hp]
    have htrim : TrimSpace p = p :=
      TrimSpace_spec_part _ p hsp ⟨s ++ [';'], by simp⟩ hpre
    have hlen : ¬ (Split '=' (TrimSpace p)).length < 2 :=
      fun h => (length_Split_eq_lt_two p).mp h heq
    rw [parseTag_of_split _ _ _ hsplit, if_neg (by simp [not_obj_of_attr p hpre]),
      if_pos ((HasPrefix_iff _ _).mpr hpre), if_neg hlen, htrim, Split_getD_one '=' p heq]
  · intro h1
    apply beforeSep_of_not_mem
    have := count_afterSep '=' p heq
    exact List.count_eq_zero.mp (by omega)

/-- Witness of `parseTag_attr`, at the tag "x;attr=href". -/
theorem parseTag_attr_witness :
    parseTag ("x".toList ++ ';' :: "attr=href".toList)
        = .ok ("x".toList, kwAttr, beforeSep '=' (afterSep '=' "attr=href".toList)) ∧
    (("attr=href".toList).count '=' = 1 →
      beforeSep '=' (afterSep '=' "attr=href".toList) = afterSep '=' "attr=href".toList) :=
  parseTag_attr "x".toList "attr=href".toList (by decide) (by decide)
    ⟨"=href".toList, by decide⟩ (by decide) (by decide)

/-- C10 (counterexample): the tag "x;attr=" is accepted in attribute mode with an empty
attrName. -/
theorem parseTag_attr_empty_counterexample :
    parseTag "x;attr=".toList = .ok ("x".toList, kwAttr, []) := by
  decide

/-- C10 (amended): for every tag on which `parseTag` succeeds with valueType "attr", the
trimmed tag contains exactly one `;`, the part after it begins with "attr" and contains
`=`, and the attrName returned is the possibly empty text of that part between its first
`=` and its next `=` (or its end): it contains neither `;` nor `=`. -/
theorem parseTag_attrName (tag sel a : Str) (h : parseTag tag = .ok (sel, kwAttr, a)) :
    (TrimSpace tag).count ';' = 1 ∧
    kwAttr <+: afterSep ';' (TrimSpace tag) ∧
    '=' ∈ afterSep ';' (TrimSpace tag) ∧
    a = beforeSep '=' (afterSep '=' (afterSep ';' (TrimSpace tag))) ∧
    ';' ∉ a ∧ '=' ∉ a := by
  have hc : (TrimSpace tag).count ';' = 1 := by
    by_contra hc
    have hl : (Split ';' (TrimSpace tag)).length ≠ 2 := by
      rw [length_Split]
      omega
    rw [parseTag_of_length_ne tag hl] at h
    cases h
  have hsplit := Split_of_count_one ';' _ hc
  have hsuf := afterSep_suffix ';' (TrimSpace tag)
  have hsemi : ';' ∉ afterSep ';' (TrimSpace tag) :=
    not_mem_of_mem_Split ';' (TrimSpace tag) _ (by simp [hsplit])
  rw [parseTag_of_split _ _ _ hsplit] at h
  generalize afterSep ';' (TrimSpace tag) = p at h hsuf hsemi ⊢
  by_cases ho : HasPrefix p kwObj = true
  · rw [if_pos ho] at h
    cases h
  · rw [if_neg ho] at h
    by_cases ha : HasPrefix p kwAttr = true
    · have ha' := (HasPrefix_iff _ _).mp ha
      rw [if_pos ha] at h
      by_cases he : (Split '=' (TrimSpace p)).length < 2
      · rw [if_pos he] at h
        cases h
      · rw [if_neg he] at h
        have heq : '=' ∈ p := by
          by_contra hn
          exact he ((length_Split_eq_lt_two p).mpr hn)
        have htrim : TrimSpace p = p :=
          TrimSpace_spec_part _ p (noOuterSpace_TrimSpace tag) hsuf ha'
        rw [htrim, Split_getD_one '=' p heq] at h
        have ha2 : a = beforeSep '=' (afterSep '=' p) := by
          injection h with h
          injection h with _ h
          injection h with _ h
          exact h.symm
        refine ⟨hc, ha', heq, ha2, ?_, ?_⟩
        · intro hm
          rw [ha2] at hm
          exact hsemi ((afterSep_suffix '=' p).subset ((List.takeWhile_prefix _).subset hm))
        · rw [ha2]
          exact not_mem_beforeSep '=' _
    · rw [if_neg ha] at h
      by_cases ht : p ≠ kwText ∧ p ≠ kwHtml
      · rw [if_pos ht] at h
        cases h
      · rw [if_neg ht] at h
        have hp : p = kwAttr := by
          injection h with h
          injection h with _ h
          injection h with h _
        rw [hp] at ha
        exact absurd (by decide) ha

/-- Witness of `parseTag_attrName`, at the tag "x;attr=href". -/
theorem parseTag_attrName_witness :
    (TrimSpace "x;attr=href".toList).count ';' = 1 ∧
    kwAttr <+: afterSep ';' (TrimSpace "x;attr=href".toList) ∧
    '=' ∈ afterSep ';' (TrimSpace "x;attr=href".toList) ∧
    "href".toList = beforeSep '=' (afterSep '=' (afterSep ';' (TrimSpace "x;attr=href".toList))) ∧
    ';' ∉ "href".toList ∧ '=' ∉ "href".toList :=
  parseTag_attrName "x;attr=href".toList "x".toList "href".toList (by decide)

/-! ## Claims on scalar extraction and field dispatch -/

/-- C9: `getFieldValue` in "text" mode always succeeds with the text content of the
selection; in "attr" mode it returns the value of the named attribute, without error, when
the selection has that attribute, and an error when the attribute is absent. -/
theorem getFieldValue_text_attr :
    (∀ (attrName : Str) (sel : Selection), getFieldValue kwText attrName sel = .ok sel.Text) ∧
    (∀ (attrName : Str) (sel : Selection) (val : Str), sel.Attr attrName = some val →
      getFieldValue kwAttr attrName sel = .ok val) ∧
    (∀ (attrName : Str) (sel : Selection), sel.Attr attrName = none →
      ∃ e, getFieldValue kwAttr attrName sel = .error e) := by
  have h1 : kwAttr ≠ kwText := by decide
  have h2 : kwAttr ≠ kwHtml := by decide
  refine ⟨?_, ?_, ?_⟩
  · intro attrName sel
    simp [getFieldValue]
  · intro attrName sel val h
    simp only [getFieldValue, if_neg h1, if_neg h2, if_true, h]
  · intro attrName sel h
    simp only [getFieldValue, if_neg h1, if_neg h2, if_true, h]
    exact ⟨_, rfl⟩

/-- Witness of `getFieldValue_text_attr`: the first list item of the example has the
attribute `data-id`, with value "1"; the second one has not. -/
theorem getFieldValue_text_attr_witness :
    getFieldValue kwAttr "data-id".toList ⟨[li1Node]⟩ = .ok "1".toList ∧
    ∃ e, getFieldValue kwAttr "data-id".toList ⟨[li2Node]⟩ = .error e :=
  ⟨getFieldValue_text_attr.2.1 "data-id".toList ⟨[li1Node]⟩ "1".toList (by rfl),
   getFieldValue_text_attr.2.2 "data-id".toList ⟨[li2Node]⟩ (by rfl)⟩

/-- C1: for a slice or array field whose elements are of a basic scalar kind, with mode
text, html or attr, `setFieldValueByType` returns no error and stores under the field name
the list, in selection order, of the strings `getFieldValue` returns on the elements of
the selection on which it succeeds; the other elements are left out, so the stored list
has at most `sel.Length()` entries, and exactly that many in text mode. -/
theorem setFieldValueByType_basic_slice (env : Env) (extract : Extractor) (cs : cssStructer)
    (fieldValue fieldName attrName : Str) (sel : Selection) (name : Str) (f : FieldDecl)
    (elem : GoType)
    (hty : cs.targetType = .struct name)
    (hf : fieldByName (env.types name) fieldName = some f)
    (hseq : isSequenceOf f.Typ elem) (helem : isBasicScalar elem.Kind = true)
    (hmode : fieldValue = kwText ∨ fieldValue = kwHtml ∨ fieldValue = kwAttr) :
    cs.setFieldValueByType env extract fieldValue fieldName attrName sel
      = (cs.store fieldName (.seq (extractedStrings fieldValue attrName sel)), .ok ()) ∧
    (cs.setFieldValueByType env extract fieldValue fieldName attrName
        sel).1.collectedFieldValues.lookup fieldName
      = some (.seq (extractedStrings fieldValue attrName sel)) ∧
    (extractedStrings fieldValue attrName sel).length ≤ sel.Length ∧
    (fieldValue = kwText → (extractedStrings fieldValue attrName sel).length = sel.Length) := by
  have hmain : cs.setFieldValueByType env extract fieldValue fieldName attrName sel
      = (cs.store fieldName (.seq (extractedStrings fieldValue attrName sel)), .ok ()) := by
    have hloop := eachLoop_basicElement fieldValue attrName hmode sel.Nodes 0 []
    have hkind : f.Typ.Kind = .Slice ∨ f.Typ.Kind = .Array := by
      rcases hseq with h | ⟨len, h⟩ <;> simp [h, GoType.Kind]
    have hel : f.Typ.Elem = some elem := by
      rcases hseq with h | ⟨len, h⟩ <;> simp [h, GoType.Elem]
    unfold cssStructer.setFieldValueByType
    rw [hty, GetFieldKind_of_field env name fieldName f hf,
      GetField_of_field env name fieldName f _ hf]
    have hfill : fillSlice env extract fieldValue attrName sel elem
        = .ok (extractedStrings fieldValue attrName sel) := by
      unfold fillSlice
      cases hek : elem.Kind <;> simp [hek, isBasicScalar] at helem <;>
        simp [Selection.Each, hloop]
    rcases hkind with hk | hk <;> rw [hk] <;> simp only [hel, hfill]
  refine ⟨hmain, ?_, extractedStrings_length_le _ _ _, ?_⟩
  · rw [hmain]
    exact lookup_mapSet_self _ _ _
  · intro h
    subst h
    exact extractedStrings_text_length _ _

/-- Witness of `setFieldValueByType_basic_slice`: the field `Ids []string` of the example,
in mode attr with attribute `data-id`, on the three list items. -/
theorem setFieldValueByType_basic_slice_witness :
    (exampleStructer "Listing".toList).setFieldValueByType exampleEnv (extractByTags exampleEnv 0)
        kwAttr "Ids".toList "data-id".toList ⟨[li1Node, li2Node, li3Node]⟩
      = ((exampleStructer "Listing".toList).store "Ids".toList
          (.seq (extractedStrings kwAttr "data-id".toList ⟨[li1Node, li2Node, li3Node]⟩)),
          .ok ()) ∧
    extractedStrings kwAttr "data-id".toList ⟨[li1Node, li2Node, li3Node]⟩
      = [.str "1".toList, .str "3".toList] :=
  ⟨(setFieldValueByType_basic_slice exampleEnv (extractByTags exampleEnv 0)
      (exampleStructer "Listing".toList) kwAttr "Ids".toList "data-id".toList
      ⟨[li1Node, li2Node, li3Node]⟩ "Listing".toList
      ⟨"Ids".toList, "li;attr=data-id".toList, .slice (.prim .String)⟩ (.prim .String)
      rfl (by decide) (Or.inl rfl) (by decide) (by decide)).1,
   by rfl⟩

/-- C7 (counterexample): the field `F func()` of the example type `Callback` is of kind
func, none of the supported classifications, yet `setFieldValueByType` in text mode returns
no error on it and stores an entry, the text "Title", under its name. -/
theorem setFieldValueByType_func_counterexample :
    (fieldByName (exampleEnv.types "Callback".toList) "F".toList).map (fun f => f.Typ.Kind)
      = some Kind.Func ∧
    ((exampleStructer "Callback".toList).setFieldValueByType exampleEnv
        (extractByTags exampleEnv 0) kwText "F".toList [] ⟨[h1Node]⟩).2 = .ok () ∧
    (((exampleStructer "Callback".toList).setFieldValueByType exampleEnv
        (extractByTags exampleEnv 0) kwText "F".toList []
        ⟨[h1Node]⟩).1.collectedFieldValues.lookup "F".toList).bind Value.asStr
      = some "Title".toList := by
  decide

/-- C7 (amended): for a slice or array field whose element kind is neither struct nor a
basic scalar (a slice of functions or of channels, say), `setFieldValueByType` returns the
error "Field is of an unsupported slice value kind" and stores nothing, whatever the
selection and the mode; a field that is itself of a kind other than struct, slice and
array (function or channel included) is dispatched as a scalar: in text mode no error is
returned and the text of the selection is stored under its name. -/
theorem setFieldValueByType_unsupported (env : Env) (extract : Extractor) (cs : cssStructer)
    (fieldValue fieldName attrName : Str) (sel : Selection) (name : Str) (f : FieldDecl)
    (hty : cs.targetType = .struct name)
    (hf : fieldByName (env.types name) fieldName = some f) :
    (∀ elem, isSequenceOf f.Typ elem → elem.Kind ≠ .Struct → isBasicScalar elem.Kind = false →
      cs.setFieldValueByType env extract fieldValue fieldName attrName sel
        = (cs, .error ("Field is of an unsupported slice value kind: ".toList
            ++ elem.Kind.printed))) ∧
    (f.Typ.Kind ≠ .Struct → f.Typ.Kind ≠ .Slice → f.Typ.Kind ≠ .Array →
      cs.setFieldValueByType env extract kwText fieldName attrName sel
        = (cs.store fieldName (.str sel.Text), .ok ())) := by
  constructor
  · intro elem hseq hns hnb
    have hkind : f.Typ.Kind = .Slice ∨ f.Typ.Kind = .Array := by
      rcases hseq with h | ⟨len, h⟩ <;> simp [h, GoType.Kind]
    have hel : f.Typ.Elem = some elem := by
      rcases hseq with h | ⟨len, h⟩ <;> simp [h, GoType.Elem]
    have hfill : fillSlice env extract fieldValue attrName sel elem
        = .error ("Field is of an unsupported slice value kind: ".toList
            ++ elem.Kind.printed) := by
      unfold fillSlice
      cases hek : elem.Kind <;> simp [hek, isBasicScalar] at hns hnb <;> rfl
    unfold cssStructer.setFieldValueByType
    rw [hty, GetFieldKind_of_field env name fieldName f hf,
      GetField_of_field env name fieldName f _ hf]
    rcases hkind with hk | hk <;> rw [hk] <;> simp only [hel, hfill]
  · intro h1 h2 h3
    unfold cssStructer.setFieldValueByType
    rw [hty, GetFieldKind_of_field env name fieldName f hf]
    cases hk : f.Typ.Kind <;> simp [hk] at h1 h2 h3 <;> simp [getFieldValue]

/-- Witness of `setFieldValueByType_unsupported`: the field `Fs []func()` of the example
type `Hooks` is rejected. -/
theorem setFieldValueByType_unsupported_witness :
    (exampleStructer "Hooks".toList).setFieldValueByType exampleEnv (extractByTags exampleEnv 0)
        kwText "Fs".toList [] ⟨[li1Node, li2Node, li3Node]⟩
      = (exampleStructer "Hooks".toList,
          .error ("Field is of an unsupported slice value kind: ".toList
            ++ (GoType.prim .Func).Kind.printed)) :=
  (setFieldValueByType_unsupported exampleEnv (extractByTags exampleEnv 0)
      (exampleStructer "Hooks".toList) kwText "Fs".toList [] ⟨[li1Node, li2Node, li3Node]⟩
      "Hooks".toList ⟨"Fs".toList, "li;text".toList, .slice (.prim .Func)⟩
      rfl (by decide)).1 (.prim .Func) (Or.inl rfl) (by decide) (by decide)

/-- C6 (counterexample): the field `Title string` of the example type `Heading` is of
scalar kind and tagged "h1;obj"; `parseField` does not return an error on it, it panics. -/
theorem parseField_obj_scalar_counterexample :
    (fieldByName (exampleEnv.types "Heading".toList) "Title".toList).map (fun f => f.Typ.Kind)
      = some Kind.String ∧
    ((exampleStructer "Heading".toList).parseField exampleEnv (extractByTags exampleEnv 0)
        "Title".toList "h1;obj".toList exampleDoc).2 = .panic "Bad fieldValue: ".toList := by
  decide

/-- C6 (amended): for a field of scalar kind (neither struct nor slice nor array) whose tag
is in object mode, `parseField` does not return: `getFieldValue` panics with
"Bad fieldValue: " on the empty valueType of object mode.  No value is stored for the
field. -/
theorem parseField_obj_scalar (env : Env) (extract : Extractor) (cs : cssStructer)
    (fieldName tag : Str) (resp : Selection) (name : Str) (f : FieldDecl) (selector spec : Str)
    (hty : cs.targetType = .struct name)
    (hf : fieldByName (env.types name) fieldName = some f)
    (h1 : f.Typ.Kind ≠ .Struct) (h2 : f.Typ.Kind ≠ .Slice) (h3 : f.Typ.Kind ≠ .Array)
    (htag : Split ';' (TrimSpace tag) = [selector, spec]) (hobj : kwObj <+: spec) :
    cs.parseField env extract fieldName tag resp = (cs, .panic "Bad fieldValue: ".toList) := by
  have hp : parseTag tag = .ok (selector, [], []) := by
    rw [parseTag_of_split _ _ _ htag, if_pos ((HasPrefix_iff _ _).mpr hobj)]
  have hg : ∀ sel, getFieldValue [] [] sel = .panic "Bad fieldValue: ".toList := by
    intro sel
    rfl
  unfold cssStructer.parseField
  rw [hp]
  simp only []
  unfold cssStructer.setFieldValueByType
  rw [hty, GetFieldKind_of_field env name fieldName f hf]
  cases hk : f.Typ.Kind <;> simp [hk] at h1 h2 h3 <;> simp [hg]

/-- Witness of `parseField_obj_scalar`, at the field `Title` of the example type
`Heading`. -/
theorem parseField_obj_scalar_witness :
    (exampleStructer "Heading".toList).parseField exampleEnv (extractByTags exampleEnv 0)
        "Title".toList "h1;obj".toList exampleDoc
      = (exampleStructer "Heading".toList, .panic "Bad fieldValue: ".toList) :=
  parseField_obj_scalar exampleEnv (extractByTags exampleEnv 0)
    (exampleStructer "Heading".toList) "Title".toList "h1;obj".toList exampleDoc
    "Heading".toList ⟨"Title".toList, "h1;obj".toList, .prim .String⟩ "h1".toList kwObj
    rfl (by decide) (by decide) (by decide) (by decide) (by decide) ⟨[], by rfl⟩

/-- C8: for a slice or array field whose elements are structs, `setFieldValueByType` never
returns an error; the sequence it stores holds, in selection order, one mapping for each
element of the selection on which the recursive extraction and the conversion to a mapping
succeed, the elements on which the extraction fails being left out; and it does store that
sequence whenever the recursive extraction returns, with or without an error, on every
element. -/
theorem setFieldValueByType_struct_slice (env : Env) (extract : Extractor) (cs : cssStructer)
    (fieldValue fieldName attrName : Str) (sel : Selection) (name : Str) (f : FieldDecl)
    (elemName : Str)
    (hty : cs.targetType = .struct name)
    (hf : fieldByName (env.types name) fieldName = some f)
    (hseq : isSequenceOf f.Typ (.struct elemName)) :
    (∀ e, (cs.setFieldValueByType env extract fieldValue fieldName attrName sel).2 ≠ .error e) ∧
    ((cs.setFieldValueByType env extract fieldValue fieldName attrName sel).2 = .ok () →
      (cs.setFieldValueByType env extract fieldValue fieldName attrName sel).1
        = cs.store fieldName (.seq (extractedRecords env extract (.struct elemName) sel))) ∧
    ((∀ n ∈ sel.Nodes, (extract ⟨[n]⟩ (.struct elemName) .zero).2.returned = true) →
      cs.setFieldValueByType env extract fieldValue fieldName attrName sel
        = (cs.store fieldName (.seq (extractedRecords env extract (.struct elemName) sel)),
            .ok ())) := by
  have hkind : f.Typ.Kind = .Slice ∨ f.Typ.Kind = .Array := by
    rcases hseq with h | ⟨len, h⟩ <;> simp [h, GoType.Kind]
  have hel : f.Typ.Elem = some (.struct elemName) := by
    rcases hseq with h | ⟨len, h⟩ <;> simp [h, GoType.Elem]
  have hfill : fillSlice env extract fieldValue attrName sel (.struct elemName)
      = eachLoop (structElement env extract (.struct elemName)) sel.Nodes 0 [] := by
    rfl
  have hrun : cs.setFieldValueByType env extract fieldValue fieldName attrName sel
      = match eachLoop (structElement env extract (.struct elemName)) sel.Nodes 0 [] with
        | .ok selarray => (cs.store fieldName (.seq selarray), .ok ())
        | .error e => (cs, .error e)
        | .panic m => (cs, .panic m)
        | .outOfFuel => (cs, .outOfFuel) := by
    unfold cssStructer.setFieldValueByType
    rw [hty, GetFieldKind_of_field env name fieldName f hf,
      GetField_of_field env name fieldName f _ hf]
    rcases hkind with hk | hk <;> rw [hk] <;> simp only [hel, hfill]
  rw [hrun]
  rcases eachLoop_structElement env extract elemName sel.Nodes 0 [] with h | h | h
  · rw [h.1]
    simp
  · obtain ⟨⟨m, hm⟩, n, hn, hr⟩ := h
    rw [hm]
    refine ⟨by simp, by simp, ?_⟩
    intro hall
    rw [hall n hn] at hr
    cases hr
  · obtain ⟨hm, n, hn, hr⟩ := h
    rw [hm]
    refine ⟨by simp, by simp, ?_⟩
    intro hall
    rw [hall n hn] at hr
    cases hr

/-- Witness of `setFieldValueByType_struct_slice`: the field `Rows []Entry` of the example;
the second list item has no `data-id` and is left out. -/
theorem setFieldValueByType_struct_slice_witness :
    (exampleStructer "Entries".toList).setFieldValueByType exampleEnv (extractByTags exampleEnv 1)
        [] "Rows".toList [] ⟨[li1Node, li2Node, li3Node]⟩
      = ((exampleStructer "Entries".toList).store "Rows".toList
          (.seq (extractedRecords exampleEnv (extractByTags exampleEnv 1)
            (.struct "Entry".toList) ⟨[li1Node, li2Node, li3Node]⟩)), .ok ()) ∧
    extractedRecords exampleEnv (extractByTags exampleEnv 1) (.struct "Entry".toList)
        ⟨[li1Node, li2Node, li3Node]⟩
      = [.map [("Id".toList, .str "1".toList)], .map [("Id".toList, .str "3".toList)]] :=
  ⟨(setFieldValueByType_struct_slice exampleEnv (extractByTags exampleEnv 1)
      (exampleStructer "Entries".toList) [] "Rows".toList [] ⟨[li1Node, li2Node, li3Node]⟩
      "Entries".toList ⟨"Rows".toList, "li;obj".toList, .slice (.struct "Entry".toList)⟩
      "Entry".toList rfl (by decide) (Or.inl rfl)).2.2
      (by
        intro n hn
        simp only [List.mem_cons, List.mem_singleton, List.not_mem_nil, or_false] at hn
        rcases hn with rfl | rfl | rfl <;> rfl),
   by rfl⟩

/-! ## Claims on the extraction engine -/

/-- C2 (counterexample): on the example document, extraction into a zero `Page` fails on
the field `Href` (the link has no `href`), after the nested record `Author` has been
extracted: the call returns the error, and the destination is not as it was, its field
`Author.Name` now holding "Name". -/
theorem extractByTags_failure_writes_counterexample :
    (extractByTags exampleEnv 2 exampleDoc (.struct "Page".toList) .zero).2
      = .error "Attribute 'href' not found in selection: link".toList ∧
    (prepStructer exampleEnv (extractByTags exampleEnv 1) exampleDoc (.struct "Page".toList)
        .zero).2
      = .error "Attribute 'href' not found in selection: link".toList ∧
    ((Value.zero.getField "Author".toList).getField "Name".toList).asStr = none ∧
    (((extractByTags exampleEnv 2 exampleDoc (.struct "Page".toList) .zero).1.getField
        "Author".toList).getField "Name".toList).asStr = some "Name".toList ∧
    (extractByTags exampleEnv 2 exampleDoc (.struct "Page".toList) .zero).1 ≠ .zero := by
  refine ⟨by decide, by decide, by decide, by decide, ?_⟩
  intro h
  have h2 : (((extractByTags exampleEnv 2 exampleDoc (.struct "Page".toList) .zero).1.getField
      "Author".toList).getField "Name".toList).asStr = some "Name".toList := by decide
  rw [h] at h2
  cases h2

/-- C2 (amended): if `extractByTags` returns an error because some field failed to parse or
dispatch, every field of the destination that is not a nested record is exactly as it was
before the call: only nested-record fields, which are extracted in place through a pointer
into the destination, may have been written; and a destination whose type has no
nested-record field is left exactly as it was. -/
theorem extractByTags_failure_keeps_fields (env : Env) (fuel : Nat) (src : Selection)
    (name : Str) (dest : Value) (e : Str)
    (hfail : (prepStructer env (extractByTags env fuel) src (.struct name) dest).2 = .error e) :
    (extractByTags env (fuel + 1) src (.struct name) dest).2 = .error e ∧
    (∀ fieldName, notNestedRecord env name fieldName →
      (extractByTags env (fuel + 1) src (.struct name) dest).1.getField fieldName
        = dest.getField fieldName) ∧
    ((∀ f ∈ env.types name, f.Typ.Kind ≠ .Struct) →
      (extractByTags env (fuel + 1) src (.struct name) dest).1 = dest) := by
  have htarget := prepStructer_target env (extractByTags env fuel) src name dest
  have hrun : extractByTags env (fuel + 1) src (.struct name) dest
      = ((prepStructer env (extractByTags env fuel) src (.struct name) dest).1.targetStruct,
          .error e) := by
    show extractByTagsBody env (extractByTags env fuel) src (.struct name) dest = _
    unfold extractByTagsBody
    cases hx : prepStructer env (extractByTags env fuel) src (.struct name) dest with
    | mk cs st =>
      rw [hx] at hfail
      simp only [] at hfail
      subst hfail
      rfl
  rw [hrun]
  exact ⟨rfl, htarget.1, htarget.2⟩

/-- Witness of `extractByTags_failure_keeps_fields`: the failing extraction into the example
type `Page` leaves the field `Href`, which is not a nested record, as it was. -/
theorem extractByTags_failure_keeps_fields_witness :
    (extractByTags exampleEnv 2 exampleDoc (.struct "Page".toList) .zero).1.getField
        "Href".toList
      = Value.zero.getField "Href".toList :=
  (extractByTags_failure_keeps_fields exampleEnv 1 exampleDoc "Page".toList .zero
      "Attribute 'href' not found in selection: link".toList (by decide)).2.1 "Href".toList
    (by
      intro f hf
      have : f = ⟨"Href".toList, "a;attr=href".toList, .prim .String⟩ := by
        have h2 : fieldByName (exampleEnv.types "Page".toList) "Href".toList
            = some ⟨"Href".toList, "a;attr=href".toList, .prim .String⟩ := by decide
        rw [h2] at hf
        exact (Option.some.inj hf).symm
      subst this
      decide)

/-! ## Further claims on the tag parser and on field dispatch -/

/-- C11 (counterexample): the tags "x;objx" and "x;attrx=y", whose spec parts are none of
"obj", "text", "html" and "attr=" followed by a name, are accepted: the first in object
mode, the second in attribute mode with attrName "y". -/
theorem parseTag_prefix_counterexample :
    parseTag "x;objx".toList = .ok ("x".toList, [], []) ∧
    parseTag "x;attrx=y".toList = .ok ("x".toList, kwAttr, "y".toList) := by
  decide

/-- C11 (amended): `parseTag` succeeds on a tag exactly when the trimmed tag contains
exactly one `;` and the part after it begins with "obj", or begins with "attr" and
contains `=`, or is exactly "text" or exactly "html"; every other tag is rejected.  The
words "obj" and "attr" are only tested as the beginning of the spec part. -/
theorem parseTag_ok_iff (tag : Str) :
    (∃ r, parseTag tag = .ok r) ↔
      ((TrimSpace tag).count ';' = 1 ∧
        (kwObj <+: afterSep ';' (TrimSpace tag) ∨
          (kwAttr <+: afterSep ';' (TrimSpace tag) ∧ '=' ∈ afterSep ';' (TrimSpace tag)) ∨
          afterSep ';' (TrimSpace tag) = kwText ∨ afterSep ';' (TrimSpace tag) = kwHtml)) := by
  by_cases hc : (TrimSpace tag).count ';' = 1
  · rw [parseTag_of_split _ _ _ (Split_of_count_one ';' _ hc)]
    generalize afterSep ';' (TrimSpace tag) = p
    simp only [hc, true_and]
    by_cases ho : HasPrefix p kwObj = true
    · have ho' := (HasPrefix_iff _ _).mp ho
      simp [ho, ho']
    · have ho' : ¬ kwObj <+: p := fun h => ho ((HasPrefix_iff _ _).mpr h)
      by_cases ha : HasPrefix p kwAttr = true
      · have ha' := (HasPrefix_iff _ _).mp ha
        have ht : p ≠ kwText := by
          rintro rfl
          exact absurd ha (by decide)
        have hh : p ≠ kwHtml := by
          rintro rfl
          exact absurd ha (by decide)
        by_cases he : (Split '=' (TrimSpace p)).length < 2
        · have he' := (length_Split_eq_lt_two p).mp he
          simp [ho, ha, he, ho', ha', he', ht, hh]
        · have he' : ¬ '=' ∉ p := fun h => he ((length_Split_eq_lt_two p).mpr h)
          simp only [not_not] at he'
          simp [ho, ha, he, ho', ha', he']
      · have ha' : ¬ kwAttr <+: p := fun h => ha ((HasPrefix_iff _ _).mpr h)
        by_cases ht : p = kwText
        · subst ht
          simp [if_neg ho, if_neg ha]
        · by_cases hh : p = kwHtml
          · subst hh
            simp [if_neg ho, if_neg ha]
          · simp [ho, ha, ho', ha', ht, hh]
  · have hl : (Split ';' (TrimSpace tag)).length ≠ 2 := by
      rw [length_Split]
      omega
    rw [parseTag_of_length_ne tag hl]
    simp [hc]

/-- C18: for a field of struct kind, or a slice or array of structs, what
`setFieldValueByType` returns and stores does not depend on the extraction mode nor on the
attribute name; hence two tags with the same selector, such as "x;obj", "x;text" and
"x;attr=href", give the same result of `parseField`. -/
theorem setFieldValueByType_mode_irrelevant (env : Env) (extract : Extractor)
    (cs : cssStructer) (fieldName : Str) (name : Str) (f : FieldDecl)
    (hty : cs.targetType = .struct name)
    (hf : fieldByName (env.types name) fieldName = some f)
    (hkind : f.Typ.Kind = .Struct ∨ ∃ elemName, isSequenceOf f.Typ (.struct elemName)) :
    (∀ (sel : Selection) (fieldValue attrName fieldValue' attrName' : Str),
      cs.setFieldValueByType env extract fieldValue fieldName attrName sel
        = cs.setFieldValueByType env extract fieldValue' fieldName attrName' sel) ∧
    (∀ (resp : Selection) (tag tag' selector valueType attrName valueType' attrName' : Str),
      parseTag tag = .ok (selector, valueType, attrName) →
      parseTag tag' = .ok (selector, valueType', attrName') →
      cs.parseField env extract fieldName tag resp
        = cs.parseField env extract fieldName tag' resp) := by
  have h1 : ∀ (sel : Selection) (fieldValue attrName fieldValue' attrName' : Str),
      cs.setFieldValueByType env extract fieldValue fieldName attrName sel
        = cs.setFieldValueByType env extract fieldValue' fieldName attrName' sel := by
    intro sel fieldValue attrName fieldValue' attrName'
    unfold cssStructer.setFieldValueByType
    rw [hty, GetFieldKind_of_field env name fieldName f hf,
      GetField_of_field env name fieldName f _ hf]
    rcases hkind with hk | ⟨elemName, hseq⟩
    · rw [hk]
    · have hk : f.Typ.Kind = .Slice ∨ f.Typ.Kind = .Array := by
        rcases hseq with h | ⟨len, h⟩ <;> simp [h, GoType.Kind]
      have hel : f.Typ.Elem = some (.struct elemName) := by
        rcases hseq with h | ⟨len, h⟩ <;> simp [h, GoType.Elem]
      have hfill : ∀ fv an, fillSlice env extract fv an sel (.struct elemName)
          = eachLoop (structElement env extract (.struct elemName)) sel.Nodes 0 [] :=
        fun _ _ => rfl
      rcases hk with hk | hk <;> rw [hk] <;> simp only [hel, hfill]
  refine ⟨h1, ?_⟩
  intro resp tag tag' selector valueType attrName valueType' attrName' ht ht'
  unfold cssStructer.parseField
  rw [ht, ht']
  exact h1 _ _ _ _ _

/-- Witness of `setFieldValueByType_mode_irrelevant`: on the field `Rows []Entry` of the
example, the tags "li;obj" and "li;attr=href" give the same result. -/
theorem setFieldValueByType_mode_irrelevant_witness :
    (exampleStructer "Entries".toList).parseField exampleEnv (extractByTags exampleEnv 1)
        "Rows".toList "li;obj".toList exampleDoc
      = (exampleStructer "Entries".toList).parseField exampleEnv (extractByTags exampleEnv 1)
        "Rows".toList "li;attr=href".toList exampleDoc :=
  (setFieldValueByType_mode_irrelevant exampleEnv (extractByTags exampleEnv 1)
      (exampleStructer "Entries".toList) "Rows".toList "Entries".toList
      ⟨"Rows".toList, "li;obj".toList, .slice (.struct "Entry".toList)⟩
      rfl (by decide) (Or.inr ⟨"Entry".toList, Or.inl rfl⟩)).2 exampleDoc
    "li;obj".toList "li;attr=href".toList "li".toList [] [] kwAttr "href".toList
    (by decide) (by decide)

/-! ## Lemmas on the effect of dispatching one field -/

theorem getField_setField_self (v x : Value) (k : Str) : (v.setField k x).getField k = x := by
  simp [Value.setField, Value.getField, Value.fields, lookup_mapSet_self]

/-- What `setFieldValueByType` returns, writes and stores is determined by the type of the
target and the current contents of the field alone. -/
theorem setFieldValueByType_effect (env : Env) (extract : Extractor) (ty : GoType)
    (fieldValue fieldName attrName : Str) (sel : Selection) (current : Value) :
    ∃ (o : Outcome Unit) (written stored : Option Value),
      (o = .ok () ↔ stored.isSome = true) ∧
      ∀ cs : cssStructer, cs.targetType = ty → cs.targetStruct.getField fieldName = current →
        cs.setFieldValueByType env extract fieldValue fieldName attrName sel
          = (applyEffect cs fieldName written stored, o) := by
  cases hk : GetFieldKind env ty fieldName with
  | error e =>
    refine ⟨.error e, none, none, by simp, ?_⟩
    intro cs h1 _
    unfold cssStructer.setFieldValueByType
    subst h1
    rw [hk]
    rfl
  | panic m =>
    refine ⟨.panic m, none, none, by simp, ?_⟩
    intro cs h1 _
    unfold cssStructer.setFieldValueByType
    subst h1
    rw [hk]
    rfl
  | outOfFuel =>
    refine ⟨.outOfFuel, none, none, by simp, ?_⟩
    intro cs h1 _
    unfold cssStructer.setFieldValueByType
    subst h1
    rw [hk]
    rfl
  | ok kind =>
    cases hsf : structFields env ty with
    | none => simp [GetFieldKind, hsf] at hk
    | some fs =>
      cases hfb : fieldByName fs fieldName with
      | none => simp [GetFieldKind, hsf, hfb] at hk
      | some f =>
        have hptr : ∀ thing : Value, getFieldAndPointer env ty thing fieldName
            = .ok (.reflectValue (thing.getField fieldName),
                (f.Typ, thing.getField fieldName)) := by
          intro thing
          simp [getFieldAndPointer, hsf, hfb]
        have hget : ∀ thing : Value, GetField env ty thing fieldName
            = .ok (f.Typ, thing.getField fieldName) := by
          intro thing
          simp [GetField, hsf, hfb]
        by_cases hS : kind = .Struct
        · subst hS
          cases hx : extract sel f.Typ current with
          | mk pointee' st =>
            rcases st with ⟨⟨⟩⟩ | e | m | _
            · refine ⟨.ok (), some pointee',
                some (env.structsMap (.reflectValue pointee')), by simp, ?_⟩
              intro cs h1 h2
              unfold cssStructer.setFieldValueByType
              subst h1
              rw [hk]
              simp only [hptr, h2, hx]
              rfl
            · refine ⟨.error e, some pointee', none, by simp, ?_⟩
              intro cs h1 h2
              unfold cssStructer.setFieldValueByType
              subst h1
              rw [hk]
              simp only [hptr, h2, hx]
              rfl
            · refine ⟨.panic m, some pointee', none, by simp, ?_⟩
              intro cs h1 h2
              unfold cssStructer.setFieldValueByType
              subst h1
              rw [hk]
              simp only [hptr, h2, hx]
              rfl
            · refine ⟨.outOfFuel, some pointee', none, by simp, ?_⟩
              intro cs h1 h2
              unfold cssStructer.setFieldValueByType
              subst h1
              rw [hk]
              simp only [hptr, h2, hx]
              rfl
        · by_cases hA : kind = .Array ∨ kind = .Slice
          · cases hel : f.Typ.Elem with
            | none =>
              refine ⟨.panic "reflect: Elem of invalid type".toList, none, none, by simp, ?_⟩
              intro cs h1 _
              unfold cssStructer.setFieldValueByType
              subst h1
              rw [hk]
              rcases hA with rfl | rfl <;> simp only [hget, hel] <;> rfl
            | some sliceOfType =>
              cases hfill : fillSlice env extract fieldValue attrName sel sliceOfType with
              | ok selarray =>
                refine ⟨.ok (), none, some (.seq selarray), by simp, ?_⟩
                intro cs h1 _
                unfold cssStructer.setFieldValueByType
                subst h1
                rw [hk]
                rcases hA with rfl | rfl <;> simp only [hget, hel, hfill] <;> rfl
              | error e =>
                refine ⟨.error e, none, none, by simp, ?_⟩
                intro cs h1 _
                unfold cssStructer.setFieldValueByType
                subst h1
                rw [hk]
                rcases hA with rfl | rfl <;> simp only [hget, hel, hfill] <;> rfl
              | panic m =>
                refine ⟨.panic m, none, none, by simp, ?_⟩
                intro cs h1 _
                unfold cssStructer.setFieldValueByType
                subst h1
                rw [hk]
                rcases hA with rfl | rfl <;> simp only [hget, hel, hfill] <;> rfl
              | outOfFuel =>
                refine ⟨.outOfFuel, none, none, by simp, ?_⟩
                intro cs h1 _
                unfold cssStructer.setFieldValueByType
                subst h1
                rw [hk]
                rcases hA with rfl | rfl <;> simp only [hget, hel, hfill] <;> rfl
          · cases hg : getFieldValue fieldValue attrName sel with
            | ok val =>
              refine ⟨.ok (), none, some (.str val), by simp, ?_⟩
              intro cs h1 _
              unfold cssStructer.setFieldValueByType
              subst h1
              rw [hk]
              cases kind <;> simp at hS hA <;> simp only [hg] <;> rfl
            | error e =>
              refine ⟨.error e, none, none, by simp, ?_⟩
              intro cs h1 _
              unfold cssStructer.setFieldValueByType
              subst h1
              rw [hk]
              cases kind <;> simp at hS hA <;> simp only [hg] <;> rfl
            | panic m =>
              refine ⟨.panic m, none, none, by simp, ?_⟩
              intro cs h1 _
              unfold cssStructer.setFieldValueByType
              subst h1
              rw [hk]
              cases kind <;> simp at hS hA <;> simp only [hg] <;> rfl
            | outOfFuel =>
              refine ⟨.outOfFuel, none, none, by simp, ?_⟩
              intro cs h1 _
              unfold cssStructer.setFieldValueByType
              subst h1
              rw [hk]
              cases kind <;> simp at hS hA <;> simp only [hg] <;> rfl

/-- The effect of `parseField`, as for `setFieldValueByType`. -/
theorem parseField_effect (env : Env) (extract : Extractor) (ty : GoType)
    (fieldName tag : Str) (resp : Selection) (current : Value) :
    ∃ (o : Outcome Unit) (written stored : Option Value),
      (o = .ok () ↔ stored.isSome = true) ∧
      ∀ cs : cssStructer, cs.targetType = ty → cs.targetStruct.getField fieldName = current →
        cs.parseField env extract fieldName tag resp
          = (applyEffect cs fieldName written stored, o) := by
  cases hp : parseTag tag with
  | error e =>
    refine ⟨.error e, none, none, by simp, ?_⟩
    intro cs _ _
    unfold cssStructer.parseField
    rw [hp]
    rfl
  | ok r =>
    obtain ⟨selector, valueType, attrName⟩ := r
    obtain ⟨o, written, stored, h1, h2⟩ := setFieldValueByType_effect env extract ty valueType
      fieldName attrName (if selector = [] then resp else env.Find resp selector) current
    refine ⟨o, written, stored, h1, ?_⟩
    intro cs hty hcur
    unfold cssStructer.parseField
    rw [hp]
    exact h2 cs hty hcur

/-! ## Lemmas on states and on the loop over the fields -/

theorem getField_applyEffect (cs : cssStructer) (fieldName : Str) (written stored : Option Value)
    (k : Str) :
    (applyEffect cs fieldName written stored).targetStruct.getField k
      = if k = fieldName then
          (match written with
            | some v => v
            | none => cs.targetStruct.getField k)
        else cs.targetStruct.getField k := by
  by_cases h : k = fieldName
  · subst h
    cases written <;> simp [applyEffect, getField_setField_self]
  · cases written <;> simp [applyEffect, h, getField_setField_ne _ _ _ _ h]

theorem equalOnSuccess_of_eq {α : Type} {r r' : α × Outcome Unit} (h : r = r') :
    equalOnSuccess r r' := by
  subst h
  exact ⟨Iff.rfl, fun _ => rfl⟩

theorem equalOnSuccess_trans {α : Type} {r1 r2 r3 : α × Outcome Unit}
    (h1 : equalOnSuccess r1 r2) (h2 : equalOnSuccess r2 r3) : equalOnSuccess r1 r3 :=
  ⟨h1.1.trans h2.1, fun h => (h1.2 h).trans (h2.2 (h1.1.mp h))⟩

theorem equalOnSuccess_of_failed {α : Type} {r r' : α × Outcome Unit}
    (h : r.2 ≠ .ok ()) (h' : r'.2 ≠ .ok ()) : equalOnSuccess r r' :=
  ⟨⟨fun e => absurd e h, fun e => absurd e h'⟩, fun e => absurd e h⟩

theorem returned_of_ok {o : Outcome Unit} (h : o = .ok ()) : o.returned = true := by
  subst h
  rfl

theorem setField_comm (v : Value) (a b : Str) (x y : Value) (hne : a ≠ b) :
    (v.setField a x).setField b y = (v.setField b y).setField a x := by
  simp only [Value.setField, Value.fields, mapSet_comm _ a b x y hne]

theorem applyEffect_comm (cs : cssStructer) (a b : Str) (hne : a ≠ b)
    (wa ca wb cb : Option Value) :
    applyEffect (applyEffect cs a wa ca) b wb cb
      = applyEffect (applyEffect cs b wb cb) a wa ca := by
  cases wa <;> cases wb <;> cases ca <;> cases cb <;>
    simp only [applyEffect, setField_comm _ a b _ _ hne, mapSet_comm _ a b _ _ hne]

theorem parseTargetFieldsLoop_cons_ok (env : Env) (extract : Extractor) (resp : Selection)
    (fieldName fieldTag : Str) (rest : List (Str × Str)) (cs cs' : cssStructer)
    (h : cs.parseField env extract fieldName fieldTag resp = (cs', .ok ())) :
    parseTargetFieldsLoop env extract resp ((fieldName, fieldTag) :: rest) cs
      = parseTargetFieldsLoop env extract resp rest cs' := by
  rw [parseTargetFieldsLoop, h]

theorem parseTargetFieldsLoop_cons_fail (env : Env) (extract : Extractor) (resp : Selection)
    (fieldName fieldTag : Str) (rest : List (Str × Str)) (cs cs' : cssStructer)
    (o : Outcome Unit)
    (h : cs.parseField env extract fieldName fieldTag resp = (cs', o)) (ho : o ≠ .ok ()) :
    parseTargetFieldsLoop env extract resp ((fieldName, fieldTag) :: rest) cs = (cs', o) := by
  rw [parseTargetFieldsLoop, h]
  rcases o with ⟨⟨⟩⟩ | e | m | _
  · exact absurd rfl ho
  · rfl
  · rfl
  · rfl

theorem parseTargetFieldsLoop_append (env : Env) (extract : Extractor) (resp : Selection)
    (pre rest : List (Str × Str)) (cs cs1 : cssStructer)
    (h : parseTargetFieldsLoop env extract resp pre cs = (cs1, .ok ())) :
    parseTargetFieldsLoop env extract resp (pre ++ rest) cs
      = parseTargetFieldsLoop env extract resp rest cs1 := by
  induction pre generalizing cs with
  | nil =>
    simp only [parseTargetFieldsLoop, Prod.mk.injEq, and_true] at h
    subst h
    rfl
  | cons entry pre ih =>
    obtain ⟨fieldName, fieldTag⟩ := entry
    cases hx : cs.parseField env extract fieldName fieldTag resp with
    | mk cs' o =>
      by_cases ho : o = .ok ()
      · subst ho
        rw [parseTargetFieldsLoop_cons_ok env extract resp _ _ _ _ _ hx] at h
        rw [List.cons_append, parseTargetFieldsLoop_cons_ok env extract resp _ _ _ _ _ hx]
        exact ih cs' h
      · rw [parseTargetFieldsLoop_cons_fail env extract resp _ _ _ _ _ _ hx ho] at h
        simp only [Prod.mk.injEq] at h
        exact absurd h.2 ho

theorem parseTargetFieldsLoop_failure (env : Env) (extract : Extractor) (resp : Selection)
    (entries : List (Str × Str)) (cs : cssStructer)
    (h : (parseTargetFieldsLoop env extract resp entries cs).2 ≠ .ok ()) :
    ∃ pre post fieldName fieldTag cs1,
      entries = pre ++ (fieldName, fieldTag) :: post ∧
      parseTargetFieldsLoop env extract resp pre cs = (cs1, .ok ()) ∧
      cs1.parseField env extract fieldName fieldTag resp
        = parseTargetFieldsLoop env extract resp entries cs := by
  induction entries generalizing cs with
  | nil => exact absurd rfl h
  | cons entry rest ih =>
    obtain ⟨fieldName, fieldTag⟩ := entry
    cases hx : cs.parseField env extract fieldName fieldTag resp with
    | mk cs' o =>
      by_cases ho : o = .ok ()
      · subst ho
        rw [parseTargetFieldsLoop_cons_ok env extract resp _ _ _ _ _ hx] at h ⊢
        obtain ⟨pre, post, fn, tag, cs1, h1, h2, h3⟩ := ih cs' h
        refine ⟨(fieldName, fieldTag) :: pre, post, fn, tag, cs1, by rw [h1]; rfl, ?_, h3⟩
        rw [parseTargetFieldsLoop_cons_ok env extract resp _ _ _ _ _ hx]
        exact h2
      · refine ⟨[], rest, fieldName, fieldTag, cs, rfl, rfl, ?_⟩
        rw [parseTargetFieldsLoop_cons_fail env extract resp _ _ _ _ _ _ hx ho, hx]

theorem parseTargetFieldsLoop_swap (env : Env) (extract : Extractor) (resp : Selection)
    (a b : Str × Str) (rest : List (Str × Str)) (cs : cssStructer) (hne : a.1 ≠ b.1) :
    equalOnSuccess (parseTargetFieldsLoop env extract resp (a :: b :: rest) cs)
      (parseTargetFieldsLoop env extract resp (b :: a :: rest) cs) := by
  obtain ⟨an, at_⟩ := a
  obtain ⟨bn, bt⟩ := b
  simp only at hne
  obtain ⟨oa, wa, ca, _, ha⟩ := parseField_effect env extract cs.targetType an at_ resp
    (cs.targetStruct.getField an)
  obtain ⟨ob, wb, cb, _, hb⟩ := parseField_effect env extract cs.targetType bn bt resp
    (cs.targetStruct.getField bn)
  have ea := ha cs rfl rfl
  have eb := hb cs rfl rfl
  have eab := hb (applyEffect cs an wa ca) rfl (by
    rw [getField_applyEffect, if_neg (Ne.symm hne)])
  have eba := ha (applyEffect cs bn wb cb) rfl (by
    rw [getField_applyEffect, if_neg hne])
  by_cases hoa : oa = .ok ()
  · subst hoa
    by_cases hob : ob = .ok ()
    · subst hob
      rw [parseTargetFieldsLoop_cons_ok env extract resp _ _ _ _ _ ea,
        parseTargetFieldsLoop_cons_ok env extract resp _ _ _ _ _ eab,
        parseTargetFieldsLoop_cons_ok env extract resp _ _ _ _ _ eb,
        parseTargetFieldsLoop_cons_ok env extract resp _ _ _ _ _ eba,
        applyEffect_comm cs an bn hne wa ca wb cb]
      exact equalOnSuccess_of_eq rfl
    · rw [parseTargetFieldsLoop_cons_ok env extract resp _ _ _ _ _ ea,
        parseTargetFieldsLoop_cons_fail env extract resp _ _ _ _ _ _ eab hob,
        parseTargetFieldsLoop_cons_fail env extract resp _ _ _ _ _ _ eb hob]
      exact equalOnSuccess_of_failed hob hob
  · rw [parseTargetFieldsLoop_cons_fail env extract resp _ _ _ _ _ _ ea hoa]
    by_cases hob : ob = .ok ()
    · subst hob
      rw [parseTargetFieldsLoop_cons_ok env extract resp _ _ _ _ _ eb,
        parseTargetFieldsLoop_cons_fail env extract resp _ _ _ _ _ _ eba hoa]
      exact equalOnSuccess_of_failed hoa hoa
    · rw [parseTargetFieldsLoop_cons_fail env extract resp _ _ _ _ _ _ eb hob]
      exact equalOnSuccess_of_failed hoa hob

/-- With one function for the nested extractions, the loop over the fields succeeds in one
order of the entries exactly when it succeeds in another, and then leaves the same
state. -/
theorem parseTargetFieldsLoop_perm (env : Env) (extract : Extractor) (resp : Selection)
    {entries entries' : List (Str × Str)} (hperm : entries.Perm entries') :
    ∀ cs : cssStructer, (entries.map Prod.fst).Nodup →
      equalOnSuccess (parseTargetFieldsLoop env extract resp entries cs)
        (parseTargetFieldsLoop env extract resp entries' cs) := by
  induction hperm with
  | nil =>
    intro cs _
    exact equalOnSuccess_of_eq rfl
  | cons x _ ih =>
    intro cs hnd
    obtain ⟨fieldName, fieldTag⟩ := x
    rw [List.map_cons] at hnd
    have hnd' := (List.nodup_cons.mp hnd).2
    cases hx : cs.parseField env extract fieldName fieldTag resp with
    | mk cs' o =>
      by_cases ho : o = .ok ()
      · subst ho
        rw [parseTargetFieldsLoop_cons_ok env extract resp _ _ _ _ _ hx,
          parseTargetFieldsLoop_cons_ok env extract resp _ _ _ _ _ hx]
        exact ih cs' hnd'
      · rw [parseTargetFieldsLoop_cons_fail env extract resp _ _ _ _ _ _ hx ho,
          parseTargetFieldsLoop_cons_fail env extract resp _ _ _ _ _ _ hx ho]
        exact equalOnSuccess_of_eq rfl
  | swap x y l =>
    intro cs hnd
    have hne : y.1 ≠ x.1 := by
      simp only [List.map_cons, List.nodup_cons, List.mem_cons, not_or] at hnd
      exact hnd.1.1
    exact parseTargetFieldsLoop_swap env extract resp y x l cs hne
  | trans h12 _ ih1 ih2 =>
    intro cs hnd
    have hnd2 := ((h12.map Prod.fst).nodup_iff).mp hnd
    exact equalOnSuccess_trans (ih1 cs hnd) (ih2 cs hnd2)

/-! ## Lemmas on the keys of a map and on the tag map -/

theorem mem_keys_mapSet {β : Type} (m : List (Str × β)) (k : Str) (x : β) (k' : Str) :
    k' ∈ (mapSet m k x).map Prod.fst ↔ k' = k ∨ k' ∈ m.map Prod.fst := by
  induction m with
  | nil => simp [mapSet]
  | cons e r ih =>
    obtain ⟨k₀, y⟩ := e
    by_cases hk : k₀ = k
    · subst hk
      rw [mapSet_cons_eq]
      simp only [List.map_cons, List.mem_cons]
      tauto
    · by_cases hlt : keyLt k k₀ = true
      · rw [mapSet_cons_lt _ _ _ _ _ hk hlt]
        simp only [List.map_cons, List.mem_cons]
      · simp only [Bool.not_eq_true] at hlt
        rw [mapSet_cons_gt _ _ _ _ _ hk hlt]
        simp only [List.map_cons, List.mem_cons, ih]
        tauto

theorem mem_mapSet {β : Type} (m : List (Str × β)) (k : Str) (x : β) (p : Str × β)
    (h : p ∈ mapSet m k x) : p = (k, x) ∨ p ∈ m := by
  induction m with
  | nil =>
    simp only [mapSet, List.mem_singleton] at h
    exact Or.inl h
  | cons e r ih =>
    obtain ⟨k₀, y⟩ := e
    by_cases hk : k₀ = k
    · subst hk
      rw [mapSet_cons_eq] at h
      rcases List.mem_cons.mp h with e | e
      · exact Or.inl e
      · exact Or.inr (List.mem_cons_of_mem _ e)
    · by_cases hlt : keyLt k k₀ = true
      · rw [mapSet_cons_lt _ _ _ _ _ hk hlt] at h
        rcases List.mem_cons.mp h with e | e
        · exact Or.inl e
        · exact Or.inr e
      · simp only [Bool.not_eq_true] at hlt
        rw [mapSet_cons_gt _ _ _ _ _ hk hlt] at h
        rcases List.mem_cons.mp h with e | e
        · exact Or.inr (by rw [e]; exact List.mem_cons_self _ _)
        · rcases ih e with e' | e'
          · exact Or.inl e'
          · exact Or.inr (List.mem_cons_of_mem _ e')

theorem keysSorted_nil {β : Type} : keysSorted ([] : List (Str × β)) := by
  simp [keysSorted]

theorem keysSorted_mapSet {β : Type} (m : List (Str × β)) (k : Str) (x : β)
    (h : keysSorted m) : keysSorted (mapSet m k x) := by
  induction m with
  | nil => simp [mapSet, keysSorted]
  | cons e r ih =>
    obtain ⟨k₀, y⟩ := e
    unfold keysSorted at h ih ⊢
    rw [List.map_cons, List.pairwise_cons] at h
    by_cases hk : k₀ = k
    · subst hk
      rw [mapSet_cons_eq, List.map_cons, List.pairwise_cons]
      exact h
    · by_cases hlt : keyLt k k₀ = true
      · rw [mapSet_cons_lt _ _ _ _ _ hk hlt, List.map_cons, List.pairwise_cons, List.map_cons,
          List.pairwise_cons]
        refine ⟨?_, h⟩
        intro a ha
        rcases List.mem_cons.mp ha with e | e
        · rw [e]
          exact hlt
        · exact keyLt_trans _ _ _ hlt (h.1 a e)
      · simp only [Bool.not_eq_true] at hlt
        rw [mapSet_cons_gt _ _ _ _ _ hk hlt, List.map_cons, List.pairwise_cons]
        refine ⟨?_, ih h.2⟩
        intro a ha
        rcases (mem_keys_mapSet r k x a).mp ha with e | e
        · rw [e]
          exact keyLt_of_not k k₀ (Ne.symm hk) hlt
        · exact h.1 a e

theorem nodup_of_keysSorted {β : Type} (m : List (Str × β)) (h : keysSorted m) :
    (m.map Prod.fst).Nodup := by
  unfold keysSorted at h
  refine List.Pairwise.imp ?_ h
  intro a b hab e
  subst e
  rw [keyLt_irrefl] at hab
  cases hab

theorem tagMap_fold (fields : List FieldDecl) (acc : List (Str × Str))
    (hacc : keysSorted acc) :
    keysSorted (fields.foldl (fun m f => mapSet m f.Name f.Tag) acc) ∧
    (∀ k, k ∈ (fields.foldl (fun m f => mapSet m f.Name f.Tag) acc).map Prod.fst ↔
      (k ∈ acc.map Prod.fst ∨ ∃ f ∈ fields, f.Name = k)) ∧
    (∀ p, p ∈ fields.foldl (fun m f => mapSet m f.Name f.Tag) acc →
      (p ∈ acc ∨ ∃ f ∈ fields, f.Name = p.1 ∧ f.Tag = p.2)) := by
  induction fields generalizing acc with
  | nil => simp [hacc]
  | cons f fs ih =>
    obtain ⟨h1, h2, h3⟩ := ih (mapSet acc f.Name f.Tag) (keysSorted_mapSet acc f.Name f.Tag hacc)
    refine ⟨h1, ?_, ?_⟩
    · intro k
      rw [List.foldl_cons, h2 k, mem_keys_mapSet]
      constructor
      · rintro ((e | e) | ⟨g, hg, e⟩)
        · exact Or.inr ⟨f, List.mem_cons_self _ _, e.symm⟩
        · exact Or.inl e
        · exact Or.inr ⟨g, List.mem_cons_of_mem _ hg, e⟩
      · rintro (e | ⟨g, hg, e⟩)
        · exact Or.inl (Or.inr e)
        · rcases List.mem_cons.mp hg with e' | e'
          · subst e'
            exact Or.inl (Or.inl e.symm)
          · exact Or.inr ⟨g, e', e⟩
    · intro p hp
      rw [List.foldl_cons] at hp
      rcases h3 p hp with e | ⟨g, hg, e⟩
      · rcases mem_mapSet acc f.Name f.Tag p e with e' | e'
        · subst e'
          exact Or.inr ⟨f, List.mem_cons_self _ _, rfl, rfl⟩
        · exact Or.inl e'
      · exact Or.inr ⟨g, List.mem_cons_of_mem _ hg, e⟩

/-- The tag map of a struct type: its keys are the names of the fields, each once, and
every entry is the tag of a field of that name. -/
theorem Tags_struct (env : Env) (name : Str) :
    ∃ m, Tags env (.struct name) = .ok m ∧
      (m.map Prod.fst).Nodup ∧
      (∀ k, k ∈ m.map Prod.fst ↔ ∃ f ∈ env.types name, f.Name = k) ∧
      (∀ p, p ∈ m → ∃ f ∈ env.types name, f.Name = p.1 ∧ f.Tag = p.2) := by
  obtain ⟨h1, h2, h3⟩ := tagMap_fold (env.types name) [] keysSorted_nil
  refine ⟨_, rfl, nodup_of_keysSorted _ h1, ?_, ?_⟩
  · intro k
    rw [h2 k]
    simp
  · intro p hp
    rcases h3 p hp with e | e
    · simp at e
    · exact e

theorem parseField_withOrder (env : Env) (order : List (Str × Str) → List (Str × Str))
    (extract : Extractor) (cs : cssStructer) (fieldName tag : Str) (resp : Selection) :
    cs.parseField (env.withOrder order) extract fieldName tag resp
      = cs.parseField env extract fieldName tag resp := by
  rfl

theorem parseTargetFieldsLoop_withOrder (env : Env)
    (order : List (Str × Str) → List (Str × Str)) (extract : Extractor) (resp : Selection)
    (entries : List (Str × Str)) (cs : cssStructer) :
    parseTargetFieldsLoop (env.withOrder order) extract resp entries cs
      = parseTargetFieldsLoop env extract resp entries cs := by
  induction entries generalizing cs with
  | nil => rfl
  | cons entry rest ih =>
    obtain ⟨fieldName, fieldTag⟩ := entry
    rw [parseTargetFieldsLoop, parseTargetFieldsLoop, parseField_withOrder]
    cases cs.parseField env extract fieldName fieldTag resp with
    | mk cs' o =>
      rcases o with ⟨⟨⟩⟩ | e | m | _
      · exact ih cs'
      · rfl
      · rfl
      · rfl

theorem prepStructer_struct (env : Env) (extract : Extractor) (src : Selection) (name : Str)
    (dest : Value) (m : List (Str × Str)) (hm : Tags env (.struct name) = .ok m) :
    prepStructer env extract src (.struct name) dest
      = parseTargetFieldsLoop env extract src (env.rangeOrder m)
          (initialStructer (.struct name) dest) := by
  unfold prepStructer cssStructer.parseTargetFields
  dsimp only
  rw [hm]
  rfl

/-! ## Lemmas on two runs that visit the fields in different orders -/

theorem structElement_agree (env : Env) (e1 e2 : Extractor) (elem : GoType)
    (h : agreeWhenReturned e1 e2) (idx : Nat) (el : Selection) (acc : List Value)
    (h1 : (structElement env e1 elem idx el acc).returned = true)
    (h2 : (structElement env e2 elem idx el acc).returned = true) :
    structElement env e1 elem idx el acc = structElement env e2 elem idx el acc := by
  have hag := h el elem .zero
  unfold structElement at h1 h2 ⊢
  cases hx1 : e1 el elem .zero with
  | mk v1 o1 =>
    cases hx2 : e2 el elem .zero with
    | mk v2 o2 =>
      rw [hx1] at h1
      rw [hx2] at h2
      rw [hx1, hx2] at hag
      rcases o1 with ⟨⟨⟩⟩ | e | m | _
      · rcases o2 with ⟨⟨⟩⟩ | e' | m' | _
        · have := (hag rfl rfl).2 rfl
          simp only [Prod.mk.injEq, and_true] at this
          subst this
          rfl
        · have := (hag rfl rfl).1.mp rfl
          simp at this
        · simp [Outcome.returned] at h2
        · simp [Outcome.returned] at h2
      · rcases o2 with ⟨⟨⟩⟩ | e' | m' | _
        · have := (hag rfl rfl).1.mpr rfl
          simp at this
        · rfl
        · simp [Outcome.returned] at h2
        · simp [Outcome.returned] at h2
      · simp [Outcome.returned] at h1
      · simp [Outcome.returned] at h1

theorem eachLoop_structElement_agree (env : Env) (e1 e2 : Extractor) (elem : GoType)
    (h : agreeWhenReturned e1 e2) (ns : List Node) (idx : Nat) (acc : List Value)
    (h1 : (eachLoop (structElement env e1 elem) ns idx acc).returned = true)
    (h2 : (eachLoop (structElement env e2 elem) ns idx acc).returned = true) :
    eachLoop (structElement env e1 elem) ns idx acc
      = eachLoop (structElement env e2 elem) ns idx acc := by
  induction ns generalizing idx acc with
  | nil => rfl
  | cons n ns ih =>
    simp only [eachLoop] at h1 h2 ⊢
    have hr1 : (structElement env e1 elem idx ⟨[n]⟩ acc).returned = true := by
      revert h1
      cases structElement env e1 elem idx ⟨[n]⟩ acc <;> simp [Outcome.returned]
    have hr2 : (structElement env e2 elem idx ⟨[n]⟩ acc).returned = true := by
      revert h2
      cases structElement env e2 elem idx ⟨[n]⟩ acc <;> simp [Outcome.returned]
    have hs := structElement_agree env e1 e2 elem h idx ⟨[n]⟩ acc hr1 hr2
    rw [hs] at h1 ⊢
    cases hc : structElement env e2 elem idx ⟨[n]⟩ acc with
    | ok st =>
      rw [hc] at h1 h2
      exact ih _ _ h1 h2
    | error e => rfl
    | panic m => rfl
    | outOfFuel => rfl

theorem fillSlice_agree (env : Env) (e1 e2 : Extractor) (h : agreeWhenReturned e1 e2)
    (fieldValue attrName : Str) (sel : Selection) (elem : GoType)
    (h1 : (fillSlice env e1 fieldValue attrName sel elem).returned = true)
    (h2 : (fillSlice env e2 fieldValue attrName sel elem).returned = true) :
    fillSlice env e1 fieldValue attrName sel elem
      = fillSlice env e2 fieldValue attrName sel elem := by
  cases elem with
  | prim k => cases k <;> rfl
  | struct inner =>
    exact eachLoop_structElement_agree env e1 e2 (.struct inner) h sel.Nodes 0 [] h1 h2
  | slice e => rfl
  | array n e => rfl

/-- Dispatching one field with two functions for the nested extractions that agree on
success wherever both return: if both dispatches return, one succeeds exactly when the
other does, and then they leave the same state. -/
theorem setFieldValueByType_agree (env : Env) (e1 e2 : Extractor)
    (h : agreeWhenReturned e1 e2) (cs : cssStructer)
    (fieldValue fieldName attrName : Str) (sel : Selection)
    (h1 : (cs.setFieldValueByType env e1 fieldValue fieldName attrName sel).2.returned = true)
    (h2 : (cs.setFieldValueByType env e2 fieldValue fieldName attrName sel).2.returned = true) :
    equalOnSuccess (cs.setFieldValueByType env e1 fieldValue fieldName attrName sel)
      (cs.setFieldValueByType env e2 fieldValue fieldName attrName sel) := by
  cases hsf : structFields env cs.targetType with
  | none =>
    have hk : GetFieldKind env cs.targetType fieldName
        = .panic "reflect: call of reflect.Value.FieldByName on non-struct Value".toList := by
      simp [GetFieldKind, hsf]
    apply equalOnSuccess_of_eq
    unfold cssStructer.setFieldValueByType
    rw [hk]
  | some fs =>
    cases hfb : fieldByName fs fieldName with
    | none =>
      have hk : GetFieldKind env cs.targetType fieldName
          = .error ("No such field: ".toList ++ fieldName ++ " in obj".toList) := by
        simp [GetFieldKind, hsf, hfb]
      apply equalOnSuccess_of_eq
      unfold cssStructer.setFieldValueByType
      rw [hk]
    | some f =>
      have hk : GetFieldKind env cs.targetType fieldName = .ok f.Typ.Kind := by
        simp [GetFieldKind, hsf, hfb]
      have hget : GetField env cs.targetType cs.targetStruct fieldName
          = .ok (f.Typ, cs.targetStruct.getField fieldName) := by
        simp [GetField, hsf, hfb]
      have hptr : getFieldAndPointer env cs.targetType cs.targetStruct fieldName
          = .ok (.reflectValue (cs.targetStruct.getField fieldName),
              (f.Typ, cs.targetStruct.getField fieldName)) := by
        simp [getFieldAndPointer, hsf, hfb]
      revert h1 h2
      unfold cssStructer.setFieldValueByType
      rw [hk, hget, hptr]
      cases hT : f.Typ with
      | prim k =>
        intro _ _
        cases k <;> exact equalOnSuccess_of_eq rfl
      | struct inner =>
        have hag := h sel (.struct inner) (cs.targetStruct.getField fieldName)
        simp only [GoType.Kind]
        cases hx1 : e1 sel (.struct inner) (cs.targetStruct.getField fieldName) with
        | mk p1 o1 =>
          cases hx2 : e2 sel (.struct inner) (cs.targetStruct.getField fieldName) with
          | mk p2 o2 =>
            rw [hx1, hx2] at hag
            rcases o1 with ⟨⟨⟩⟩ | e | m | _
            · rcases o2 with ⟨⟨⟩⟩ | e' | m' | _
              · intro _ _
                have := (hag rfl rfl).2 rfl
                simp only [Prod.mk.injEq, and_true] at this
                subst this
                exact equalOnSuccess_of_eq rfl
              · intro _ _
                have := (hag rfl rfl).1.mp rfl
                simp at this
              · intro _ h2
                simp [Outcome.returned] at h2
              · intro _ h2
                simp [Outcome.returned] at h2
            · rcases o2 with ⟨⟨⟩⟩ | e' | m' | _
              · intro _ _
                have := (hag rfl rfl).1.mpr rfl
                simp at this
              · intro _ _
                exact equalOnSuccess_of_failed (by simp) (by simp)
              · intro _ h2
                simp [Outcome.returned] at h2
              · intro _ h2
                simp [Outcome.returned] at h2
            · intro h1 _
              simp [Outcome.returned] at h1
            · intro h1 _
              simp [Outcome.returned] at h1
      | slice elem =>
        simp only [GoType.Kind, GoType.Elem]
        intro h1 h2
        have hr1 : (fillSlice env e1 fieldValue attrName sel elem).returned = true := by
          revert h1
          cases fillSlice env e1 fieldValue attrName sel elem <;> simp [Outcome.returned]
        have hr2 : (fillSlice env e2 fieldValue attrName sel elem).returned = true := by
          revert h2
          cases fillSlice env e2 fieldValue attrName sel elem <;> simp [Outcome.returned]
        rw [fillSlice_agree env e1 e2 h fieldValue attrName sel elem hr1 hr2]
        exact equalOnSuccess_of_eq rfl
      | array len elem =>
        simp only [GoType.Kind, GoType.Elem]
        intro h1 h2
        have hr1 : (fillSlice env e1 fieldValue attrName sel elem).returned = true := by
          revert h1
          cases fillSlice env e1 fieldValue attrName sel elem <;> simp [Outcome.returned]
        have hr2 : (fillSlice env e2 fieldValue attrName sel elem).returned = true := by
          revert h2
          cases fillSlice env e2 fieldValue attrName sel elem <;> simp [Outcome.returned]
        rw [fillSlice_agree env e1 e2 h fieldValue attrName sel elem hr1 hr2]
        exact equalOnSuccess_of_eq rfl

theorem parseField_agree (env : Env) (e1 e2 : Extractor) (h : agreeWhenReturned e1 e2)
    (cs : cssStructer) (fieldName tag : Str) (resp : Selection)
    (h1 : (cs.parseField env e1 fieldName tag resp).2.returned = true)
    (h2 : (cs.parseField env e2 fieldName tag resp).2.returned = true) :
    equalOnSuccess (cs.parseField env e1 fieldName tag resp)
      (cs.parseField env e2 fieldName tag resp) := by
  unfold cssStructer.parseField at h1 h2 ⊢
  cases hp : parseTag tag with
  | error e => exact equalOnSuccess_of_eq rfl
  | ok r =>
    obtain ⟨selector, valueType, attrName⟩ := r
    rw [hp] at h1 h2
    exact setFieldValueByType_agree env e1 e2 h cs valueType fieldName attrName _ h1 h2

/-- The loop over the fields, in one order, with two functions for the nested extractions
that agree on success wherever both return. -/
theorem parseTargetFieldsLoop_agree (env : Env) (e1 e2 : Extractor)
    (h : agreeWhenReturned e1 e2) (resp : Selection) (entries : List (Str × Str))
    (cs : cssStructer)
    (h1 : (parseTargetFieldsLoop env e1 resp entries cs).2.returned = true)
    (h2 : (parseTargetFieldsLoop env e2 resp entries cs).2.returned = true) :
    equalOnSuccess (parseTargetFieldsLoop env e1 resp entries cs)
      (parseTargetFieldsLoop env e2 resp entries cs) := by
  induction entries generalizing cs with
  | nil => exact equalOnSuccess_of_eq rfl
  | cons entry rest ih =>
    obtain ⟨fieldName, fieldTag⟩ := entry
    have hag := parseField_agree env e1 e2 h cs fieldName fieldTag resp
    cases hx1 : cs.parseField env e1 fieldName fieldTag resp with
    | mk c1 o1 =>
      cases hx2 : cs.parseField env e2 fieldName fieldTag resp with
      | mk c2 o2 =>
        rw [hx1, hx2] at hag
        by_cases ho1 : o1 = .ok ()
        · subst ho1
          rw [parseTargetFieldsLoop_cons_ok env e1 resp _ _ _ _ _ hx1] at h1 ⊢
          by_cases ho2 : o2 = .ok ()
          · subst ho2
            rw [parseTargetFieldsLoop_cons_ok env e2 resp _ _ _ _ _ hx2] at h2 ⊢
            have := (hag rfl rfl).2 rfl
            simp only [Prod.mk.injEq, and_true] at this
            subst this
            exact ih c1 h1 h2
          · rw [parseTargetFieldsLoop_cons_fail env e2 resp _ _ _ _ _ _ hx2 ho2] at h2 ⊢
            exact absurd ((hag rfl h2).1.mp rfl) ho2
        · rw [parseTargetFieldsLoop_cons_fail env e1 resp _ _ _ _ _ _ hx1 ho1] at h1 ⊢
          by_cases ho2 : o2 = .ok ()
          · subst ho2
            exact absurd ((hag h1 rfl).1.mpr rfl) ho1
          · rw [parseTargetFieldsLoop_cons_fail env e2 resp _ _ _ _ _ _ hx2 ho2]
            exact equalOnSuccess_of_failed ho1 ho2

/-- Two runs of `prepStructer` that visit the tag map in two orders, each entry once, with
two functions for the nested extractions that agree on success wherever both return: if
both runs return, one succeeds exactly when the other does, and then they leave the same
state. -/
theorem prepStructer_agree (env : Env) (order : List (Str × Str) → List (Str × Str))
    (e1 e2 : Extractor) (h : agreeWhenReturned e1 e2) (src : Selection) (name : Str)
    (dest : Value)
    (hv1 : ∀ m, Tags env (.struct name) = .ok m → (env.rangeOrder m).Perm m)
    (hv2 : ∀ m, Tags env (.struct name) = .ok m → (order m).Perm m)
    (h1 : (prepStructer env e1 src (.struct name) dest).2.returned = true)
    (h2 : (prepStructer (env.withOrder order) e2 src (.struct name) dest).2.returned = true) :
    equalOnSuccess (prepStructer env e1 src (.struct name) dest)
      (prepStructer (env.withOrder order) e2 src (.struct name) dest) := by
  obtain ⟨m, hm, hnd, _, _⟩ := Tags_struct env name
  have hm' : Tags (env.withOrder order) (.struct name) = .ok m := hm
  have hp12 : (env.rangeOrder m).Perm (order m) := (hv1 m hm).trans (hv2 m hm).symm
  have hnd1 : ((env.rangeOrder m).map Prod.fst).Nodup :=
    (((hv1 m hm).map Prod.fst).nodup_iff).mpr hnd
  have hnd2 : ((order m).map Prod.fst).Nodup :=
    (((hv2 m hm).map Prod.fst).nodup_iff).mpr hnd
  have hrun' : prepStructer (env.withOrder order) e2 src (.struct name) dest
      = parseTargetFieldsLoop env e2 src (order m)
          (initialStructer (.struct name) dest) := by
    rw [prepStructer_struct _ e2 src name dest m hm', parseTargetFieldsLoop_withOrder]
    rfl
  rw [hrun'] at h2 ⊢
  rw [prepStructer_struct env e1 src name dest m hm] at h1 ⊢
  have p1 := parseTargetFieldsLoop_perm env e1 src hp12
    (initialStructer (.struct name) dest) hnd1
  have p2 := parseTargetFieldsLoop_perm env e2 src hp12.symm
    (initialStructer (.struct name) dest) hnd2
  refine ⟨⟨fun hok => ?_, fun hok => ?_⟩, fun hok => ?_⟩
  · have hok2 := p1.1.mp hok
    exact (parseTargetFieldsLoop_agree env e1 e2 h src _ _ (returned_of_ok hok2) h2).1.mp hok2
  · have hok1 := p2.1.mp hok
    exact (parseTargetFieldsLoop_agree env e1 e2 h src _ _ h1 (returned_of_ok hok1)).1.mpr hok1
  · have hok2 := p1.1.mp hok
    exact (p1.2 hok).trans
      ((parseTargetFieldsLoop_agree env e1 e2 h src _ _ (returned_of_ok hok2) h2).2 hok2)

theorem prepStructer_not_struct (env : Env) (extract : Extractor) (src : Selection)
    (ty : GoType) (dest : Value) (hty : ∀ name, ty ≠ .struct name) :
    (prepStructer env extract src ty dest).2.returned = false := by
  cases ty with
  | struct name => exact absurd rfl (hty name)
  | prim k => rfl
  | slice e => rfl
  | array n e => rfl

theorem extractByTagsBody_agree (env : Env) (order : List (Str × Str) → List (Str × Str))
    (e1 e2 : Extractor) (h : agreeWhenReturned e1 e2)
    (hv1 : ∀ name m, Tags env (.struct name) = .ok m → (env.rangeOrder m).Perm m)
    (hv2 : ∀ name m, Tags env (.struct name) = .ok m → (order m).Perm m) :
    agreeWhenReturned (extractByTagsBody env e1) (extractByTagsBody (env.withOrder order) e2) := by
  intro sel ty v h1 h2
  by_cases hty : ∃ name, ty = .struct name
  · obtain ⟨name, rfl⟩ := hty
    have hag := prepStructer_agree env order e1 e2 h sel name v (hv1 name) (hv2 name)
    unfold extractByTagsBody at h1 h2 ⊢
    cases hA : prepStructer env e1 sel (.struct name) v with
    | mk ca oa =>
      cases hB : prepStructer (env.withOrder order) e2 sel (.struct name) v with
      | mk cb ob =>
        rw [hA] at h1
        rw [hB] at h2
        rw [hA, hB] at hag
        rcases oa with ⟨⟨⟩⟩ | e | m | _
        · rcases ob with ⟨⟨⟩⟩ | e' | m' | _
          · have := (hag rfl rfl).2 rfl
            simp only [Prod.mk.injEq, and_true] at this
            subst this
            exact equalOnSuccess_of_eq rfl
          · have := (hag rfl rfl).1.mp rfl
            simp at this
          · simp [Outcome.returned] at h2
          · simp [Outcome.returned] at h2
        · rcases ob with ⟨⟨⟩⟩ | e' | m' | _
          · have := (hag rfl rfl).1.mpr rfl
            simp at this
          · exact equalOnSuccess_of_failed (by simp) (by simp)
          · simp [Outcome.returned] at h2
          · simp [Outcome.returned] at h2
        · simp [Outcome.returned] at h1
        · simp [Outcome.returned] at h1
  · have hne : ∀ name, ty ≠ .struct name := fun name e => hty ⟨name, e⟩
    have hp := prepStructer_not_struct env e1 sel ty v hne
    exfalso
    unfold extractByTagsBody at h1
    cases hA : prepStructer env e1 sel ty v with
    | mk ca oa =>
      rw [hA] at h1 hp
      rcases oa with ⟨⟨⟩⟩ | e | m | _
      · simp [Outcome.returned] at hp
      · simp [Outcome.returned] at hp
      · simp [Outcome.returned] at h1
      · simp [Outcome.returned] at h1

/-- Two whole runs of `extractByTags` that visit the tag maps in two orders, each entry
once, agree on success wherever both return, whatever depth of recursion each is
allowed. -/
theorem extractByTags_agree (env : Env) (order : List (Str × Str) → List (Str × Str))
    (hv1 : ∀ name m, Tags env (.struct name) = .ok m → (env.rangeOrder m).Perm m)
    (hv2 : ∀ name m, Tags env (.struct name) = .ok m → (order m).Perm m) :
    ∀ f1 f2 : Nat,
      agreeWhenReturned (extractByTags env f1) (extractByTags (env.withOrder order) f2) := by
  intro f1
  induction f1 with
  | zero =>
    intro f2 sel ty v h1 _
    simp [extractByTags, Outcome.returned] at h1
  | succ k ih =>
    intro f2
    cases f2 with
    | zero =>
      intro sel ty v _ h2
      simp [extractByTags, Outcome.returned] at h2
    | succ k2 =>
      exact extractByTagsBody_agree env order _ _ (ih k2) hv1 hv2

/-! ## Claims on the iteration over the fields -/

/-- C12 (counterexample): in the example type `Broken` the field `A` is declared before
`B` and both fail; when the tag map is visited in reverse order, `A` still fails on its
own, yet the error returned by `parseTargetFields`, and by `extractByTags`, is that of `B`:
a field declared after the first failing field has been dispatched. -/
theorem parseTargetFields_declaration_order_counterexample :
    (furtherTypes "Broken".toList).map (fun f => f.Name) = ["A".toList, "B".toList] ∧
    ((initialStructer (.struct "Broken".toList) .zero).parseField reverseEnv
        (extractByTags reverseEnv 1) "A".toList "a;attr=href".toList exampleDoc).2
      = .error "Attribute 'href' not found in selection: link".toList ∧
    ((initialStructer (.struct "Broken".toList) .zero).parseTargetFields reverseEnv
        (extractByTags reverseEnv 1) exampleDoc).2
      = .error "Attribute 'id' not found in selection: Title".toList ∧
    (extractByTags reverseEnv 2 exampleDoc (.struct "Broken".toList) .zero).2
      = .error "Attribute 'id' not found in selection: Title".toList := by
  decide

/-- C12 (amended): the fields are processed in the order in which the `range` loop visits
the tag map, which need not be the order of declaration, and processing stops at the first
failure: if the fields visited before some field all succeed and that field fails to parse
or dispatch, `parseTargetFields` returns the outcome and the state of that field, whatever
fields come after it in the order of iteration; and whenever `parseTargetFields` does not
succeed, what it returns is the outcome of such a first failing field. -/
theorem parseTargetFields_first_failure (env : Env) (extract : Extractor) (cs : cssStructer)
    (resp : Selection) (m : List (Str × Str)) (htags : Tags env cs.targetType = .ok m) :
    (∀ (pre post : List (Str × Str)) (fieldName fieldTag : Str) (cs1 cs2 : cssStructer)
        (err : Outcome Unit),
      env.rangeOrder m = pre ++ (fieldName, fieldTag) :: post →
      parseTargetFieldsLoop env extract resp pre cs = (cs1, .ok ()) →
      cs1.parseField env extract fieldName fieldTag resp = (cs2, err) → err ≠ .ok () →
      cs.parseTargetFields env extract resp = (cs2, err)) ∧
    ((cs.parseTargetFields env extract resp).2 ≠ .ok () →
      ∃ (pre post : List (Str × Str)) (fieldName fieldTag : Str) (cs1 : cssStructer),
        env.rangeOrder m = pre ++ (fieldName, fieldTag) :: post ∧
        parseTargetFieldsLoop env extract resp pre cs = (cs1, .ok ()) ∧
        cs1.parseField env extract fieldName fieldTag resp
          = cs.parseTargetFields env extract resp) := by
  have hrun : cs.parseTargetFields env extract resp
      = parseTargetFieldsLoop env extract resp (env.rangeOrder m) cs := by
    unfold cssStructer.parseTargetFields
    rw [htags]
  constructor
  · intro pre post fieldName fieldTag cs1 cs2 err horder hpre hfail herr
    rw [hrun, horder, parseTargetFieldsLoop_append env extract resp pre _ cs cs1 hpre,
      parseTargetFieldsLoop_cons_fail env extract resp _ _ _ _ _ _ hfail herr]
  · intro h
    rw [hrun] at h ⊢
    exact parseTargetFieldsLoop_failure env extract resp _ cs h

/-- Witness of `parseTargetFields_first_failure`: on the example type `Broken`, visited in
reverse order, the first field visited is `B`, and its error is returned. -/
theorem parseTargetFields_first_failure_witness :
    (initialStructer (.struct "Broken".toList) .zero).parseTargetFields reverseEnv
        (extractByTags reverseEnv 1) exampleDoc
      = (initialStructer (.struct "Broken".toList) .zero,
          .error "Attribute 'id' not found in selection: Title".toList) :=
  (parseTargetFields_first_failure reverseEnv (extractByTags reverseEnv 1)
      (initialStructer (.struct "Broken".toList) .zero) exampleDoc
      [("A".toList, "a;attr=href".toList), ("B".toList, "h1;attr=id".toList)] (by rfl)).1
    [] [("A".toList, "a;attr=href".toList)] "B".toList "h1;attr=id".toList
    (initialStructer (.struct "Broken".toList) .zero)
    (initialStructer (.struct "Broken".toList) .zero)
    (.error "Attribute 'id' not found in selection: Title".toList)
    (by rfl) (by rfl) (by rfl) (by decide)

/-- C13 (counterexample): the two example environments differ in the order of iteration
only, both visiting every entry of the tag map once; on the same document and the same
destination type `Broken` the extraction fails with one error in the first and with
another error in the second. -/
theorem extractByTags_order_counterexample :
    reverseEnv = forwardEnv.withOrder List.reverse ∧
    (∀ m, (forwardEnv.rangeOrder m).Perm m) ∧
    (∀ m, (reverseEnv.rangeOrder m).Perm m) ∧
    (extractByTags forwardEnv 2 exampleDoc (.struct "Broken".toList) .zero).2
      = .error "Attribute 'href' not found in selection: link".toList ∧
    (extractByTags reverseEnv 2 exampleDoc (.struct "Broken".toList) .zero).2
      = .error "Attribute 'id' not found in selection: Title".toList ∧
    (extractByTags forwardEnv 2 exampleDoc (.struct "Broken".toList) .zero).2
      ≠ (extractByTags reverseEnv 2 exampleDoc (.struct "Broken".toList) .zero).2 := by
  refine ⟨rfl, fun m => List.Perm.refl m, fun m => List.reverse_perm m, ?_, ?_, ?_⟩ <;> decide

/-- C13 (amended): two runs of extraction on the same document and the same destination,
that visit the tag maps in two different orders, each entry once, at every level of
nesting, and that both return, with or without an error (neither panics): either both
succeed or both fail, and when they succeed they give identical results, `extractByTags`
leaving the same contents in the destination and `mapFromTags` returning the same collected
field mapping.  (When they fail the errors may differ, each being that of the first failing
field in its own order of iteration.) -/
theorem extractByTags_order_independent (env : Env)
    (order : List (Str × Str) → List (Str × Str))
    (hv1 : ∀ name m, Tags env (.struct name) = .ok m → (env.rangeOrder m).Perm m)
    (hv2 : ∀ name m, Tags env (.struct name) = .ok m → (order m).Perm m)
    (fuel fuel' : Nat) (src : Selection) (destType : GoType) (dest : Value) :
    ((extractByTags env fuel src destType dest).2.returned = true →
      (extractByTags (env.withOrder order) fuel' src destType dest).2.returned = true →
      ((extractByTags env fuel src destType dest).2 = .ok () ↔
        (extractByTags (env.withOrder order) fuel' src destType dest).2 = .ok ()) ∧
      ((extractByTags env fuel src destType dest).2 = .ok () →
        extractByTags env fuel src destType dest
          = extractByTags (env.withOrder order) fuel' src destType dest)) ∧
    ((mapFromTags env fuel src destType dest).2.returned = true →
      (mapFromTags (env.withOrder order) fuel' src destType dest).2.returned = true →
      (∀ collected, (mapFromTags env fuel src destType dest).2 = .ok collected ↔
        (mapFromTags (env.withOrder order) fuel' src destType dest).2 = .ok collected) ∧
      (∀ collected, (mapFromTags env fuel src destType dest).2 = .ok collected →
        mapFromTags env fuel src destType dest
          = mapFromTags (env.withOrder order) fuel' src destType dest)) := by
  have hrec := extractByTags_agree env order hv1 hv2
  refine ⟨fun h1 h2 => hrec fuel fuel' src destType dest h1 h2, ?_⟩
  intro h1 h2
  by_cases hty : ∃ name, destType = .struct name
  · obtain ⟨name, rfl⟩ := hty
    have hag := prepStructer_agree env order _ _ (hrec fuel fuel') src name dest
      (hv1 name) (hv2 name)
    unfold mapFromTags at h1 h2 ⊢
    cases hA : prepStructer env (extractByTags env fuel) src (.struct name) dest with
    | mk ca oa =>
      cases hB : prepStructer (env.withOrder order) (extractByTags (env.withOrder order) fuel')
          src (.struct name) dest with
      | mk cb ob =>
        rw [hA] at h1
        rw [hB] at h2
        rw [hA, hB] at hag
        rcases oa with ⟨⟨⟩⟩ | e | m | _
        · rcases ob with ⟨⟨⟩⟩ | e' | m' | _
          · have := (hag rfl rfl).2 rfl
            simp only [Prod.mk.injEq, and_true] at this
            subst this
            exact ⟨fun _ => Iff.rfl, fun _ _ => rfl⟩
          · have := (hag rfl rfl).1.mp rfl
            simp at this
          · simp [Outcome.returned] at h2
          · simp [Outcome.returned] at h2
        · rcases ob with ⟨⟨⟩⟩ | e' | m' | _
          · have := (hag rfl rfl).1.mpr rfl
            simp at this
          · exact ⟨fun _ => by simp, fun _ hc => by simp at hc⟩
          · simp [Outcome.returned] at h2
          · simp [Outcome.returned] at h2
        · simp [Outcome.returned] at h1
        · simp [Outcome.returned] at h1
  · have hne : ∀ name, destType ≠ .struct name := fun name e => hty ⟨name, e⟩
    have hp := prepStructer_not_struct env (extractByTags env fuel) src destType dest hne
    exfalso
    unfold mapFromTags at h1
    cases hA : prepStructer env (extractByTags env fuel) src destType dest with
    | mk ca oa =>
      rw [hA] at h1 hp
      rcases oa with ⟨⟨⟩⟩ | e | m | _
      · simp [Outcome.returned] at hp
      · simp [Outcome.returned] at hp
      · simp [Outcome.returned] at h1
      · simp [Outcome.returned] at h1

/-- Witness of `extractByTags_order_independent`: the example type `Outer`, with the nested
record `In` of type `Inner`, extracted from the example document with the tag maps visited
by increasing and by decreasing field name.  Both runs succeed and give the same record,
and both collect the same mapping. -/
theorem extractByTags_order_independent_witness :
    (extractByTags orderEnv 2 exampleDoc (.struct "Outer".toList) .zero).2 = .ok () ∧
    extractByTags orderEnv 2 exampleDoc (.struct "Outer".toList) .zero
      = extractByTags (orderEnv.withOrder List.reverse) 2 exampleDoc
          (.struct "Outer".toList) .zero ∧
    (extractByTags orderEnv 2 exampleDoc (.struct "Outer".toList) .zero).1
      = .struct [("In".toList, .struct [("A".toList, .str "Name".toList),
                    ("B".toList, .str "Name".toList)]),
                 ("Title".toList, .str "Title".toList)] ∧
    mapFromTags orderEnv 1 exampleDoc (.struct "Outer".toList) .zero
      = mapFromTags (orderEnv.withOrder List.reverse) 1 exampleDoc
          (.struct "Outer".toList) .zero ∧
    (mapFromTags orderEnv 1 exampleDoc (.struct "Outer".toList) .zero).2
      = .ok [("In".toList, .map []), ("Title".toList, .str "Title".toList)] :=
  ⟨by decide,
   ((extractByTags_order_independent orderEnv List.reverse (fun _ m _ => List.Perm.refl m)
      (fun _ m _ => List.reverse_perm m) 2 2 exampleDoc (.struct "Outer".toList) .zero).1
      (by decide) (by decide)).2 (by decide),
   by rfl,
   ((extractByTags_order_independent orderEnv List.reverse (fun _ m _ => List.Perm.refl m)
      (fun _ m _ => List.reverse_perm m) 1 1 exampleDoc (.struct "Outer".toList) .zero).2
      (by rfl) (by rfl)).2 [("In".toList, .map []), ("Title".toList, .str "Title".toList)]
      (by rfl),
   by rfl⟩

/-- The two runs must both return for the comparison: on the example type `Batch`, a
sequence of records of type `Risky`, every element fails with an error when the field `A`
of `Risky` is visited first, the element is left out and the run succeeds with an empty
sequence; when the field `B` is visited first, its dispatch panics and so does the run. -/
theorem extractByTags_order_panic_example :
    (extractByTags orderEnv 1 ⟨[li1Node]⟩ (.struct "Risky".toList) .zero).2
      = .error "Attribute 'zzz' not found in selection: one".toList ∧
    extractByTags orderEnv 2 exampleDoc (.struct "Batch".toList) .zero
      = (.struct [("Items".toList, .seq [])], .ok ()) ∧
    (extractByTags (orderEnv.withOrder List.reverse) 1 ⟨[li1Node]⟩
        (.struct "Risky".toList) .zero).2
      = .panic "Bad fieldValue: ".toList ∧
    (extractByTags (orderEnv.withOrder List.reverse) 2 exampleDoc
        (.struct "Batch".toList) .zero).2
      = .panic "Bad fieldValue: ".toList := by
  refine ⟨by decide, by rfl, by decide, by decide⟩

/-- C17: whenever `prepStructer` succeeds, the range loop having visited every entry of
the tag map once, the keys of `collectedFieldValues` are exactly the names of the fields
enumerated for the destination, each key once; and every successful `parseField` assigns
the entry of its own field name and changes the entry of no other key. -/
theorem prepStructer_keys (env : Env) (extract : Extractor) (src : Selection) (name : Str)
    (dest : Value) (cs : cssStructer)
    (hvisit : ∀ m, Tags env (.struct name) = .ok m → (env.rangeOrder m).Perm m)
    (hok : prepStructer env extract src (.struct name) dest = (cs, .ok ())) :
    (∀ k, k ∈ cs.collectedFieldValues.map Prod.fst ↔ ∃ f ∈ env.types name, f.Name = k) ∧
    (cs.collectedFieldValues.map Prod.fst).Nodup ∧
    (∀ (cs₀ cs₁ : cssStructer) (fieldName tag : Str) (resp : Selection),
      cs₀.parseField env extract fieldName tag resp = (cs₁, .ok ()) →
      ∃ x, cs₁.collectedFieldValues = mapSet cs₀.collectedFieldValues fieldName x ∧
        cs₁.collectedFieldValues.lookup fieldName = some x ∧
        ∀ k, k ≠ fieldName →
          cs₁.collectedFieldValues.lookup k = cs₀.collectedFieldValues.lookup k) := by
  have hstep : ∀ (cs₀ cs₁ : cssStructer) (fieldName tag : Str) (resp : Selection),
      cs₀.parseField env extract fieldName tag resp = (cs₁, .ok ()) →
      ∃ x, cs₁.collectedFieldValues = mapSet cs₀.collectedFieldValues fieldName x := by
    intro cs₀ cs₁ fieldName tag resp h
    obtain ⟨o, written, stored, hiff, heff⟩ := parseField_effect env extract cs₀.targetType
      fieldName tag resp (cs₀.targetStruct.getField fieldName)
    rw [heff cs₀ rfl rfl] at h
    simp only [Prod.mk.injEq] at h
    obtain ⟨h1, h2⟩ := h
    cases stored with
    | none =>
      have := hiff.mp h2
      simp at this
    | some x =>
      exact ⟨x, by rw [← h1]; rfl⟩
  have hloop : ∀ (entries : List (Str × Str)) (c₀ c₁ : cssStructer),
      parseTargetFieldsLoop env extract src entries c₀ = (c₁, .ok ()) →
      (keysSorted c₀.collectedFieldValues → keysSorted c₁.collectedFieldValues) ∧
      (∀ k, k ∈ c₁.collectedFieldValues.map Prod.fst ↔
        (k ∈ c₀.collectedFieldValues.map Prod.fst ∨ k ∈ entries.map Prod.fst)) := by
    intro entries
    induction entries with
    | nil =>
      intro c₀ c₁ h
      simp only [parseTargetFieldsLoop, Prod.mk.injEq, and_true] at h
      subst h
      simp
    | cons entry rest ih =>
      intro c₀ c₁ h
      obtain ⟨fieldName, fieldTag⟩ := entry
      cases hx : c₀.parseField env extract fieldName fieldTag src with
      | mk c' o =>
        by_cases ho : o = .ok ()
        · subst ho
          rw [parseTargetFieldsLoop_cons_ok env extract src _ _ _ _ _ hx] at h
          obtain ⟨x, hx'⟩ := hstep c₀ c' fieldName fieldTag src hx
          obtain ⟨i1, i2⟩ := ih c' c₁ h
          refine ⟨fun hn => i1 (by rw [hx']; exact keysSorted_mapSet _ _ _ hn), ?_⟩
          intro k
          rw [i2 k, hx', mem_keys_mapSet]
          simp only [List.map_cons, List.mem_cons]
          tauto
        · rw [parseTargetFieldsLoop_cons_fail env extract src _ _ _ _ _ _ hx ho] at h
          simp only [Prod.mk.injEq] at h
          exact absurd h.2 ho
  obtain ⟨m, hm, hnd, hkeys, _⟩ := Tags_struct env name
  rw [prepStructer_struct env extract src name dest m hm] at hok
  obtain ⟨i1, i2⟩ := hloop _ _ _ hok
  refine ⟨?_, nodup_of_keysSorted _ (i1 keysSorted_nil), ?_⟩
  · intro k
    rw [i2 k, ← hkeys k, ((hvisit m hm).map Prod.fst).mem_iff]
    simp [initialStructer]
  · intro cs₀ cs₁ fieldName tag resp h
    obtain ⟨x, hx⟩ := hstep cs₀ cs₁ fieldName tag resp h
    refine ⟨x, hx, ?_, ?_⟩
    · rw [hx]
      exact lookup_mapSet_self _ _ _
    · intro k hk
      rw [hx]
      exact lookup_mapSet_ne _ _ _ _ hk

/-- Witness of `prepStructer_keys`: on the example type `Listing` the collected map has
the one key `Ids`. -/
theorem prepStructer_keys_witness :
    (∀ k, k ∈ (prepStructer exampleEnv (extractByTags exampleEnv 1) exampleDoc
          (.struct "Listing".toList) .zero).1.collectedFieldValues.map Prod.fst ↔
        ∃ f ∈ exampleEnv.types "Listing".toList, f.Name = k) ∧
    (prepStructer exampleEnv (extractByTags exampleEnv 1) exampleDoc
        (.struct "Listing".toList) .zero).1.collectedFieldValues.map Prod.fst
      = ["Ids".toList] :=
  ⟨(prepStructer_keys exampleEnv (extractByTags exampleEnv 1) exampleDoc "Listing".toList
      .zero (prepStructer exampleEnv (extractByTags exampleEnv 1) exampleDoc
        (.struct "Listing".toList) .zero).1
      (fun m _ => List.Perm.refl m) (by rfl)).1,
   by decide⟩

/-- C15 (counterexample): the example type `Plain` has one exported field, `Title`, and no
field with the annotation; `prepStructer` does not succeed on it, and extraction returns
an error: the empty tag of `Title` has been passed to `parseTag`. -/
theorem prepStructer_unannotated_counterexample :
    (furtherTypes "Plain".toList).map (fun f => (f.Name, f.Tag)) = [("Title".toList, [])] ∧
    (prepStructer forwardEnv (extractByTags forwardEnv 1) exampleDoc (.struct "Plain".toList)
        .zero).2 = .error "Failed to split tag: ".toList ∧
    (extractByTags forwardEnv 2 exampleDoc (.struct "Plain".toList) .zero).2
      = .error "Failed to split tag: ".toList ∧
    parseTag [] = .error "Failed to split tag: ".toList := by
  decide

/-- C15 (amended): every exported field takes part in extraction, annotated or not, an
exported field without the annotation being listed with an empty tag.  For a destination
record without exported fields `prepStructer` succeeds with an empty collected mapping;
for a record that has exported fields, none of them annotated, the empty tag of the first
field visited is passed to `parseTag`, which rejects it, and `prepStructer` fails with
"Failed to split tag: ", nothing being collected. -/
theorem prepStructer_unannotated (env : Env) (extract : Extractor) (src : Selection)
    (name : Str) (dest : Value)
    (hnone : ∀ f ∈ env.types name, f.Tag = [])
    (hvisit : ∀ m, Tags env (.struct name) = .ok m → (env.rangeOrder m).Perm m) :
    (env.types name = [] →
      prepStructer env extract src (.struct name) dest
        = (initialStructer (.struct name) dest, .ok ())) ∧
    (env.types name ≠ [] →
      prepStructer env extract src (.struct name) dest
        = (initialStructer (.struct name) dest, .error "Failed to split tag: ".toList)) := by
  obtain ⟨m, hm, _, hkeys, hentries⟩ := Tags_struct env name
  have hperm := hvisit m hm
  rw [prepStructer_struct env extract src name dest m hm]
  constructor
  · intro hempty
    have hm0 : m = [] := by
      cases m with
      | nil => rfl
      | cons p r =>
        obtain ⟨f, hf, _⟩ := (hkeys p.1).mp (by simp)
        rw [hempty] at hf
        simp at hf
    subst hm0
    rw [List.Perm.eq_nil hperm]
    rfl
  · intro hne
    cases hr : env.rangeOrder m with
    | nil =>
      rw [hr] at hperm
      have hm0 : m = [] := List.Perm.eq_nil hperm.symm
      obtain ⟨f, hf⟩ := List.exists_mem_of_ne_nil _ hne
      have := (hkeys f.Name).mpr ⟨f, hf, rfl⟩
      rw [hm0] at this
      simp at this
    | cons entry rest =>
      obtain ⟨fieldName, fieldTag⟩ := entry
      have hmem : (fieldName, fieldTag) ∈ m := by
        apply hperm.subset
        rw [hr]
        exact List.mem_cons_self _ _
      obtain ⟨f, hf, _, htag⟩ := hentries _ hmem
      have ht : fieldTag = [] := htag.symm.trans (hnone f hf)
      subst ht
      exact parseTargetFieldsLoop_cons_fail env extract src fieldName [] rest _ _ _
        (by rfl) (by decide)

/-- Witness of `prepStructer_unannotated`, at the example type `Plain`. -/
theorem prepStructer_unannotated_witness :
    prepStructer forwardEnv (extractByTags forwardEnv 1) exampleDoc (.struct "Plain".toList)
        .zero
      = (initialStructer (.struct "Plain".toList) .zero,
          .error "Failed to split tag: ".toList) :=
  (prepStructer_unannotated forwardEnv (extractByTags forwardEnv 1) exampleDoc
      "Plain".toList .zero (by decide) (fun m _ => List.Perm.refl m)).2 (by decide)

/-! ## Claims on nested records -/

/-- The entry stored for a nested record is `structs.Map` applied to the `reflect.Value`
of the field, whereas the entry appended for an element of a sequence of records is the
map of `reflections.Items` of the record itself. -/
theorem setFieldValueByType_nested_stored (env : Env) (extract : Extractor)
    (cs : cssStructer) (fieldValue fieldName attrName : Str) (sel : Selection) (name : Str)
    (f : FieldDecl) (record : Value)
    (hty : cs.targetType = .struct name)
    (hf : fieldByName (env.types name) fieldName = some f)
    (hkind : f.Typ.Kind = .Struct)
    (hx : extract sel f.Typ (cs.targetStruct.getField fieldName) = (record, .ok ())) :
    (cs.setFieldValueByType env extract fieldValue fieldName attrName
        sel).1.collectedFieldValues.lookup fieldName
      = some (env.structsMap (.reflectValue record)) := by
  unfold cssStructer.setFieldValueByType
  rw [hty, GetFieldKind_of_field env name fieldName f hf, hkind]
  simp only [getFieldAndPointer, structFields, hf, hx]
  exact lookup_mapSet_self _ _ _

/-- C14 (the code on the example of the specification): for the nested-record field
`Author` of `Page`, on the element `<div class="author"><span>Name</span></div>`, the
recursive extraction succeeds and fills the nested record in place, `Name` being "Name";
the conversion applied to an element of a sequence of records maps "Name" to "Name" on
that record; yet the value stored under "Author" in the collected mapping is the empty
map, `structs.Map` having been given the `reflect.Value` of the field, a struct without
exported fields, instead of the record. -/
theorem setFieldValueByType_nested_record_entry :
    ((exampleStructer "Page".toList).setFieldValueByType exampleEnv (extractByTags exampleEnv 1)
        [] "Author".toList [] ⟨[authorNode]⟩).2 = .ok () ∧
    ((exampleStructer "Page".toList).setFieldValueByType exampleEnv (extractByTags exampleEnv 1)
        [] "Author".toList [] ⟨[authorNode]⟩).1.targetStruct.getField "Author".toList
      = .struct [("Name".toList, .str "Name".toList)] ∧
    Items exampleEnv (.struct "Author".toList) (.struct [("Name".toList, .str "Name".toList)])
      = .ok [("Name".toList, .str "Name".toList)] ∧
    ((exampleStructer "Page".toList).setFieldValueByType exampleEnv (extractByTags exampleEnv 1)
        [] "Author".toList [] ⟨[authorNode]⟩).1.collectedFieldValues.lookup "Author".toList
      = some (.map []) ∧
    Value.map [] ≠ Value.map [("Name".toList, .str "Name".toList)] := by
  refine ⟨by decide, by rfl, by rfl, by rfl, ?_⟩
  intro h
  injection h with h
  cases h

/-! ## Claims on termination -/

theorem tree_body_outOfFuel (extract : Extractor) (v : Value)
    (hx : extract ⟨[rootNode]⟩ (.struct "Tree".toList) .zero = (v, .outOfFuel)) :
    (extractByTagsBody forwardEnv extract ⟨[rootNode]⟩ (.struct "Tree".toList) .zero).2
      = .outOfFuel := by
  have hdecl : fieldByName (forwardEnv.types "Tree".toList) "Kids".toList
      = some ⟨"Kids".toList, ";obj".toList, .slice (.struct "Tree".toList)⟩ := by decide
  have hs : structElement forwardEnv extract (.struct "Tree".toList) 0 ⟨[rootNode]⟩ []
      = .outOfFuel := by
    simp only [structElement, hx]
  have hfill : fillSlice forwardEnv extract [] [] ⟨[rootNode]⟩ (.struct "Tree".toList)
      = .outOfFuel := by
    show eachLoop (structElement forwardEnv extract (.struct "Tree".toList)) [rootNode] 0 [] = _
    rw [eachLoop, hs]
  have hset : (initialStructer (.struct "Tree".toList) .zero).setFieldValueByType forwardEnv
      extract [] "Kids".toList [] ⟨[rootNode]⟩
      = (initialStructer (.struct "Tree".toList) .zero, .outOfFuel) := by
    unfold cssStructer.setFieldValueByType
    have hty : (initialStructer (.struct "Tree".toList) .zero).targetType
        = .struct "Tree".toList := rfl
    rw [hty, GetFieldKind_of_field forwardEnv _ _ _ hdecl,
      GetField_of_field forwardEnv _ _ _ _ hdecl]
    simp only [GoType.Kind, GoType.Elem, hfill]
  have hparse : (initialStructer (.struct "Tree".toList) .zero).parseField forwardEnv extract
      "Kids".toList ";obj".toList ⟨[rootNode]⟩
      = (initialStructer (.struct "Tree".toList) .zero, .outOfFuel) := by
    have hp : parseTag ";obj".toList = .ok ([], [], []) := by decide
    unfold cssStructer.parseField
    rw [hp]
    simp only [if_true]
    exact hset
  have hprep : prepStructer forwardEnv extract ⟨[rootNode]⟩ (.struct "Tree".toList) .zero
      = (initialStructer (.struct "Tree".toList) .zero, .outOfFuel) := by
    rw [prepStructer_struct forwardEnv extract _ "Tree".toList .zero
      [("Kids".toList, ";obj".toList)] (by rfl)]
    exact parseTargetFieldsLoop_cons_fail forwardEnv extract _ _ _ _ _ _ _ hparse (by decide)
  unfold extractByTagsBody
  rw [hprep]

/-- C16 (counterexample): the example type `Tree` has the sequence field `Kids []Tree`,
of its own type, with an empty selector; on the example document, a selection of one node,
the extraction does not come back within any depth of recursion. -/
theorem extractByTags_self_nested_counterexample :
    furtherTypes "Tree".toList
      = [⟨"Kids".toList, ";obj".toList, .slice (.struct "Tree".toList)⟩] ∧
    exampleDoc.Length = 1 ∧
    ∀ fuel, (extractByTags forwardEnv fuel exampleDoc (.struct "Tree".toList) .zero).2
      = .outOfFuel := by
  refine ⟨by decide, by decide, ?_⟩
  intro fuel
  induction fuel with
  | zero => rfl
  | succ n ih =>
    cases hx : extractByTags forwardEnv n ⟨[rootNode]⟩ (.struct "Tree".toList) .zero with
    | mk v st =>
      have hst : st = .outOfFuel := by
        have : (extractByTags forwardEnv n exampleDoc (.struct "Tree".toList) .zero).2 = st := by
          show (extractByTags forwardEnv n ⟨[rootNode]⟩ (.struct "Tree".toList) .zero).2 = st
          rw [hx]
        rw [← this]
        exact ih
      subst hst
      exact tree_body_outOfFuel (extractByTags forwardEnv n) v hx

theorem getFieldValue_ne_outOfFuel (fieldValue attrName : Str) (sel : Selection) :
    getFieldValue fieldValue attrName sel ≠ .outOfFuel := by
  unfold getFieldValue
  split
  · simp
  · split
    · cases sel.Html <;> simp
    · split
      · cases sel.Attr attrName <;> simp
      · simp

theorem eachLoop_basicElement_ne_outOfFuel (fieldValue attrName : Str) (ns : List Node)
    (idx : Nat) (acc : List Value) :
    eachLoop (basicElement fieldValue attrName) ns idx acc ≠ .outOfFuel := by
  induction ns generalizing idx acc with
  | nil => simp [eachLoop]
  | cons n ns ih =>
    have hne := getFieldValue_ne_outOfFuel fieldValue attrName ⟨[n]⟩
    cases hg : getFieldValue fieldValue attrName ⟨[n]⟩ with
    | ok val =>
      have hb : basicElement fieldValue attrName idx ⟨[n]⟩ acc = .ok (acc ++ [.str val]) := by
        simp [basicElement, hg]
      rw [eachLoop, hb]
      exact ih _ _
    | error e =>
      have hb : basicElement fieldValue attrName idx ⟨[n]⟩ acc = .ok acc := by
        simp [basicElement, hg]
      rw [eachLoop, hb]
      exact ih _ _
    | panic m =>
      have hb : basicElement fieldValue attrName idx ⟨[n]⟩ acc = .panic m := by
        simp [basicElement, hg]
      rw [eachLoop, hb]
      simp
    | outOfFuel => exact absurd hg hne

theorem eachLoop_structElement_congr (env : Env) (e1 e2 : Extractor) (inner : Str)
    (h : ∀ sel v, e1 sel (.struct inner) v = e2 sel (.struct inner) v ∧
      (e1 sel (.struct inner) v).2 ≠ .outOfFuel)
    (ns : List Node) (idx : Nat) (acc : List Value) :
    eachLoop (structElement env e1 (.struct inner)) ns idx acc
        = eachLoop (structElement env e2 (.struct inner)) ns idx acc ∧
    eachLoop (structElement env e1 (.struct inner)) ns idx acc ≠ .outOfFuel := by
  induction ns generalizing idx acc with
  | nil => simp [eachLoop]
  | cons n ns ih =>
    have hs : structElement env e1 (.struct inner) idx ⟨[n]⟩ acc
        = structElement env e2 (.struct inner) idx ⟨[n]⟩ acc := by
      simp only [structElement, (h ⟨[n]⟩ .zero).1]
    have hne : structElement env e1 (.struct inner) idx ⟨[n]⟩ acc ≠ .outOfFuel := by
      have h2 := (h ⟨[n]⟩ .zero).2
      obtain ⟨mval, hm⟩ := Items_struct env inner (e1 ⟨[n]⟩ (.struct inner) .zero).1
      cases hx : e1 ⟨[n]⟩ (.struct inner) .zero with
      | mk val st =>
        rw [hx] at h2 hm
        simp only at h2 hm
        rcases st with ⟨⟨⟩⟩ | e | m | _
        · simp [structElement, hx, hm]
        · simp [structElement, hx]
        · simp [structElement, hx]
        · exact absurd rfl h2
    rw [eachLoop, eachLoop, ← hs]
    cases hc : structElement env e1 (.struct inner) idx ⟨[n]⟩ acc with
    | ok st => exact ih _ _
    | error e => simp
    | panic m => simp
    | outOfFuel => exact absurd hc hne

theorem fillSlice_congr (env : Env) (e1 e2 : Extractor) (fieldValue attrName : Str)
    (sel : Selection) (elem : GoType)
    (h : ∀ inner, elem = .struct inner → ∀ sel v,
      e1 sel (.struct inner) v = e2 sel (.struct inner) v ∧
      (e1 sel (.struct inner) v).2 ≠ .outOfFuel) :
    fillSlice env e1 fieldValue attrName sel elem
        = fillSlice env e2 fieldValue attrName sel elem ∧
    fillSlice env e1 fieldValue attrName sel elem ≠ .outOfFuel := by
  have hb := eachLoop_basicElement_ne_outOfFuel fieldValue attrName sel.Nodes 0 []
  cases elem with
  | prim k =>
    cases k <;>
      first
        | exact ⟨rfl, hb⟩
        | exact ⟨rfl, by simp [fillSlice, GoType.Kind, PrimKind.Kind]⟩
  | struct inner => exact eachLoop_structElement_congr env e1 e2 inner (h inner rfl) sel.Nodes 0 []
  | slice e => exact ⟨rfl, by simp [fillSlice, GoType.Kind]⟩
  | array n e => exact ⟨rfl, by simp [fillSlice, GoType.Kind]⟩

theorem setFieldValueByType_congr (env : Env) (e1 e2 : Extractor) (cs : cssStructer)
    (fieldValue fieldName attrName : Str) (sel : Selection) (name : Str)
    (hty : cs.targetType = .struct name) (h : agreeOn env name e1 e2) :
    cs.setFieldValueByType env e1 fieldValue fieldName attrName sel
        = cs.setFieldValueByType env e2 fieldValue fieldName attrName sel ∧
    (cs.setFieldValueByType env e1 fieldValue fieldName attrName sel).2 ≠ .outOfFuel := by
  cases hfb : fieldByName (env.types name) fieldName with
  | none =>
    have hk : GetFieldKind env (.struct name) fieldName
        = .error ("No such field: ".toList ++ fieldName ++ " in obj".toList) := by
      simp [GetFieldKind, structFields, hfb]
    unfold cssStructer.setFieldValueByType
    rw [hty, hk]
    simp
  | some f =>
    have hmem := fieldByName_mem _ _ _ hfb
    have hk := GetFieldKind_of_field env name fieldName f hfb
    have hget := GetField_of_field env name fieldName f cs.targetStruct hfb
    have hptr : getFieldAndPointer env (.struct name) cs.targetStruct fieldName
        = .ok (.reflectValue (cs.targetStruct.getField fieldName),
            (f.Typ, cs.targetStruct.getField fieldName)) := by
      simp [getFieldAndPointer, structFields, hfb]
    unfold cssStructer.setFieldValueByType
    rw [hty, hk, hget, hptr]
    cases hT : f.Typ with
    | prim k =>
      have hne := getFieldValue_ne_outOfFuel fieldValue attrName sel
      cases k <;> simp only [GoType.Kind, PrimKind.Kind, true_and] <;>
        cases hg : getFieldValue fieldValue attrName sel <;>
        first
          | exact absurd hg hne
          | simp
    | struct inner =>
      have hin := h f hmem inner (by rw [hT]; rfl) sel (cs.targetStruct.getField fieldName)
      simp only [GoType.Kind]
      rw [← hin.1]
      refine ⟨rfl, ?_⟩
      have h2 := hin.2
      cases hx : e1 sel (.struct inner) (cs.targetStruct.getField fieldName) with
      | mk val st =>
        rw [hx] at h2
        simp only at h2
        rcases st with ⟨⟨⟩⟩ | e | m | _
        · simp
        · simp
        · simp
        · exact absurd rfl h2
    | slice elem =>
      have hc := fillSlice_congr env e1 e2 fieldValue attrName sel elem (by
        intro inner he
        exact h f hmem inner (by rw [hT, he]; rfl))
      simp only [GoType.Kind, GoType.Elem]
      rw [← hc.1]
      refine ⟨rfl, ?_⟩
      cases hfill : fillSlice env e1 fieldValue attrName sel elem with
      | ok a => simp
      | error e => simp
      | panic m => simp
      | outOfFuel => exact absurd hfill hc.2
    | array len elem =>
      have hc := fillSlice_congr env e1 e2 fieldValue attrName sel elem (by
        intro inner he
        exact h f hmem inner (by rw [hT, he]; rfl))
      simp only [GoType.Kind, GoType.Elem]
      rw [← hc.1]
      refine ⟨rfl, ?_⟩
      cases hfill : fillSlice env e1 fieldValue attrName sel elem with
      | ok a => simp
      | error e => simp
      | panic m => simp
      | outOfFuel => exact absurd hfill hc.2

theorem parseField_congr (env : Env) (e1 e2 : Extractor) (cs : cssStructer)
    (fieldName tag : Str) (resp : Selection) (name : Str)
    (hty : cs.targetType = .struct name) (h : agreeOn env name e1 e2) :
    cs.parseField env e1 fieldName tag resp = cs.parseField env e2 fieldName tag resp ∧
    (cs.parseField env e1 fieldName tag resp).2 ≠ .outOfFuel := by
  unfold cssStructer.parseField
  cases parseTag tag with
  | error e => simp
  | ok r =>
    obtain ⟨selector, valueType, attrName⟩ := r
    exact setFieldValueByType_congr env e1 e2 cs valueType fieldName attrName _ name hty h

theorem parseTargetFieldsLoop_congr (env : Env) (e1 e2 : Extractor) (resp : Selection)
    (name : Str) (h : agreeOn env name e1 e2) (entries : List (Str × Str)) (cs : cssStructer)
    (hty : cs.targetType = .struct name) :
    parseTargetFieldsLoop env e1 resp entries cs = parseTargetFieldsLoop env e2 resp entries cs ∧
    (parseTargetFieldsLoop env e1 resp entries cs).2 ≠ .outOfFuel := by
  induction entries generalizing cs with
  | nil => simp [parseTargetFieldsLoop]
  | cons entry rest ih =>
    obtain ⟨fieldName, fieldTag⟩ := entry
    obtain ⟨hc1, hc2⟩ := parseField_congr env e1 e2 cs fieldName fieldTag resp name hty h
    have htarget := (parseField_target env e1 cs fieldName fieldTag resp name hty).1
    cases hx : cs.parseField env e1 fieldName fieldTag resp with
    | mk cs' o =>
      rw [hx] at hc2 htarget
      have hx2 : cs.parseField env e2 fieldName fieldTag resp = (cs', o) := by rw [← hc1, hx]
      by_cases ho : o = .ok ()
      · subst ho
        rw [parseTargetFieldsLoop_cons_ok env e1 resp _ _ _ _ _ hx,
          parseTargetFieldsLoop_cons_ok env e2 resp _ _ _ _ _ hx2]
        exact ih cs' htarget
      · rw [parseTargetFieldsLoop_cons_fail env e1 resp _ _ _ _ _ _ hx ho,
          parseTargetFieldsLoop_cons_fail env e2 resp _ _ _ _ _ _ hx2 ho]
        exact ⟨rfl, hc2⟩

theorem extractByTagsBody_congr (env : Env) (e1 e2 : Extractor) (name : Str)
    (h : agreeOn env name e1 e2) (src : Selection) (dest : Value) :
    extractByTagsBody env e1 src (.struct name) dest
        = extractByTagsBody env e2 src (.struct name) dest ∧
    (extractByTagsBody env e1 src (.struct name) dest).2 ≠ .outOfFuel := by
  obtain ⟨m, hm, _⟩ := Tags_struct env name
  obtain ⟨hc1, hc2⟩ := parseTargetFieldsLoop_congr env e1 e2 src name h (env.rangeOrder m)
    (initialStructer (.struct name) dest) rfl
  unfold extractByTagsBody
  rw [prepStructer_struct env e1 src name dest m hm,
    prepStructer_struct env e2 src name dest m hm, ← hc1]
  refine ⟨rfl, ?_⟩
  cases hx : parseTargetFieldsLoop env e1 src (env.rangeOrder m)
      (initialStructer (.struct name) dest) with
  | mk cs o =>
    rw [hx] at hc2
    simp only at hc2
    rcases o with ⟨⟨⟩⟩ | e | m | _
    · simp only [cssStructer.GetValue]
      cases env.WeakDecode cs.collectedFieldValues cs.targetType cs.targetStruct with
      | mk v oe => cases oe <;> simp
    · simp
    · simp
    · exact absurd rfl hc2

theorem nestedIn_of_isSequenceOf (ty : GoType) (name : Str)
    (h : isSequenceOf ty (.struct name)) : nestedIn ty = some name := by
  rcases h with h | ⟨len, h⟩ <;> subst h <;> rfl

theorem nestsWithin_self_nested (env : Env) (name : Str) (f : FieldDecl)
    (hf : f ∈ env.types name) (hin : nestedIn f.Typ = some name) :
    ∀ n, nestsWithin env n name = false := by
  intro n
  induction n with
  | zero =>
    rw [nestsWithin, List.all_eq_false]
    exact ⟨f, hf, by simp [hin]⟩
  | succ n ih =>
    rw [nestsWithin, List.all_eq_false]
    exact ⟨f, hf, by simp [hin, ih]⟩

theorem extractByTags_fuel (env : Env) :
    ∀ (n : Nat) (name : Str), nestsWithin env n name = true → ∀ (f1 f2 : Nat), n < f1 → n < f2 →
      ∀ (src : Selection) (dest : Value),
        extractByTags env f1 src (.struct name) dest
            = extractByTags env f2 src (.struct name) dest ∧
        (extractByTags env f1 src (.struct name) dest).2 ≠ .outOfFuel := by
  intro n
  induction n with
  | zero =>
    intro name hd f1 f2 h1 h2 src dest
    obtain ⟨g1, rfl⟩ := Nat.exists_eq_succ_of_ne_zero (by omega : f1 ≠ 0)
    obtain ⟨g2, rfl⟩ := Nat.exists_eq_succ_of_ne_zero (by omega : f2 ≠ 0)
    apply extractByTagsBody_congr env (extractByTags env g1) (extractByTags env g2) name
    intro f hf inner hin sel v
    rw [nestsWithin, List.all_eq_true] at hd
    have := hd f hf
    simp [hin] at this
  | succ n ih =>
    intro name hd f1 f2 h1 h2 src dest
    obtain ⟨g1, rfl⟩ := Nat.exists_eq_succ_of_ne_zero (by omega : f1 ≠ 0)
    obtain ⟨g2, rfl⟩ := Nat.exists_eq_succ_of_ne_zero (by omega : f2 ≠ 0)
    apply extractByTagsBody_congr env (extractByTags env g1) (extractByTags env g2) name
    intro f hf inner hin sel v
    rw [nestsWithin, List.all_eq_true] at hd
    have := hd f hf
    simp only [hin] at this
    exact ih inner this g1 g2 (by omega) (by omega) sel v

/-- The body of `extractByTags` does not come back when the first field visited is a
sequence of records of the destination type itself, with an empty selector, and the
recursive call does not come back on the first element of the selection. -/
theorem self_nested_body_outOfFuel (env : Env) (extract : Extractor)
    (name fieldName tag valueType attrName : Str) (f : FieldDecl) (m rest : List (Str × Str))
    (hm : Tags env (.struct name) = .ok m)
    (hfirst : env.rangeOrder m = (fieldName, tag) :: rest)
    (htag : parseTag tag = .ok ([], valueType, attrName))
    (hdecl : fieldByName (env.types name) fieldName = some f)
    (hseq : isSequenceOf f.Typ (.struct name))
    (n : Node) (ns : List Node) (dest : Value)
    (hx : (extract ⟨[n]⟩ (.struct name) .zero).2 = .outOfFuel) :
    (extractByTagsBody env extract ⟨n :: ns⟩ (.struct name) dest).2 = .outOfFuel := by
  have hs : structElement env extract (.struct name) 0 ⟨[n]⟩ [] = .outOfFuel := by
    cases hx' : extract ⟨[n]⟩ (.struct name) .zero with
    | mk v st =>
      rw [hx'] at hx
      simp only at hx
      subst hx
      simp only [structElement, hx']
  have hfill : fillSlice env extract valueType attrName ⟨n :: ns⟩ (.struct name)
      = .outOfFuel := by
    show eachLoop (structElement env extract (.struct name)) (n :: ns) 0 [] = _
    rw [eachLoop, hs]
  have hkind : f.Typ.Kind = .Slice ∨ f.Typ.Kind = .Array := by
    rcases hseq with h | ⟨len, h⟩
    · left; rw [h]; rfl
    · right; rw [h]; rfl
  have helem : f.Typ.Elem = some (.struct name) := by
    rcases hseq with h | ⟨len, h⟩ <;> rw [h] <;> rfl
  have hset : (initialStructer (.struct name) dest).setFieldValueByType env
      extract valueType fieldName attrName ⟨n :: ns⟩
      = (initialStructer (.struct name) dest, .outOfFuel) := by
    unfold cssStructer.setFieldValueByType
    have hty : (initialStructer (.struct name) dest).targetType = .struct name := rfl
    rw [hty, GetFieldKind_of_field env _ _ _ hdecl,
      GetField_of_field env _ _ _ _ hdecl]
    rcases hkind with hk | hk <;> rw [hk] <;> simp only [helem, hfill]
  have hparse : (initialStructer (.struct name) dest).parseField env extract
      fieldName tag ⟨n :: ns⟩
      = (initialStructer (.struct name) dest, .outOfFuel) := by
    unfold cssStructer.parseField
    rw [htag]
    simp only [if_true]
    exact hset
  have hprep : prepStructer env extract ⟨n :: ns⟩ (.struct name) dest
      = (initialStructer (.struct name) dest, .outOfFuel) := by
    rw [prepStructer_struct env extract _ name dest m hm, hfirst]
    exact parseTargetFieldsLoop_cons_fail env extract _ _ _ _ _ _ _ hparse (by decide)
  unfold extractByTagsBody
  rw [hprep]

theorem self_nested_outOfFuel (env : Env)
    (name fieldName tag valueType attrName : Str) (f : FieldDecl) (m rest : List (Str × Str))
    (hm : Tags env (.struct name) = .ok m)
    (hfirst : env.rangeOrder m = (fieldName, tag) :: rest)
    (htag : parseTag tag = .ok ([], valueType, attrName))
    (hdecl : fieldByName (env.types name) fieldName = some f)
    (hseq : isSequenceOf f.Typ (.struct name)) :
    ∀ (fuel : Nat) (src : Selection) (dest : Value), src.Nodes ≠ [] →
      (extractByTags env fuel src (.struct name) dest).2 = .outOfFuel := by
  intro fuel
  induction fuel with
  | zero =>
    intro src dest _
    rfl
  | succ k ih =>
    intro src dest hne
    obtain ⟨nodes⟩ := src
    cases nodes with
    | nil => exact absurd rfl hne
    | cons n ns =>
      exact self_nested_body_outOfFuel env (extractByTags env k) name fieldName tag valueType
        attrName f m rest hm hfirst htag hdecl hseq n ns dest
        (ih ⟨[n]⟩ .zero (by simp))

/-- C16 (amended): for a destination of a struct type of nesting depth at most `n`,
`extractByTags` terminates on every selection, whatever the other declared types: a
recursion of depth `n + 1`, the outermost call included, is enough, whatever the selection
and the contents of the destination, and allowing a deeper recursion changes nothing.  A
struct type that has a sequence field of its own type has no finite nesting depth; when
that field has an empty selector in a valid tag and is the first field the range loop
visits, the extraction of a selection that is not empty does not come back within any
depth of recursion. -/
theorem extractByTags_terminates (env : Env) :
    (∀ (n : Nat) (name : Str), nestsWithin env n name = true →
      ∀ (fuel : Nat), n < fuel → ∀ (src : Selection) (dest : Value),
        (extractByTags env fuel src (.struct name) dest).2 ≠ .outOfFuel ∧
        extractByTags env fuel src (.struct name) dest
          = extractByTags env (n + 1) src (.struct name) dest) ∧
    (∀ (name : Str) (f : FieldDecl), f ∈ env.types name →
      isSequenceOf f.Typ (.struct name) → ∀ n, nestsWithin env n name = false) ∧
    (∀ (name fieldName tag valueType attrName : Str) (f : FieldDecl)
        (m rest : List (Str × Str)),
      Tags env (.struct name) = .ok m →
      env.rangeOrder m = (fieldName, tag) :: rest →
      parseTag tag = .ok ([], valueType, attrName) →
      fieldByName (env.types name) fieldName = some f →
      isSequenceOf f.Typ (.struct name) →
      ∀ (fuel : Nat) (src : Selection) (dest : Value), src.Nodes ≠ [] →
        (extractByTags env fuel src (.struct name) dest).2 = .outOfFuel) := by
  refine ⟨?_, ?_, ?_⟩
  · intro n name h fuel hfuel src dest
    have := extractByTags_fuel env n name h fuel (n + 1) hfuel (Nat.lt_succ_self _) src dest
    exact ⟨this.2, this.1⟩
  · intro name f hf hseq
    exact nestsWithin_self_nested env name f hf (nestedIn_of_isSequenceOf _ _ hseq)
  · intro name fieldName tag valueType attrName f m rest hm hfirst htag hdecl hseq
    exact self_nested_outOfFuel env name fieldName tag valueType attrName f m rest hm hfirst
      htag hdecl hseq

/-- Witness of `extractByTags_terminates`, among types that include the self-nested `Tree`:
the example type `Entries`, of nesting depth 1, needs a recursion of depth 2 on the example
document, where it succeeds, and a recursion of depth 7 gives the same result; `Tree` has
no nesting depth 3, and its extraction from the example document does not come back with a
recursion of depth 7. -/
theorem extractByTags_terminates_witness :
    ((extractByTags forwardEnv 7 exampleDoc (.struct "Entries".toList) .zero).2 ≠ .outOfFuel ∧
      extractByTags forwardEnv 7 exampleDoc (.struct "Entries".toList) .zero
        = extractByTags forwardEnv 2 exampleDoc (.struct "Entries".toList) .zero) ∧
    (extractByTags forwardEnv 2 exampleDoc (.struct "Entries".toList) .zero).2 = .ok () ∧
    nestsWithin forwardEnv 3 "Tree".toList = false ∧
    (extractByTags forwardEnv 7 exampleDoc (.struct "Tree".toList) .zero).2 = .outOfFuel :=
  ⟨(extractByTags_terminates forwardEnv).1 1 "Entries".toList (by decide) 7 (by decide)
      exampleDoc .zero,
   by decide,
   (extractByTags_terminates forwardEnv).2.1 "Tree".toList
      ⟨"Kids".toList, ";obj".toList, .slice (.struct "Tree".toList)⟩ (by decide)
      (Or.inl rfl) 3,
   (extractByTags_terminates forwardEnv).2.2 "Tree".toList "Kids".toList ";obj".toList [] []
      ⟨"Kids".toList, ";obj".toList, .slice (.struct "Tree".toList)⟩
      [("Kids".toList, ";obj".toList)] [] (by rfl) (by rfl) (by decide) (by decide)
      (Or.inl rfl) 7 exampleDoc .zero (List.cons_ne_nil _ _)⟩

end Sqrape
